import Mathlib

/-!
# The acequia allocation loop of `StudentSolution.cpp`

A shallow embedding of `solveProblems` and its helpers, and the properties of
the hourly allocation passes proved about it.

Modelling conventions.

* `double` is modelled by exact rational arithmetic (`ℚ`) in the embedding of
  the seven passes: no rounding, no NaN, no infinities; the decimal constants of
  the source (`0.45`, `0.2`, `0.25`, `3.6`, `0.1`, `1.1`) denote the exact
  decimal fractions there.
* Targeted fill and the endgame override branch on quantities that rounding
  moves across a threshold (the running `needed` against 0, `isExactlyFilled` at
  the edge of its tolerance). They are embedded a second time, with every
  operation followed by a rounding `fl` (definitions with the suffix `Fl`);
  `binary64` is the rounding of `double`, without overflow.
* `Region*` and `Canal*` are handles (`RegionRef`, `CanalRef`); the objects live
  in stores indexed by handle, so that pointer equality is handle equality and
  a handle occurring twice in a collection aliases one object.
* `manager.hour` and `manager.SimulationMax` are unbounded integers.
* The members declared in `acequia_manager.h` are not part of the sources.
  `Canal::setFlowRate` and `Canal::toggleOpen` are modelled as plain setters;
  `Region::updateWaterLevel`, `AcequiaManager::nexthour` and the order that
  `std::sort` gives to equivalent elements are parameters (`External`).
* `CanalState.trace` is a ghost history of the flow assignments of the current
  hour, in program order. No pass reads it.
* `solveLoop` is the `while` loop with a bound on the number of iterations; it
  returns `none` when the bound is too small for the loop to exit.
* `firstNearest`, `greedyFillFl` and `fillPlanFl` are written from the words of
  the specification, to be compared with the embedding of the code.
-/

namespace Acequia

/-! ## Data model -/

/-- Handle of a region (the value of a `Region*`). -/
abbrev RegionRef := Nat

/-- Handle of a canal (the value of a `Canal*`). -/
abbrev CanalRef := Nat

/-- The fields of `Region` read or written by the loop. -/
structure Region where
  waterLevel : ℚ
  waterNeed : ℚ
  waterCapacity : ℚ
  isFlooded : Bool
  isInDrought : Bool

/-- The fields of `Canal` read or written by the loop. -/
structure Canal where
  sourceRegion : RegionRef
  destinationRegion : RegionRef
  flowRate : ℚ
  isOpen : Bool

/-- The fields of `AcequiaManager` read by the loop. -/
structure Manager where
  isSolved : Bool
  hour : Int
  SimulationMax : Int

abbrev RegionStore := RegionRef → Region

abbrev CanalStore := CanalRef → Canal

/-- Everything owned by the manager: the region objects, the canal objects and
the clock. -/
structure World where
  region : RegionStore
  canal : CanalStore
  mgr : Manager

/-- The state carried from one iteration of the `while` loop to the next: the
manager's world and the local vector `done`. -/
structure LoopState where
  world : World
  done : List RegionRef

/-- The code of `solveProblems` that is not in `StudentSolution.cpp`. -/
structure External where
  /-- The effect of `r->updateWaterLevel(change)` on the region object. -/
  updateWaterLevel : Region → ℚ → Region
  /-- The call `std::sort(first, last, comp)` as a function of `comp` and the
  vector. -/
  sort : (RegionRef → RegionRef → Bool) → List RegionRef → List RegionRef
  /-- The effect of `manager.nexthour()`. -/
  nexthour : World → World

/-- What the C++ standard promises of `std::sort` for the comparator of the
endgame override, which compares a rational key with `<`: the result is a
rearrangement of the input in non-descending key order. Nothing is promised
about the relative order of elements with equal keys. -/
def SortContract (sort : (RegionRef → RegionRef → Bool) → List RegionRef → List RegionRef) :
    Prop :=
  ∀ (key : RegionRef → ℚ) (l : List RegionRef),
    (sort (fun a b => decide (key a < key b)) l).Perm l ∧
    (sort (fun a b => decide (key a < key b)) l).Pairwise (fun a b => key a ≤ key b)

/-! ## Constants and helper functions (lines 7-25) -/

def LOW_DONOR_THRESHOLD : ℚ := 0.45

def DROUGHT_THRESHOLD : ℚ := 0.2

def MINIMUM_FLOW : ℚ := 0.25

def isExactlyFilled (r : Region) : Bool :=
  decide (|r.waterLevel - (r.waterNeed + 1.0)| < 0.1)

def isStable (r : Region) : Bool :=
  !r.isFlooded && !r.isInDrought

def availableSurplus (donor : Region) : ℚ :=
  max 0.0 (donor.waterLevel - donor.waterNeed * LOW_DONOR_THRESHOLD)

def clamp (value low high : ℚ) : ℚ :=
  max low (min high value)

/-- The local `delta` of lines 49-50: the crisis target of `r` minus its level. -/
def crisisDelta (r : Region) : ℚ :=
  let target :=
    if r.isFlooded = true then r.waterNeed + 1.0
    else r.waterCapacity * DROUGHT_THRESHOLD + 1
  target - r.waterLevel

/-- The local `excess` of lines 64 and 107. -/
def regionExcess (r : Region) : ℚ :=
  r.waterLevel - (r.waterNeed + 1.0)

/-- The initial value of the local `needed` of lines 83 and 133. -/
def remainingNeed (r : Region) : ℚ :=
  (r.waterNeed + 1.0) - r.waterLevel

/-! ## Canal writes -/

/-- Modelled from the spec: `Canal::setFlowRate` is declared in
`acequia_manager.h`, which is not among the sources; the spec gives it as the
setter `setFlow(rate)`. -/
def Canal.setFlowRate (c : Canal) (rate : ℚ) : Canal :=
  { c with flowRate := rate }

/-- Modelled from the spec: `Canal::toggleOpen` is declared in
`acequia_manager.h`, which is not among the sources; the spec gives it as the
setter `setOpen(bool)`. -/
def Canal.toggleOpen (c : Canal) (o : Bool) : Canal :=
  { c with isOpen := o }

/-- The place of a flow assignment in `solveProblems`. -/
inductive Pass where
  /-- Lines 58-62: relief into a flooded or drought region. -/
  | crisisRelief
  /-- Lines 63-68: drain out of a flooded region. -/
  | crisisDrain
  /-- Lines 92-96. -/
  | targetedFill
  /-- Lines 112-116. -/
  | overflowDrain
  /-- Lines 144-148. -/
  | endgame
  deriving DecidableEq, Repr

/-- Ghost record of one flow assignment: the canal written, the quantity whose
division by 3.6 is the first argument of `clamp`, the third argument of `clamp`
and the flow that was set. -/
structure Assignment where
  pass : Pass
  canal : CanalRef
  value : ℚ
  high : ℚ
  flow : ℚ
  deriving DecidableEq

/-- The canal objects together with the ghost history of assignments. -/
structure CanalState where
  canal : CanalStore
  trace : List Assignment

/-- The call `canal->setFlowRate(rate)` on the canal with handle `c`. -/
def CanalState.setFlowRate (s : CanalState) (c : CanalRef) (rate : ℚ) : CanalState :=
  { s with canal := Function.update s.canal c ((s.canal c).setFlowRate rate) }

/-- The call `canal->toggleOpen(o)` on the canal with handle `c`. -/
def CanalState.toggleOpen (s : CanalState) (c : CanalRef) (o : Bool) : CanalState :=
  { s with canal := Function.update s.canal c ((s.canal c).toggleOpen o) }

/-- Ghost step: append a record to the history. -/
def CanalState.note (s : CanalState) (a : Assignment) : CanalState :=
  { s with trace := s.trace ++ [a] }

/-- The statement pair `canal->setFlowRate(flow); canal->toggleOpen(true);`
that every pass uses to assign a flow, followed by the ghost record of it. -/
def CanalState.assign (s : CanalState) (a : Assignment) : CanalState :=
  ((s.setFlowRate a.canal a.flow).toggleOpen a.canal true).note a

/-! ## Pass 1: drought buffering (lines 36-40) -/

/-- Body of the loop of lines 36-40. -/
def bufferRegion (E : External) (rs : RegionStore) (r : RegionRef) : RegionStore :=
  if (rs r).isInDrought = true ∧
      (rs r).waterLevel < (rs r).waterCapacity * DROUGHT_THRESHOLD + 5 then
    Function.update rs r (E.updateWaterLevel (rs r) 5.0)
  else rs

def droughtBuffer (E : External) (regions : List RegionRef) (rs : RegionStore) : RegionStore :=
  regions.foldl (bufferRegion E) rs

/-! ## Pass 2: canal reset (line 41) -/

def canalReset (canals : List CanalRef) (cs : CanalStore) : CanalStore :=
  canals.foldl (fun cs c => Function.update cs c ((cs c).toggleOpen false)) cs

/-! ## Pass 3: crisis relief (lines 47-71) -/

/-- Body of the canal loop of lines 57-69. -/
def crisisCanal (rs : RegionStore) (r other : RegionRef) (delta surplus : ℚ)
    (s : CanalState) (c : CanalRef) : CanalState :=
  let s1 :=
    if (s.canal c).sourceRegion = other ∧ (s.canal c).destinationRegion = r then
      let flow := clamp (delta / 3.6) MINIMUM_FLOW surplus
      s.assign ⟨Pass.crisisRelief, c, delta, surplus, flow⟩
    else s
  if (s1.canal c).sourceRegion = r ∧ (s1.canal c).destinationRegion = other ∧
      (rs r).isFlooded = true then
    let flow := clamp (regionExcess (rs r) / 3.6) MINIMUM_FLOW (regionExcess (rs r))
    s1.assign ⟨Pass.crisisDrain, c, regionExcess (rs r), regionExcess (rs r), flow⟩
  else s1

/-- Body of the loop over `other` of lines 52-70. -/
def crisisOther (rs : RegionStore) (canals : List CanalRef) (r : RegionRef) (delta : ℚ)
    (s : CanalState) (other : RegionRef) : CanalState :=
  if r = other ∨ isStable (rs other) = false then s
  else
    let surplus := availableSurplus (rs other)
    if surplus ≤ 0 then s
    else canals.foldl (crisisCanal rs r other delta surplus) s

/-- Body of the loop over `r` of lines 47-71. -/
def crisisRegion (rs : RegionStore) (regions : List RegionRef) (canals : List CanalRef)
    (s : CanalState) (r : RegionRef) : CanalState :=
  if (rs r).isInDrought = false ∧ (rs r).isFlooded = false then s
  else
    regions.foldl (crisisOther rs canals r (crisisDelta (rs r))) s

def crisisRelief (rs : RegionStore) (regions : List RegionRef) (canals : List CanalRef)
    (s : CanalState) : CanalState :=
  regions.foldl (crisisRegion rs regions canals) s

/-! ## Pass 4: completion marking (lines 74-78) -/

/-- Body of the loop of lines 74-78. -/
def markRegion (rs : RegionStore) (done : List RegionRef) (r : RegionRef) : List RegionRef :=
  if isExactlyFilled (rs r) = true ∧ r ∉ done then done ++ [r] else done

def markDone (rs : RegionStore) (regions : List RegionRef) (done : List RegionRef) :
    List RegionRef :=
  regions.foldl (markRegion rs) done

/-! ## Pass 5: targeted fill (lines 81-102) -/

/-- The canal loop with `break` of lines 91-99, which lines 143-151 repeat
verbatim in the endgame override. The state is the canals and the local
`needed`; `p` only tags the ghost records. -/
def fillCanals (p : Pass) (donor target : RegionRef) (surplus : ℚ) :
    List CanalRef → CanalState × ℚ → CanalState × ℚ
  | [], sn => sn
  | c :: rest, (s, needed) =>
    if (s.canal c).sourceRegion = donor ∧ (s.canal c).destinationRegion = target then
      let flow := clamp (needed / 3.6) MINIMUM_FLOW surplus
      let s1 := s.assign ⟨p, c, needed, surplus, flow⟩
      let needed1 := needed - flow * 3.6
      if needed1 ≤ 0 then (s1, needed1)
      else fillCanals p donor target surplus rest (s1, needed1)
    else fillCanals p donor target surplus rest (s, needed)

/-- The donor loop with `break` of lines 86-101. -/
def fillDonors (rs : RegionStore) (done : List RegionRef) (canals : List CanalRef)
    (target : RegionRef) : List RegionRef → CanalState × ℚ → CanalState × ℚ
  | [], sn => sn
  | donor :: rest, (s, needed) =>
    if donor = target ∨ isStable (rs donor) = false ∨ donor ∈ done then
      fillDonors rs done canals target rest (s, needed)
    else
      let surplus := availableSurplus (rs donor)
      if surplus ≤ 0 then fillDonors rs done canals target rest (s, needed)
      else
        let sn1 := fillCanals Pass.targetedFill donor target surplus canals (s, needed)
        if sn1.2 ≤ 0 then sn1
        else fillDonors rs done canals target rest sn1

/-- Body of the loop over `target` of lines 81-102. -/
def fillTarget (rs : RegionStore) (done regions : List RegionRef) (canals : List CanalRef)
    (s : CanalState) (target : RegionRef) : CanalState :=
  if target ∈ done ∨ isStable (rs target) = false then s
  else
    let needed := remainingNeed (rs target)
    if needed ≤ 0 then s
    else (fillDonors rs done canals target regions (s, needed)).1

def targetedFill (rs : RegionStore) (done regions : List RegionRef) (canals : List CanalRef)
    (s : CanalState) : CanalState :=
  regions.foldl (fillTarget rs done regions canals) s

/-! ## Pass 6: overflow drain (lines 105-119) -/

/-- Body of the canal loop of lines 111-117. -/
def drainCanal (r target : RegionRef) (excess : ℚ) (s : CanalState) (c : CanalRef) :
    CanalState :=
  if (s.canal c).sourceRegion = r ∧ (s.canal c).destinationRegion = target then
    let flow := clamp (excess / 3.6) MINIMUM_FLOW excess
    s.assign ⟨Pass.overflowDrain, c, excess, excess, flow⟩
  else s

/-- Body of the loop over `target` of lines 109-118. -/
def drainTarget (rs : RegionStore) (canals : List CanalRef) (r : RegionRef) (excess : ℚ)
    (s : CanalState) (target : RegionRef) : CanalState :=
  if target = r ∨ isStable (rs target) = false ∨ isExactlyFilled (rs target) = true then s
  else canals.foldl (drainCanal r target excess) s

/-- Body of the loop over `r` of lines 105-119. -/
def drainRegion (rs : RegionStore) (regions : List RegionRef) (canals : List CanalRef)
    (s : CanalState) (r : RegionRef) : CanalState :=
  if (rs r).waterLevel ≤ (rs r).waterNeed + 1.1 then s
  else
    regions.foldl (drainTarget rs canals r (regionExcess (rs r))) s

def overflowDrain (rs : RegionStore) (regions : List RegionRef) (canals : List CanalRef)
    (s : CanalState) : CanalState :=
  regions.foldl (drainRegion rs regions canals) s

/-! ## Pass 7: endgame override (lines 122-156) -/

/-- The vector `remaining` of lines 123-126. -/
def endgameRemaining (rs : RegionStore) (regions : List RegionRef) : List RegionRef :=
  regions.filter (fun r => !isExactlyFilled (rs r))

/-- The sort key of the comparator of line 128. -/
def endgameKey (rs : RegionStore) (r : RegionRef) : ℚ :=
  (rs r).waterNeed - (rs r).waterLevel

/-- The vector `remaining` after the `std::sort` of lines 127-129. -/
def endgameSorted (E : External) (rs : RegionStore) (regions : List RegionRef) :
    List RegionRef :=
  E.sort (fun a b => decide (endgameKey rs a < endgameKey rs b)) (endgameRemaining rs regions)

/-- The region `remaining.front()` of line 132, if `remaining` is not empty. -/
def endgameTarget (E : External) (rs : RegionStore) (regions : List RegionRef) :
    Option RegionRef :=
  (endgameSorted E rs regions).head?

/-- The local `minFloor` of lines 137-139. -/
def endgameFloor (mgr : Manager) (donor : Region) : ℚ :=
  if mgr.SimulationMax - mgr.hour ≤ 1 then 1.0
  else max 1.0 (donor.waterNeed * DROUGHT_THRESHOLD + 1)

/-- The local `surplus` of line 140. -/
def endgameSurplus (mgr : Manager) (donor : Region) : ℚ :=
  donor.waterLevel - endgameFloor mgr donor

/-- The donor loop with `break` of lines 135-153. -/
def endgameDonors (rs : RegionStore) (mgr : Manager) (canals : List CanalRef)
    (target : RegionRef) : List RegionRef → CanalState × ℚ → CanalState × ℚ
  | [], sn => sn
  | donor :: rest, (s, needed) =>
    if donor = target ∨ isExactlyFilled (rs donor) = true then
      endgameDonors rs mgr canals target rest (s, needed)
    else
      let surplus := endgameSurplus mgr (rs donor)
      if surplus ≤ 0 then endgameDonors rs mgr canals target rest (s, needed)
      else
        let sn1 := fillCanals Pass.endgame donor target surplus canals (s, needed)
        if sn1.2 ≤ 0 then sn1
        else endgameDonors rs mgr canals target rest sn1

def endgameOverride (E : External) (rs : RegionStore) (mgr : Manager)
    (regions : List RegionRef) (canals : List CanalRef) (s : CanalState) : CanalState :=
  if mgr.SimulationMax - mgr.hour ≤ 5 then
    match endgameTarget E rs regions with
    | none => s
    | some target =>
      let needed := remainingNeed (rs target)
      if needed > 0 then (endgameDonors rs mgr canals target regions (s, needed)).1
      else s
  else s

/-! ## One iteration and the loop (lines 34-159) -/

/-- The canals at the end of the seven passes of one iteration, with the
history of the assignments made. `rs` is the region store after drought
buffering and `done` the done set after completion marking. -/
def hourCanals (E : External) (regions : List RegionRef) (canals : List CanalRef)
    (st : LoopState) : CanalState :=
  let rs := droughtBuffer E regions st.world.region
  let s0 : CanalState := ⟨canalReset canals st.world.canal, []⟩
  let s1 := crisisRelief rs regions canals s0
  let done := markDone rs regions st.done
  let s2 := targetedFill rs done regions canals s1
  let s3 := overflowDrain rs regions canals s2
  endgameOverride E rs st.world.mgr regions canals s3

/-- The loop state at the end of the seven passes of one iteration (lines
35-156), before `manager.nexthour()`. -/
def hourPasses (E : External) (regions : List RegionRef) (canals : List CanalRef)
    (st : LoopState) : LoopState :=
  let rs := droughtBuffer E regions st.world.region
  { world := ⟨rs, (hourCanals E regions canals st).canal, st.world.mgr⟩
    done := markDone rs regions st.done }

/-- The history of the flow assignments made in one iteration. -/
def hourTrace (E : External) (regions : List RegionRef) (canals : List CanalRef)
    (st : LoopState) : List Assignment :=
  (hourCanals E regions canals st).trace

/-- The loop condition of line 34. -/
def loopCondition (m : Manager) : Bool :=
  !m.isSolved && m.hour != m.SimulationMax

/-- One evaluation of the `while` of line 34: if the condition holds, the body
(the passes, then `manager.nexthour()`) runs; otherwise the loop has exited and
the state stays as it is. -/
def loopStep (E : External) (regions : List RegionRef) (canals : List CanalRef)
    (st : LoopState) : LoopState :=
  if loopCondition st.world.mgr = true then
    let st1 := hourPasses E regions canals st
    { st1 with world := E.nexthour st1.world }
  else st

/-- The state after at most `n` iterations of the loop. -/
def runHours (E : External) (regions : List RegionRef) (canals : List CanalRef) :
    Nat → LoopState → LoopState
  | 0, st => st
  | n + 1, st => loopStep E regions canals (runHours E regions canals n st)

/-- The state in which `solveProblems` enters its loop: `done` is empty. -/
def initialState (w : World) : LoopState :=
  { world := w, done := [] }

/-- The body of the `while` loop, lines 35-158: the seven passes, then
`manager.nexthour()` once. -/
def loopBody (E : External) (regions : List RegionRef) (canals : List CanalRef)
    (st : LoopState) : LoopState :=
  let st1 := hourPasses E regions canals st
  { st1 with world := E.nexthour st1.world }

/-- The `while` loop of lines 34-159 with a bound `fuel` on the number of
iterations: the number of iterations made together with the state at exit, or
`none` when the loop has not exited within `fuel` iterations. -/
def solveLoop (E : External) (regions : List RegionRef) (canals : List CanalRef) :
    Nat → LoopState → Option (Nat × LoopState)
  | 0, st => if loopCondition st.world.mgr = true then none else some (0, st)
  | fuel + 1, st =>
    if loopCondition st.world.mgr = true then
      (solveLoop E regions canals fuel (loopBody E regions canals st)).map
        (fun p => (p.1 + 1, p.2))
    else some (0, st)

/-! ## Concrete instances of the external code -/

/-- Modelled from the spec: `Region::updateWaterLevel` is declared in
`acequia_manager.h`, which is not among the sources; the spec gives it as
`adjustLevel(delta)`, which applies a relative change to the level. -/
def Region.addLevel (r : Region) (change : ℚ) : Region :=
  { r with waterLevel := r.waterLevel + change }

/-- A stable sort for the comparator `lt`: insertion sort, which keeps
equivalent elements in their input order. -/
def stableSort (lt : RegionRef → RegionRef → Bool) (l : List RegionRef) : List RegionRef :=
  l.insertionSort (fun a b => lt b a = false)

/-- A sort for the comparator `lt` that puts equivalent elements in the reverse
of their input order. -/
def reversingSort (lt : RegionRef → RegionRef → Bool) (l : List RegionRef) : List RegionRef :=
  stableSort lt l.reverse

/-- A clock that only counts: `hour` goes up by one. -/
def tick (w : World) : World :=
  { w with mgr := { w.mgr with hour := w.mgr.hour + 1 } }

/-- External code with an additive level update, a stable sort and a counting
clock. -/
def stdExternal : External :=
  { updateWaterLevel := Region.addLevel, sort := stableSort, nexthour := tick }

/-- The same external code with the sort that reverses equivalent elements. -/
def revExternal : External :=
  { updateWaterLevel := Region.addLevel, sort := reversingSort, nexthour := tick }

/-! ## Ghost predicates on the history -/

/-- The latest record of the history for canal `c`, if there is one. -/
def lastAssignment (tr : List Assignment) (c : CanalRef) : Option Assignment :=
  (tr.filter (fun a => a.canal = c)).getLast?

/-- The canal store described by a base store `cs0` and a history: a canal
without a record is as in `cs0`; a canal with a record is open with the flow of
its latest record. -/
def replay (cs0 : CanalStore) (tr : List Assignment) : CanalStore :=
  fun c =>
    match lastAssignment tr c with
    | none => cs0 c
    | some a => { cs0 c with flowRate := a.flow, isOpen := true }

/-- The conditions under which `solveProblems` reaches each of its five flow
assignments, read off the `if`/`continue` guards around it. `src` and `dst` are
the end points of the canal written; `rs` is the region store and `done` the
done set that the passes read. -/
inductive Guard (E : External) (rs : RegionStore) (done : List RegionRef) (mgr : Manager)
    (regions : List RegionRef) (canals : List CanalRef) (src dst : RegionRef) :
    Assignment → Prop
  /-- Lines 47-62, with `r = dst` and `other = src`. -/
  | crisisRelief (c : CanalRef) :
      c ∈ canals → dst ∈ regions → src ∈ regions → dst ≠ src →
      ¬ ((rs dst).isInDrought = false ∧ (rs dst).isFlooded = false) →
      isStable (rs src) = true → 0 < availableSurplus (rs src) →
      Guard E rs done mgr regions canals src dst
        ⟨Pass.crisisRelief, c, crisisDelta (rs dst), availableSurplus (rs src),
          clamp (crisisDelta (rs dst) / 3.6) MINIMUM_FLOW (availableSurplus (rs src))⟩
  /-- Lines 47-57 and 63-68, with `r = src` and `other = dst`. -/
  | crisisDrain (c : CanalRef) :
      c ∈ canals → src ∈ regions → dst ∈ regions → src ≠ dst →
      (rs src).isFlooded = true →
      isStable (rs dst) = true → 0 < availableSurplus (rs dst) →
      Guard E rs done mgr regions canals src dst
        ⟨Pass.crisisDrain, c, regionExcess (rs src), regionExcess (rs src),
          clamp (regionExcess (rs src) / 3.6) MINIMUM_FLOW (regionExcess (rs src))⟩
  /-- Lines 81-96, with `target = dst` and `donor = src`; `needed` is the
  running value of the local. -/
  | targetedFill (c : CanalRef) (needed : ℚ) :
      c ∈ canals → dst ∈ regions → src ∈ regions → src ≠ dst →
      dst ∉ done → isStable (rs dst) = true →
      src ∉ done → isStable (rs src) = true → 0 < availableSurplus (rs src) →
      0 < needed →
      Guard E rs done mgr regions canals src dst
        ⟨Pass.targetedFill, c, needed, availableSurplus (rs src),
          clamp (needed / 3.6) MINIMUM_FLOW (availableSurplus (rs src))⟩
  /-- Lines 105-116, with `r = src` and `target = dst`. -/
  | overflowDrain (c : CanalRef) :
      c ∈ canals → src ∈ regions → dst ∈ regions →
      (rs src).waterNeed + 1.1 < (rs src).waterLevel →
      dst ≠ src → isStable (rs dst) = true → isExactlyFilled (rs dst) = false →
      Guard E rs done mgr regions canals src dst
        ⟨Pass.overflowDrain, c, regionExcess (rs src), regionExcess (rs src),
          clamp (regionExcess (rs src) / 3.6) MINIMUM_FLOW (regionExcess (rs src))⟩
  /-- Lines 122-148, with `target = dst` and `donor = src`; `needed` is the
  running value of the local. -/
  | endgame (c : CanalRef) (needed : ℚ) :
      c ∈ canals → src ∈ regions →
      mgr.SimulationMax - mgr.hour ≤ 5 → endgameTarget E rs regions = some dst →
      src ≠ dst → isExactlyFilled (rs src) = false → 0 < endgameSurplus mgr (rs src) →
      0 < needed →
      Guard E rs done mgr regions canals src dst
        ⟨Pass.endgame, c, needed, endgameSurplus mgr (rs src),
          clamp (needed / 3.6) MINIMUM_FLOW (endgameSurplus mgr (rs src))⟩

/-- A property of canal states that every guarded assignment of the passes
selected by `ps` preserves. -/
def StepClosed (E : External) (rs : RegionStore) (done : List RegionRef) (mgr : Manager)
    (regions : List RegionRef) (canals : List CanalRef) (ps : Pass → Prop)
    (I : CanalState → Prop) : Prop :=
  ∀ (s : CanalState) (a : Assignment), ps a.pass →
    Guard E rs done mgr regions canals (s.canal a.canal).sourceRegion
      (s.canal a.canal).destinationRegion a →
    I s → I (s.assign a)

/-- The invariant of the passes that follow the canal reset: the canal store is
the replay of the history over the store `cs0` left by the reset, and every
record of the history is a guarded assignment. -/
def HourInv (E : External) (rs : RegionStore) (done : List RegionRef) (mgr : Manager)
    (regions : List RegionRef) (canals : List CanalRef) (cs0 : CanalStore)
    (s : CanalState) : Prop :=
  s.canal = replay cs0 s.trace ∧
  ∀ a ∈ s.trace, Guard E rs done mgr regions canals (cs0 a.canal).sourceRegion
    (cs0 a.canal).destinationRegion a

/-- The upper bound that each assignment hands to `clamp`, as a function of the
source region `src` of the canal: the surplus of the donor (lines 54, 88), the
excess of the drained region (lines 64, 107) or the endgame surplus of the
donor (line 140). -/
def passBound (mgr : Manager) (rs : RegionStore) (src : RegionRef) : Pass → ℚ
  | Pass.crisisRelief => availableSurplus (rs src)
  | Pass.crisisDrain => regionExcess (rs src)
  | Pass.targetedFill => availableSurplus (rs src)
  | Pass.overflowDrain => regionExcess (rs src)
  | Pass.endgame => endgameSurplus mgr (rs src)

/-- A property of canal states that every assignment preserves, guarded or
not. -/
def AssignClosed (I : CanalState → Prop) : Prop :=
  ∀ (s : CanalState) (a : Assignment), I s → I (s.assign a)

/-- The assignments of a list made one after the other. -/
def CanalState.assignAll (s : CanalState) (l : List Assignment) : CanalState :=
  l.foldl CanalState.assign s

/-- The canals of `s` have the end points that they have in `cs`. -/
def SameEnds (cs : CanalStore) (s : CanalState) : Prop :=
  ∀ c, (s.canal c).sourceRegion = (cs c).sourceRegion ∧
    (s.canal c).destinationRegion = (cs c).destinationRegion

/-- The number of records of a history that are tagged `p` and write canal
`c`. -/
def tagCount (p : Pass) (c : CanalRef) (tr : List Assignment) : Nat :=
  tr.countP (fun x => decide (x.pass = p ∧ x.canal = c))

/-- Canal `c` of the state `s` runs from region `a` to region `b`. -/
def Runs (c : CanalRef) (a b : RegionRef) (s : CanalState) : Prop :=
  (s.canal c).sourceRegion = a ∧ (s.canal c).destinationRegion = b

/-! ## The endgame target in the words of the specification -/

/-- Round to the nearest integer, ties to the even one. -/
def roundHalfEven (x : ℚ) : ℤ :=
  if x - ⌊x⌋ < 1 / 2 then ⌊x⌋
  else if 1 / 2 < x - ⌊x⌋ then ⌊x⌋ + 1
  else if ⌊x⌋ % 2 = 0 then ⌊x⌋ else ⌊x⌋ + 1

/-- The power `2 ^ e` for an integer exponent `e`. -/
def pow2 (e : ℤ) : ℚ :=
  if 0 ≤ e then ((2 ^ e.toNat : ℕ) : ℚ) else 1 / ((2 ^ (-e).toNat : ℕ) : ℚ)

/-- Halve `n` until it is below 2, at most `fuel` times, and count. -/
def bitsAux : Nat → Nat → Nat
  | 0, _ => 0
  | fuel + 1, n => if n < 2 then 0 else bitsAux fuel (n / 2) + 1

/-- The position of the leading bit of `n > 0`: the `k` with
`2 ^ k <= n < 2 ^ (k + 1)`. -/
def ilog2 (n : Nat) : Nat :=
  bitsAux n n

/-- The binade of `x ≠ 0`: the `k` with `2 ^ k <= |x| < 2 ^ (k + 1)`. -/
def binade (x : ℚ) : ℤ :=
  if pow2 ((ilog2 x.num.natAbs : ℤ) - (ilog2 x.den : ℤ)) ≤ |x| then
    (ilog2 x.num.natAbs : ℤ) - (ilog2 x.den : ℤ)
  else (ilog2 x.num.natAbs : ℤ) - (ilog2 x.den : ℤ) - 1

/-- The exponent of the unit in the last place of the binary64 numbers around
`x`: 52 below the binade for normal numbers, `-1074` for subnormal ones. -/
def ulpExponent (x : ℚ) : ℤ :=
  max (binade x - 52) (-1074)

/-- Rounding of a magnitude `x >= 0` to binary64: the nearest multiple of the
unit in the last place, ties to even. -/
def roundMagnitude (x : ℚ) : ℚ :=
  if x = 0 then 0
  else (roundHalfEven (x / pow2 (ulpExponent x)) : ℚ) * pow2 (ulpExponent x)

/-- The binary64 number nearest to `x`, ties to even: what a `double` operation
with exact result `x` returns, and the value of a decimal literal `x`. -/
def binary64 (x : ℚ) : ℚ :=
  if x < 0 then -roundMagnitude (-x) else roundMagnitude x

/-- What the proofs use of the rounding `fl` of a binary floating-point format
with unit roundoff `u` and smallest normal number `tiny`: it is monotone, keeps
0 and `tiny`, has relative error at most `u` on and above `tiny`, and also on
the difference of two numbers of the format, however small. -/
structure Rounding (fl : ℚ → ℚ) (u tiny : ℚ) : Prop where
  mono : Monotone fl
  zero : fl 0 = 0
  err : ∀ x, tiny ≤ |x| → |fl x - x| ≤ u * |x|
  err_sub : ∀ a b, |fl (fl a - fl b) - (fl a - fl b)| ≤ u * |fl a - fl b|
  tiny_fixed : fl tiny = tiny
  tiny_pos : 0 < tiny
  tiny_le : tiny ≤ 1 / 4
  u_nonneg : 0 ≤ u
  u_le : u ≤ 1 / 32

/-! ## Targeted fill and the endgame override in double arithmetic

The helpers of lines 11-21 and the passes of lines 81-102 and 122-156 once
more, with every arithmetic operation followed by the rounding `fl` of the
floating-point format and every decimal literal that is not a binary fraction
(`0.45`, `0.2`, `3.6`, `0.1`) replaced by its rounded value; comparisons,
`std::abs`, `std::max` and `std::min` are exact. With `fl = binary64` this is
the arithmetic of `double`; with `fl = id` these are the definitions above. -/

/-- Lines 11-13 in double arithmetic. -/
def isExactlyFilledFl (fl : ℚ → ℚ) (r : Region) : Bool :=
  decide (|fl (r.waterLevel - fl (r.waterNeed + 1.0))| < fl 0.1)

/-- Lines 19-21 in double arithmetic. -/
def availableSurplusFl (fl : ℚ → ℚ) (donor : Region) : ℚ :=
  max 0.0 (fl (donor.waterLevel - fl (donor.waterNeed * fl LOW_DONOR_THRESHOLD)))

/-- The initial value of the local `needed` of lines 83 and 133 in double
arithmetic. -/
def remainingNeedFl (fl : ℚ → ℚ) (r : Region) : ℚ :=
  fl (fl (r.waterNeed + 1.0) - r.waterLevel)

/-- The canal loop with `break` of lines 91-99 and 143-151 in double
arithmetic. -/
def fillCanalsFl (fl : ℚ → ℚ) (p : Pass) (donor target : RegionRef) (surplus : ℚ) :
    List CanalRef → CanalState × ℚ → CanalState × ℚ
  | [], sn => sn
  | c :: rest, (s, needed) =>
    if (s.canal c).sourceRegion = donor ∧ (s.canal c).destinationRegion = target then
      let flow := clamp (fl (needed / fl 3.6)) MINIMUM_FLOW surplus
      let s1 := s.assign ⟨p, c, needed, surplus, flow⟩
      let needed1 := fl (needed - fl (flow * fl 3.6))
      if needed1 ≤ 0 then (s1, needed1)
      else fillCanalsFl fl p donor target surplus rest (s1, needed1)
    else fillCanalsFl fl p donor target surplus rest (s, needed)

/-- The donor loop with `break` of lines 86-101 in double arithmetic. -/
def fillDonorsFl (fl : ℚ → ℚ) (rs : RegionStore) (done : List RegionRef)
    (canals : List CanalRef) (target : RegionRef) :
    List RegionRef → CanalState × ℚ → CanalState × ℚ
  | [], sn => sn
  | donor :: rest, (s, needed) =>
    if donor = target ∨ isStable (rs donor) = false ∨ donor ∈ done then
      fillDonorsFl fl rs done canals target rest (s, needed)
    else
      let surplus := availableSurplusFl fl (rs donor)
      if surplus ≤ 0 then fillDonorsFl fl rs done canals target rest (s, needed)
      else
        let sn1 := fillCanalsFl fl Pass.targetedFill donor target surplus canals (s, needed)
        if sn1.2 ≤ 0 then sn1
        else fillDonorsFl fl rs done canals target rest sn1

/-- Body of the loop over `target` of lines 81-102 in double arithmetic. -/
def fillTargetFl (fl : ℚ → ℚ) (rs : RegionStore) (done regions : List RegionRef)
    (canals : List CanalRef) (s : CanalState) (target : RegionRef) : CanalState :=
  if target ∈ done ∨ isStable (rs target) = false then s
  else
    let needed := remainingNeedFl fl (rs target)
    if needed ≤ 0 then s
    else (fillDonorsFl fl rs done canals target regions (s, needed)).1

/-- Targeted fill, lines 81-102, in double arithmetic. -/
def targetedFillFl (fl : ℚ → ℚ) (rs : RegionStore) (done regions : List RegionRef)
    (canals : List CanalRef) (s : CanalState) : CanalState :=
  regions.foldl (fillTargetFl fl rs done regions canals) s

/-- The vector `remaining` of lines 123-126 in double arithmetic. -/
def endgameRemainingFl (fl : ℚ → ℚ) (rs : RegionStore) (regions : List RegionRef) :
    List RegionRef :=
  regions.filter (fun r => !isExactlyFilledFl fl (rs r))

/-- The sort key of the comparator of line 128 in double arithmetic. -/
def endgameKeyFl (fl : ℚ → ℚ) (rs : RegionStore) (r : RegionRef) : ℚ :=
  fl ((rs r).waterNeed - (rs r).waterLevel)

/-- The vector `remaining` after the `std::sort` of lines 127-129. -/
def endgameSortedFl (fl : ℚ → ℚ) (E : External) (rs : RegionStore)
    (regions : List RegionRef) : List RegionRef :=
  E.sort (fun a b => decide (endgameKeyFl fl rs a < endgameKeyFl fl rs b))
    (endgameRemainingFl fl rs regions)

/-- The region `remaining.front()` of line 132, if `remaining` is not empty. -/
def endgameTargetFl (fl : ℚ → ℚ) (E : External) (rs : RegionStore)
    (regions : List RegionRef) : Option RegionRef :=
  (endgameSortedFl fl E rs regions).head?

/-- The local `minFloor` of lines 137-139 in double arithmetic. -/
def endgameFloorFl (fl : ℚ → ℚ) (mgr : Manager) (donor : Region) : ℚ :=
  if mgr.SimulationMax - mgr.hour ≤ 1 then 1.0
  else max 1.0 (fl (fl (donor.waterNeed * fl DROUGHT_THRESHOLD) + 1))

/-- The local `surplus` of line 140 in double arithmetic. -/
def endgameSurplusFl (fl : ℚ → ℚ) (mgr : Manager) (donor : Region) : ℚ :=
  fl (donor.waterLevel - endgameFloorFl fl mgr donor)

/-- The donor loop with `break` of lines 135-153 in double arithmetic. -/
def endgameDonorsFl (fl : ℚ → ℚ) (rs : RegionStore) (mgr : Manager)
    (canals : List CanalRef) (target : RegionRef) :
    List RegionRef → CanalState × ℚ → CanalState × ℚ
  | [], sn => sn
  | donor :: rest, (s, needed) =>
    if donor = target ∨ isExactlyFilledFl fl (rs donor) = true then
      endgameDonorsFl fl rs mgr canals target rest (s, needed)
    else
      let surplus := endgameSurplusFl fl mgr (rs donor)
      if surplus ≤ 0 then endgameDonorsFl fl rs mgr canals target rest (s, needed)
      else
        let sn1 := fillCanalsFl fl Pass.endgame donor target surplus canals (s, needed)
        if sn1.2 ≤ 0 then sn1
        else endgameDonorsFl fl rs mgr canals target rest sn1

/-- The endgame override, lines 122-156, in double arithmetic. -/
def endgameOverrideFl (fl : ℚ → ℚ) (E : External) (rs : RegionStore) (mgr : Manager)
    (regions : List RegionRef) (canals : List CanalRef) (s : CanalState) : CanalState :=
  if mgr.SimulationMax - mgr.hour ≤ 5 then
    match endgameTargetFl fl E rs regions with
    | none => s
    | some target =>
      let needed := remainingNeedFl fl (rs target)
      if needed > 0 then (endgameDonorsFl fl rs mgr canals target regions (s, needed)).1
      else s
  else s

/-- The records that targeted fill in double arithmetic adds to the history of
`s` for canals into region `t`, in program order. -/
def fillRecordsFl (fl : ℚ → ℚ) (rs : RegionStore) (done regions : List RegionRef)
    (canals : List CanalRef) (s : CanalState) (t : RegionRef) : List Assignment :=
  ((targetedFillFl fl rs done regions canals s).trace.drop s.trace.length).filter
    (fun a => decide ((s.canal a.canal).destinationRegion = t))

/-! ## Targeted fill in the words of the specification -/

/-- The canals of one donor that targeted fill may use for `target`: none when
the donor is the target, is not stable, is done or has no positive surplus;
otherwise the canals from the donor to the target, in collection order, each
with the surplus of the donor. -/
def donorCandidatesFl (fl : ℚ → ℚ) (rs : RegionStore) (done : List RegionRef)
    (canals : List CanalRef) (cs : CanalStore) (target donor : RegionRef) :
    List (CanalRef × ℚ) :=
  if donor = target ∨ isStable (rs donor) = false ∨ donor ∈ done ∨
      availableSurplusFl fl (rs donor) ≤ 0 then []
  else
    (canals.filter (fun c =>
      decide ((cs c).sourceRegion = donor ∧ (cs c).destinationRegion = target))).map
      (fun c => (c, availableSurplusFl fl (rs donor)))

/-- The qualifying canals into `target` in the order of the specification: by
donor in collection order, then by canal in collection order. -/
def fillCandidatesFl (fl : ℚ → ℚ) (rs : RegionStore) (done regions : List RegionRef)
    (canals : List CanalRef) (cs : CanalStore) (target : RegionRef) : List (CanalRef × ℚ) :=
  regions.flatMap (donorCandidatesFl fl rs done canals cs target)

/-- The flow that one canal is assigned for the running value `needed` and the
surplus of its donor: `clamp(needed/3.6, 0.25, surplus)`, the quotient being
that of the floating-point format. -/
def fillFlowFl (fl : ℚ → ℚ) (needed surplus : ℚ) : ℚ :=
  clamp (fl (needed / fl 3.6)) MINIMUM_FLOW surplus

/-- The value of `needed` after that assignment: `needed` reduced by
`flow * 3.6`, in the arithmetic of the floating-point format. -/
def fillRestFl (fl : ℚ → ℚ) (needed surplus : ℚ) : ℚ :=
  fl (needed - fl (fillFlowFl fl needed surplus * fl 3.6))

/-- Greedy satisfaction of `needed` from a list of canals with their donors'
surpluses, as the specification words it, the arithmetic being that of the
floating-point format: each canal in turn is assigned
`flow = clamp(needed/3.6, 0.25, surplus)` and `needed` is reduced by
`flow * 3.6`; as soon as `needed <= 0` no further canal is assigned. The result
is the list of assignments, tagged `p`, and the final value of `needed`. -/
def greedyFillFl (fl : ℚ → ℚ) (p : Pass) :
    ℚ → List (CanalRef × ℚ) → List Assignment × ℚ
  | needed, [] => ([], needed)
  | needed, (c, surplus) :: rest =>
    if fillRestFl fl needed surplus ≤ 0 then
      ([⟨p, c, needed, surplus, fillFlowFl fl needed surplus⟩], fillRestFl fl needed surplus)
    else
      (⟨p, c, needed, surplus, fillFlowFl fl needed surplus⟩ ::
          (greedyFillFl fl p (fillRestFl fl needed surplus) rest).1,
        (greedyFillFl fl p (fillRestFl fl needed surplus) rest).2)

/-- The assignments that the specification prescribes for `target` in targeted
fill: none unless the target is stable, not done and below its target level;
otherwise the greedy satisfaction of `needed = need + 1.0 - level` from the
qualifying canals. -/
def fillPlanFl (fl : ℚ → ℚ) (rs : RegionStore) (done regions : List RegionRef)
    (canals : List CanalRef) (cs : CanalStore) (target : RegionRef) : List Assignment :=
  if target ∈ done ∨ isStable (rs target) = false ∨
      remainingNeedFl fl (rs target) ≤ 0 then []
  else
    (greedyFillFl fl Pass.targetedFill (remainingNeedFl fl (rs target))
      (fillCandidatesFl fl rs done regions canals cs target)).1

/-! ## Scenarios -/

/-- Two regions and one canal from region 1 to region 0, closed with flow 0.
Region 0 is in drought (need 10, level 0, capacity 100); region 1 is stable with
need 10, capacity 20 and level 4.6, so that its surplus is 4.6 - 4.5 = 0.1.
Hour 0 of 100. -/
def thinDonor : LoopState :=
  { world :=
      { region := fun r =>
          if r = 0 then ⟨0, 10, 100, false, true⟩ else ⟨4.6, 10, 20, false, false⟩
        canal := fun _ => ⟨1, 0, 0, false⟩
        mgr := ⟨false, 0, 100⟩ }
    done := [] }

/-- The scenario `thinDonor` with canal 0 open at the start of the hour. -/
def thinDonorOpen : LoopState :=
  { thinDonor with
    world :=
      { thinDonor.world with
        canal := fun c => if c = 0 then ⟨1, 0, 0, true⟩ else thinDonor.world.canal c } }

/-- Stable regions at level 5 with need 10 and capacity 20, and one canal from
region 1 to region 0, open with flow 0.1 at the start of the hour. Hour 0 of
100. -/
def quietPair : LoopState :=
  { world :=
      { region := fun _ => ⟨5, 10, 20, false, false⟩
        canal := fun _ => ⟨1, 0, 0.1, true⟩
        mgr := ⟨false, 0, 100⟩ }
    done := [] }

/-- The drought scenario: region 0 is A (need 10, level 2, in drought), region 1
is B (need 10, level 20, stable); canal 0 runs from B to A and canal 1 from A to
B. Capacities, clock, done set and the canals' flows and open flags at the
start of the hour are arbitrary. -/
def droughtPair (capA capB : ℚ) (mgr : Manager) (done : List RegionRef) (f0 f1 : ℚ)
    (o0 o1 : Bool) : LoopState :=
  { world :=
      { region := fun r =>
          if r = 0 then ⟨2, 10, capA, false, true⟩ else ⟨20, 10, capB, false, false⟩
        canal := fun c => if c = 0 then ⟨1, 0, f0, o0⟩ else ⟨0, 1, f1, o1⟩
        mgr := mgr }
    done := done }

/-- Two stable regions with the same need 10, capacity 20 and level 5, hence
the same key `need - level = 5`, neither exactly filled; canal 0 runs from
region 0 to region 1 and canal 1 from region 1 to region 0. Hour 96 of 100: the
endgame override is active. -/
def tiedPair : LoopState :=
  { world :=
      { region := fun _ => ⟨5, 10, 20, false, false⟩
        canal := fun c => if c = 0 then ⟨0, 1, 0, false⟩ else ⟨1, 0, 0, false⟩
        mgr := ⟨false, 96, 100⟩ }
    done := [] }

/-- Region 0 is in drought (need 10, level 1, capacity 100; drought buffering
lifts it to level 6); region 1 is stable with need 10 and level 4.5, so that
its surplus is exactly 0; region 2 is stable with need 10 and level 5.5, surplus
1; region 3 is stable with need 10 and level 3, exactly at its endgame floor.
Canal 0 runs from region 1, canal 1 from region 2 and canal 2 from region 3,
all into region 0. Hour 96 of 100. -/
def drySource : LoopState :=
  { world :=
      { region := fun r =>
          if r = 0 then ⟨1, 10, 100, false, true⟩
          else if r = 1 then ⟨4.5, 10, 20, false, false⟩
          else if r = 2 then ⟨5.5, 10, 20, false, false⟩
          else ⟨3, 10, 15, false, false⟩
        canal := fun c =>
          if c = 0 then ⟨1, 0, 0, false⟩ else if c = 1 then ⟨2, 0, 0, false⟩
          else ⟨3, 0, 0, false⟩
        mgr := ⟨false, 96, 100⟩ }
    done := [] }

/-- The relief assignment of canal 1 in the scenario `drySource`. -/
def drySourceRelief : Assignment :=
  ⟨Pass.crisisRelief, 1, 15, 1, 1⟩

/-- The endgame assignment of canal 0 in the scenario `drySource`. -/
def drySourceEndgame : Assignment :=
  ⟨Pass.endgame, 0, 5, 3 / 2, 25 / 18⟩

/-- Region 0 is flooded at level 30 with need 10 and capacity 25, so it is 19
above its target of 11; region 1 is stable with need 10, capacity 50 and level
20, surplus 15.5. Canal 0 runs from region 1 to region 0. Hour 0 of 100. -/
def floodedFull : LoopState :=
  { world :=
      { region := fun r =>
          if r = 0 then ⟨30, 10, 25, true, false⟩ else ⟨20, 10, 50, false, false⟩
        canal := fun _ => ⟨1, 0, 0, false⟩
        mgr := ⟨false, 0, 100⟩ }
    done := [] }

/-- Three stable regions with need 10: region 0 at level 11, exactly filled;
region 1 at level 20, overfull; region 2 at level 5. Canal 0 runs from region 1
to region 0 and canal 1 from region 1 to region 2. Hour 0 of 100. -/
def filledTrio : LoopState :=
  { world :=
      { region := fun r =>
          if r = 0 then ⟨11, 10, 50, false, false⟩
          else if r = 1 then ⟨20, 10, 50, false, false⟩
          else ⟨5, 10, 20, false, false⟩
        canal := fun c => if c = 0 then ⟨1, 0, 0, false⟩ else ⟨1, 2, 0, false⟩
        mgr := ⟨false, 0, 100⟩ }
    done := [] }

/-- Two stable regions with need 10: region 0 at level 20, above its target, and
region 1 at level 5. Canal 0 runs from region 0 to region 1. Hour 97 of 100:
the endgame override is active. -/
def lateOverfull : LoopState :=
  { world :=
      { region := fun r =>
          if r = 0 then ⟨20, 10, 50, false, false⟩ else ⟨5, 10, 20, false, false⟩
        canal := fun _ => ⟨0, 1, 0, false⟩
        mgr := ⟨false, 97, 100⟩ }
    done := [] }

/-- Four stable regions with need 10 and capacity 20: region 0 at level 5 needs
6 more; regions 1, 2 and 3 at levels 5, 5.5 and 6.5 have surpluses 0.5, 1 and
2. Canals 0, 1 and 2 run from regions 1, 2 and 3 into region 0. Hour 0 of
100. -/
def thirstyQuad : LoopState :=
  { world :=
      { region := fun r =>
          if r = 0 then ⟨5, 10, 20, false, false⟩
          else if r = 1 then ⟨5, 10, 20, false, false⟩
          else if r = 2 then ⟨5.5, 10, 20, false, false⟩
          else ⟨6.5, 10, 20, false, false⟩
        canal := fun c =>
          if c = 0 then ⟨1, 0, 0, false⟩ else if c = 1 then ⟨2, 0, 0, false⟩
          else ⟨3, 0, 0, false⟩
        mgr := ⟨false, 0, 100⟩ }
    done := [] }

/-- The first targeted-fill assignment of the scenario `thirstyQuad`: canal 0,
with 6 needed and a donor surplus of 0.5. -/
def thirstyQuadFirst : Assignment :=
  ⟨Pass.targetedFill, 0, 6, 1 / 2, 1 / 2⟩

/-- Region 0 is stable with need 20 and level 5.75, so that `needed` is 15.25;
region 1 is stable with need 20 and level 15.5, surplus 15.5 - 9 = 6.5. Canals
0 and 1 both run from region 1 to region 0, closed with flow 0. -/
def twinCanals : World :=
  { region := fun r =>
      if r = 0 then ⟨5.75, 20, 25, false, false⟩ else ⟨15.5, 20, 25, false, false⟩
    canal := fun _ => ⟨1, 0, 0, false⟩
    mgr := ⟨false, 0, 100⟩ }

/-- Region 0 has the double nearest 3.9 as need and level 5, which is at least
need + 1.1; region 1 is stable with need 4 and level 2, 3 below its target;
region 2 is stable with need 12 and level 8. Canal 0 runs from region 2 to
region 1. Hour 97 of 100: the endgame override is active. -/
def brimful : World :=
  { region := fun r =>
      if r = 0 then ⟨5, binary64 3.9, 20, false, false⟩
      else if r = 1 then ⟨2, 4, 10, false, false⟩
      else ⟨8, 12, 20, false, false⟩
    canal := fun _ => ⟨2, 1, 0, false⟩
    mgr := ⟨false, 97, 100⟩ }

/-- Region 0 is stable with need 120 and level 22, so that `needed` is 99;
regions 1, 2 and 3 are stable with need 10 and the doubles nearest 27.73 and
8.77 and 14.5 as levels, so that their surpluses are the doubles nearest 23.23
and 4.27 and 10. Canals 0, 1 and 2 run from regions 1, 2 and 3 into region 0. -/
def threeDonors : World :=
  { region := fun r =>
      if r = 0 then ⟨22, 120, 100, false, false⟩
      else if r = 1 then ⟨binary64 27.73, 10, 50, false, false⟩
      else if r = 2 then ⟨binary64 8.77, 10, 40, false, false⟩
      else ⟨14.5, 10, 50, false, false⟩
    canal := fun c =>
      if c = 0 then ⟨1, 0, 0, false⟩ else if c = 1 then ⟨2, 0, 0, false⟩
      else ⟨3, 0, 0, false⟩
    mgr := ⟨false, 0, 100⟩ }

/-- Region 0 is stable with need 40 and level 5, so that `needed` is 36; regions
1, 2 and 3 are stable with need 10 and the doubles nearest 13.95 and 9.91 and
14.5 as levels, so that their surpluses are the doubles nearest 9.45 and 5.41
and 10. Canals 0, 1 and 2 run from regions 1, 2 and 3 into region 0. -/
def threeDonorsOver : World :=
  { region := fun r =>
      if r = 0 then ⟨5, 40, 20, false, false⟩
      else if r = 1 then ⟨binary64 13.95, 10, 50, false, false⟩
      else if r = 2 then ⟨binary64 9.91, 10, 40, false, false⟩
      else ⟨14.5, 10, 50, false, false⟩
    canal := fun c =>
      if c = 0 then ⟨1, 0, 0, false⟩ else if c = 1 then ⟨2, 0, 0, false⟩
      else ⟨3, 0, 0, false⟩
    mgr := ⟨false, 0, 100⟩ }

/-! ## Basic facts -/

theorem foldl_invariant {σ α : Type} (I : σ → Prop) (f : σ → α → σ) :
    ∀ (l : List α) (s : σ), (∀ t x, x ∈ l → I t → I (f t x)) → I s → I (l.foldl f s)
  | [], _, _, h0 => h0
  | x :: l, s, h, h0 =>
    foldl_invariant I f l (f s x) (fun t y hy => h t y (List.mem_cons_of_mem _ hy))
      (h s x (List.mem_cons_self _ _) h0)

theorem clamp_ge_low (value low high : ℚ) : low ≤ clamp value low high :=
  le_max_left _ _

theorem clamp_le_max (value low high : ℚ) : clamp value low high ≤ max low high :=
  max_le_max le_rfl (min_le_left _ _)

theorem clamp_le_high (value low high : ℚ) (h : low ≤ high) : clamp value low high ≤ high :=
  max_le h (min_le_left _ _)

section Assign

variable (s : CanalState) (a : Assignment)

@[simp] theorem assign_trace : (s.assign a).trace = s.trace ++ [a] := rfl

theorem assign_canal (c : CanalRef) :
    (s.assign a).canal c =
      if c = a.canal then { s.canal c with flowRate := a.flow, isOpen := true }
      else s.canal c := by
  by_cases h : c = a.canal
  · subst h
    simp [CanalState.assign, CanalState.note, CanalState.toggleOpen, CanalState.setFlowRate,
      Canal.toggleOpen, Canal.setFlowRate]
  · simp [CanalState.assign, CanalState.note, CanalState.toggleOpen, CanalState.setFlowRate,
      Function.update_noteq h, h]

@[simp] theorem assign_source (c : CanalRef) :
    ((s.assign a).canal c).sourceRegion = (s.canal c).sourceRegion := by
  rw [assign_canal]; split <;> rfl

@[simp] theorem assign_destination (c : CanalRef) :
    ((s.assign a).canal c).destinationRegion = (s.canal c).destinationRegion := by
  rw [assign_canal]; split <;> rfl

end Assign

/-! ## Induction principles: a property preserved by every guarded assignment
is preserved by each pass -/

section Induct

variable (E : External) (rs : RegionStore) (done : List RegionRef) (mgr : Manager)
  (regions : List RegionRef) (canals : List CanalRef) (ps : Pass → Prop)
  (I : CanalState → Prop)

theorem crisisCanal_induct (h : StepClosed E rs done mgr regions canals ps I)
    (hp1 : ps Pass.crisisRelief) (hp2 : ps Pass.crisisDrain)
    (r other : RegionRef) (c : CanalRef) (hc : c ∈ canals) (hr : r ∈ regions)
    (ho : other ∈ regions) (hne : r ≠ other)
    (hcr : ¬ ((rs r).isInDrought = false ∧ (rs r).isFlooded = false))
    (hst : isStable (rs other) = true) (hsu : 0 < availableSurplus (rs other))
    (s : CanalState) (h0 : I s) :
    I (crisisCanal rs r other (crisisDelta (rs r)) (availableSurplus (rs other)) s c) := by
  have h1 : I (if (s.canal c).sourceRegion = other ∧ (s.canal c).destinationRegion = r then
      s.assign ⟨Pass.crisisRelief, c, crisisDelta (rs r), availableSurplus (rs other),
        clamp (crisisDelta (rs r) / 3.6) MINIMUM_FLOW (availableSurplus (rs other))⟩
      else s) := by
    split
    · rename_i hm
      refine h s _ hp1 ?_ h0
      simp only [hm.1, hm.2]
      exact Guard.crisisRelief c hc hr ho hne hcr hst hsu
    · exact h0
  unfold crisisCanal
  simp only []
  generalize (if (s.canal c).sourceRegion = other ∧ (s.canal c).destinationRegion = r then
      s.assign ⟨Pass.crisisRelief, c, crisisDelta (rs r), availableSurplus (rs other),
        clamp (crisisDelta (rs r) / 3.6) MINIMUM_FLOW (availableSurplus (rs other))⟩
      else s) = s1 at h1 ⊢
  split
  · rename_i hm
    refine h _ _ hp2 ?_ h1
    simp only [hm.1, hm.2.1]
    exact Guard.crisisDrain c hc hr ho hne hm.2.2 hst hsu
  · exact h1

theorem crisisOther_induct (h : StepClosed E rs done mgr regions canals ps I)
    (hp1 : ps Pass.crisisRelief) (hp2 : ps Pass.crisisDrain)
    (r other : RegionRef) (hr : r ∈ regions) (ho : other ∈ regions)
    (hcr : ¬ ((rs r).isInDrought = false ∧ (rs r).isFlooded = false))
    (s : CanalState) (h0 : I s) :
    I (crisisOther rs canals r (crisisDelta (rs r)) s other) := by
  unfold crisisOther
  split
  · exact h0
  · rename_i hcond
    simp only [not_or] at hcond
    simp only []
    split
    · exact h0
    · rename_i hsu
      refine foldl_invariant I _ canals s ?_ h0
      intro t c hc ht
      exact crisisCanal_induct E rs done mgr regions canals ps I h hp1 hp2 r other c hc hr ho
        hcond.1 hcr (by simpa using hcond.2) (not_le.mp hsu) t ht

theorem crisisRegion_induct (h : StepClosed E rs done mgr regions canals ps I)
    (hp1 : ps Pass.crisisRelief) (hp2 : ps Pass.crisisDrain)
    (r : RegionRef) (hr : r ∈ regions) (s : CanalState) (h0 : I s) :
    I (crisisRegion rs regions canals s r) := by
  unfold crisisRegion
  split
  · exact h0
  · rename_i hcr
    refine foldl_invariant I _ regions s ?_ h0
    intro t other ho ht
    exact crisisOther_induct E rs done mgr regions canals ps I h hp1 hp2 r other hr ho hcr t ht

theorem crisisRelief_induct (h : StepClosed E rs done mgr regions canals ps I)
    (hp1 : ps Pass.crisisRelief) (hp2 : ps Pass.crisisDrain)
    (s : CanalState) (h0 : I s) : I (crisisRelief rs regions canals s) := by
  refine foldl_invariant I _ regions s ?_ h0
  intro t r hr ht
  exact crisisRegion_induct E rs done mgr regions canals ps I h hp1 hp2 r hr t ht

theorem fillCanals_induct (p : Pass) (donor target : RegionRef) (surplus : ℚ)
    (h : ∀ (s : CanalState) (c : CanalRef) (needed : ℚ), c ∈ canals → 0 < needed →
      (s.canal c).sourceRegion = donor → (s.canal c).destinationRegion = target → I s →
      I (s.assign ⟨p, c, needed, surplus, clamp (needed / 3.6) MINIMUM_FLOW surplus⟩)) :
    ∀ (cl : List CanalRef) (s : CanalState) (needed : ℚ), (∀ c ∈ cl, c ∈ canals) →
      0 < needed → I s → I (fillCanals p donor target surplus cl (s, needed)).1
  | [], _, _, _, _, h0 => h0
  | c :: rest, s, needed, hsub, hn, h0 => by
    have hc : c ∈ canals := hsub c (List.mem_cons_self _ _)
    have hrest : ∀ x ∈ rest, x ∈ canals := fun x hx => hsub x (List.mem_cons_of_mem _ hx)
    unfold fillCanals
    split
    · rename_i hm
      have h1 := h s c needed hc hn hm.1 hm.2 h0
      simp only []
      split
      · exact h1
      · rename_i hn1
        exact fillCanals_induct p donor target surplus h rest _ _ hrest (not_le.mp hn1) h1
    · exact fillCanals_induct p donor target surplus h rest s needed hrest hn h0

theorem fillDonors_induct (h : StepClosed E rs done mgr regions canals ps I)
    (hp : ps Pass.targetedFill)
    (target : RegionRef) (ht : target ∈ regions) (htd : target ∉ done)
    (hts : isStable (rs target) = true) :
    ∀ (dl : List RegionRef) (s : CanalState) (needed : ℚ), (∀ d ∈ dl, d ∈ regions) →
      0 < needed → I s → I (fillDonors rs done canals target dl (s, needed)).1
  | [], _, _, _, _, h0 => h0
  | donor :: rest, s, needed, hsub, hn, h0 => by
    have hd : donor ∈ regions := hsub donor (List.mem_cons_self _ _)
    have hrest : ∀ x ∈ rest, x ∈ regions := fun x hx => hsub x (List.mem_cons_of_mem _ hx)
    unfold fillDonors
    split
    · exact fillDonors_induct h hp target ht htd hts rest s needed hrest hn h0
    · rename_i hcond
      simp only [not_or] at hcond
      simp only []
      split
      · exact fillDonors_induct h hp target ht htd hts rest s needed hrest hn h0
      · rename_i hsu
        have h1 : I (fillCanals Pass.targetedFill donor target (availableSurplus (rs donor))
            canals (s, needed)).1 := by
          refine fillCanals_induct canals I _ donor target _ ?_ canals s needed
            (fun _ hx => hx) hn h0
          intro t c n hc hn0 hsrc hdst hI
          refine h t _ hp ?_ hI
          simp only [hsrc, hdst]
          exact Guard.targetedFill c n hc ht hd hcond.1 htd hts hcond.2.2
            (by simpa using hcond.2.1) (not_le.mp hsu) hn0
        split
        · exact h1
        · rename_i hn1
          exact fillDonors_induct h hp target ht htd hts rest _ _ hrest (not_le.mp hn1) h1

theorem fillTarget_induct (h : StepClosed E rs done mgr regions canals ps I)
    (hp : ps Pass.targetedFill) (target : RegionRef) (htr : target ∈ regions)
    (s : CanalState) (h0 : I s) : I (fillTarget rs done regions canals s target) := by
  unfold fillTarget
  split
  · exact h0
  · rename_i hcond
    simp only [not_or] at hcond
    simp only []
    split
    · exact h0
    · rename_i hn
      exact fillDonors_induct E rs done mgr regions canals ps I h hp target htr hcond.1
        (by simpa using hcond.2) regions s _ (fun _ hx => hx) (not_le.mp hn) h0

theorem targetedFill_induct (h : StepClosed E rs done mgr regions canals ps I)
    (hp : ps Pass.targetedFill)
    (s : CanalState) (h0 : I s) : I (targetedFill rs done regions canals s) := by
  refine foldl_invariant I _ regions s ?_ h0
  intro t target htr ht
  exact fillTarget_induct E rs done mgr regions canals ps I h hp target htr t ht

theorem drainCanal_induct (h : StepClosed E rs done mgr regions canals ps I)
    (hp : ps Pass.overflowDrain) (r target : RegionRef) (c : CanalRef)
    (hr : r ∈ regions) (htg : target ∈ regions) (hc : c ∈ canals)
    (hlv : (rs r).waterNeed + 1.1 < (rs r).waterLevel) (hne : target ≠ r)
    (hst : isStable (rs target) = true) (hex : isExactlyFilled (rs target) = false)
    (s : CanalState) (h0 : I s) :
    I (drainCanal r target (regionExcess (rs r)) s c) := by
  unfold drainCanal
  split
  · rename_i hm
    refine h s _ hp ?_ h0
    simp only [hm.1, hm.2]
    exact Guard.overflowDrain c hc hr htg hlv hne hst hex
  · exact h0

theorem drainTarget_induct (h : StepClosed E rs done mgr regions canals ps I)
    (hp : ps Pass.overflowDrain) (r target : RegionRef)
    (hr : r ∈ regions) (htg : target ∈ regions)
    (hlv : (rs r).waterNeed + 1.1 < (rs r).waterLevel)
    (s : CanalState) (h0 : I s) :
    I (drainTarget rs canals r (regionExcess (rs r)) s target) := by
  unfold drainTarget
  split
  · exact h0
  · rename_i hcond
    simp only [not_or] at hcond
    refine foldl_invariant I _ canals s ?_ h0
    intro t c hc ht
    exact drainCanal_induct E rs done mgr regions canals ps I h hp r target c hr htg hc hlv
      hcond.1 (by simpa using hcond.2.1) (by simpa using hcond.2.2) t ht

theorem drainRegion_induct (h : StepClosed E rs done mgr regions canals ps I)
    (hp : ps Pass.overflowDrain) (r : RegionRef) (hr : r ∈ regions)
    (s : CanalState) (h0 : I s) : I (drainRegion rs regions canals s r) := by
  unfold drainRegion
  split
  · exact h0
  · rename_i hlv
    refine foldl_invariant I _ regions s ?_ h0
    intro t target htg ht
    exact drainTarget_induct E rs done mgr regions canals ps I h hp r target hr htg
      (not_le.mp hlv) t ht

theorem overflowDrain_induct (h : StepClosed E rs done mgr regions canals ps I)
    (hp : ps Pass.overflowDrain)
    (s : CanalState) (h0 : I s) : I (overflowDrain rs regions canals s) := by
  refine foldl_invariant I _ regions s ?_ h0
  intro t r hr ht
  exact drainRegion_induct E rs done mgr regions canals ps I h hp r hr t ht

theorem endgameDonors_induct (h : StepClosed E rs done mgr regions canals ps I)
    (hp : ps Pass.endgame)
    (target : RegionRef) (hlate : mgr.SimulationMax - mgr.hour ≤ 5)
    (ht : endgameTarget E rs regions = some target) :
    ∀ (dl : List RegionRef) (s : CanalState) (needed : ℚ), (∀ d ∈ dl, d ∈ regions) →
      0 < needed → I s → I (endgameDonors rs mgr canals target dl (s, needed)).1
  | [], _, _, _, _, h0 => h0
  | donor :: rest, s, needed, hsub, hn, h0 => by
    have hd : donor ∈ regions := hsub donor (List.mem_cons_self _ _)
    have hrest : ∀ x ∈ rest, x ∈ regions := fun x hx => hsub x (List.mem_cons_of_mem _ hx)
    unfold endgameDonors
    split
    · exact endgameDonors_induct h hp target hlate ht rest s needed hrest hn h0
    · rename_i hcond
      simp only [not_or] at hcond
      simp only []
      split
      · exact endgameDonors_induct h hp target hlate ht rest s needed hrest hn h0
      · rename_i hsu
        have h1 : I (fillCanals Pass.endgame donor target (endgameSurplus mgr (rs donor))
            canals (s, needed)).1 := by
          refine fillCanals_induct canals I _ donor target _ ?_ canals s needed
            (fun _ hx => hx) hn h0
          intro t c n hc hn0 hsrc hdst hI
          refine h t _ hp ?_ hI
          simp only [hsrc, hdst]
          exact Guard.endgame c n hc hd hlate ht hcond.1 (by simpa using hcond.2)
            (not_le.mp hsu) hn0
        split
        · exact h1
        · rename_i hn1
          exact endgameDonors_induct h hp target hlate ht rest _ _ hrest (not_le.mp hn1) h1

theorem endgameOverride_induct (h : StepClosed E rs done mgr regions canals ps I)
    (hp : ps Pass.endgame)
    (s : CanalState) (h0 : I s) : I (endgameOverride E rs mgr regions canals s) := by
  unfold endgameOverride
  split
  · rename_i hlate
    split
    · exact h0
    · rename_i target ht
      simp only []
      split
      · rename_i hn
        exact endgameDonors_induct E rs done mgr regions canals ps I h hp target hlate ht
          regions s _ (fun _ hx => hx) hn h0
      · exact h0
  · exact h0

end Induct



theorem lastAssignment_append (tr : List Assignment) (a : Assignment) (c : CanalRef) :
    lastAssignment (tr ++ [a]) c = if a.canal = c then some a else lastAssignment tr c := by
  unfold lastAssignment
  by_cases h : a.canal = c
  · simp [List.filter_append, h]
  · simp [List.filter_append, h]

theorem lastAssignment_mem {tr : List Assignment} {a : Assignment} {c : CanalRef}
    (h : lastAssignment tr c = some a) : a ∈ tr ∧ a.canal = c := by
  unfold lastAssignment at h
  have := List.mem_of_getLast?_eq_some h
  simpa using this

theorem lastAssignment_eq_none {tr : List Assignment} {c : CanalRef} :
    lastAssignment tr c = none ↔ ∀ a ∈ tr, a.canal ≠ c := by
  unfold lastAssignment
  rw [List.getLast?_eq_none_iff, List.filter_eq_nil_iff]
  simp

theorem canalReset_apply (canals : List CanalRef) (cs : CanalStore) (c : CanalRef) :
    canalReset canals cs c = if c ∈ canals then (cs c).toggleOpen false else cs c := by
  unfold canalReset
  induction canals generalizing cs with
  | nil => simp
  | cons x l ih =>
    rw [List.foldl_cons, ih]
    by_cases hx : c = x
    · subst hx
      simp [Canal.toggleOpen]
    · simp [hx, Function.update_noteq hx]

theorem replay_append (cs0 : CanalStore) (tr : List Assignment) (a : Assignment)
    (c : CanalRef) :
    replay cs0 (tr ++ [a]) c =
      if c = a.canal then { cs0 c with flowRate := a.flow, isOpen := true }
      else replay cs0 tr c := by
  unfold replay
  rw [lastAssignment_append]
  by_cases h : c = a.canal
  · simp [h]
  · have h1 : ¬ a.canal = c := fun e => h e.symm
    simp [h, h1]

@[simp] theorem replay_source (cs0 : CanalStore) (tr : List Assignment) (c : CanalRef) :
    (replay cs0 tr c).sourceRegion = (cs0 c).sourceRegion := by
  unfold replay; split <;> rfl

@[simp] theorem replay_destination (cs0 : CanalStore) (tr : List Assignment) (c : CanalRef) :
    (replay cs0 tr c).destinationRegion = (cs0 c).destinationRegion := by
  unfold replay; split <;> rfl

theorem replay_assign (cs0 : CanalStore) (s : CanalState) (a : Assignment)
    (h : s.canal = replay cs0 s.trace) :
    (s.assign a).canal = replay cs0 (s.assign a).trace := by
  funext c
  rw [assign_canal, assign_trace, replay_append, h]
  split
  · unfold replay
    split <;> rfl
  · rfl

theorem hourInv_stepClosed (E : External) (rs : RegionStore) (done : List RegionRef)
    (mgr : Manager) (regions : List RegionRef) (canals : List CanalRef) (cs0 : CanalStore) :
    StepClosed E rs done mgr regions canals (fun _ => True)
      (HourInv E rs done mgr regions canals cs0) := by
  intro s a _ hg hI
  refine ⟨replay_assign cs0 s a hI.1, ?_⟩
  intro b hb
  rw [assign_trace, List.mem_append, List.mem_singleton] at hb
  rcases hb with hb | rfl
  · exact hI.2 b hb
  · rw [hI.1] at hg
    simpa using hg

theorem hourCanals_inv (E : External) (regions : List RegionRef) (canals : List CanalRef)
    (st : LoopState) :
    HourInv E (droughtBuffer E regions st.world.region)
      (markDone (droughtBuffer E regions st.world.region) regions st.done) st.world.mgr
      regions canals (canalReset canals st.world.canal) (hourCanals E regions canals st) := by
  have hc := hourInv_stepClosed E (droughtBuffer E regions st.world.region)
    (markDone (droughtBuffer E regions st.world.region) regions st.done) st.world.mgr
    regions canals (canalReset canals st.world.canal)
  unfold hourCanals
  refine endgameOverride_induct _ _ _ _ _ _ _ _ hc trivial _ ?_
  refine overflowDrain_induct _ _ _ _ _ _ _ _ hc trivial _ ?_
  refine targetedFill_induct _ _ _ _ _ _ _ _ hc trivial _ ?_
  refine crisisRelief_induct _ _ _ _ _ _ _ _ hc trivial trivial _ ?_
  exact ⟨by funext c; simp [replay, lastAssignment], by simp⟩


/-! ## The hour as a whole -/

theorem guard_flow {E : External} {rs : RegionStore} {done : List RegionRef} {mgr : Manager}
    {regions : List RegionRef} {canals : List CanalRef} {src dst : RegionRef}
    {a : Assignment} (h : Guard E rs done mgr regions canals src dst a) :
    a.flow = clamp (a.value / 3.6) MINIMUM_FLOW a.high := by
  cases h <;> rfl

theorem guard_canal_mem {E : External} {rs : RegionStore} {done : List RegionRef}
    {mgr : Manager} {regions : List RegionRef} {canals : List CanalRef} {src dst : RegionRef}
    {a : Assignment} (h : Guard E rs done mgr regions canals src dst a) :
    a.canal ∈ canals := by
  cases h <;> assumption

theorem canalReset_source (canals : List CanalRef) (cs : CanalStore) (c : CanalRef) :
    (canalReset canals cs c).sourceRegion = (cs c).sourceRegion := by
  rw [canalReset_apply]; split <;> rfl

theorem canalReset_destination (canals : List CanalRef) (cs : CanalStore) (c : CanalRef) :
    (canalReset canals cs c).destinationRegion = (cs c).destinationRegion := by
  rw [canalReset_apply]; split <;> rfl

theorem canalReset_closed (canals : List CanalRef) (cs : CanalStore) (c : CanalRef)
    (hc : c ∈ canals) : (canalReset canals cs c).isOpen = false := by
  rw [canalReset_apply, if_pos hc]; rfl

/-- Every record of an hour's history is a guarded assignment, for the region
store, done set and clock that the passes of that hour read. -/
theorem hourTrace_guard (E : External) (regions : List RegionRef) (canals : List CanalRef)
    (st : LoopState) (a : Assignment) (ha : a ∈ hourTrace E regions canals st) :
    Guard E (hourPasses E regions canals st).world.region (hourPasses E regions canals st).done
      st.world.mgr regions canals (st.world.canal a.canal).sourceRegion
      (st.world.canal a.canal).destinationRegion a := by
  have h := (hourCanals_inv E regions canals st).2 a ha
  rw [canalReset_source, canalReset_destination] at h
  exact h

/-- The canals at the end of the hour are the reset canals with the history
replayed. -/
theorem hourPasses_canal (E : External) (regions : List RegionRef) (canals : List CanalRef)
    (st : LoopState) :
    (hourPasses E regions canals st).world.canal =
      replay (canalReset canals st.world.canal) (hourTrace E regions canals st) :=
  (hourCanals_inv E regions canals st).1

/-- A canal of the collection that is open at the end of the hour has a latest
record, and carries its flow. -/
theorem open_has_record (E : External) (regions : List RegionRef) (canals : List CanalRef)
    (st : LoopState) (c : CanalRef) (hc : c ∈ canals)
    (hopen : ((hourPasses E regions canals st).world.canal c).isOpen = true) :
    ∃ a, lastAssignment (hourTrace E regions canals st) c = some a ∧
      ((hourPasses E regions canals st).world.canal c).flowRate = a.flow := by
  rw [hourPasses_canal] at hopen ⊢
  unfold replay at hopen ⊢
  cases hl : lastAssignment (hourTrace E regions canals st) c with
  | none =>
    rw [hl] at hopen
    simp only [canalReset_closed canals _ c hc] at hopen
    exact absurd hopen (by simp)
  | some a => exact ⟨a, rfl, rfl⟩

/-! ## C1: the flow floor of open canals -/

/-- C1: after the seven passes of one iteration, every canal of the collection
whose open flag is true has a flow rate of at least 0.25. -/
theorem open_canal_flow_floor (E : External) (regions : List RegionRef)
    (canals : List CanalRef) (st : LoopState) (c : CanalRef) (hc : c ∈ canals)
    (hopen : ((hourPasses E regions canals st).world.canal c).isOpen = true) :
    (0.25 : ℚ) ≤ ((hourPasses E regions canals st).world.canal c).flowRate := by
  obtain ⟨a, hl, hf⟩ := open_has_record E regions canals st c hc hopen
  have hg := hourTrace_guard E regions canals st a (lastAssignment_mem hl).1
  rw [hf, guard_flow hg]
  exact clamp_ge_low _ _ _

theorem open_canal_flow_floor_witness :
    ((hourPasses stdExternal [0, 1] [0] thinDonor).world.canal 0).isOpen = true ∧
    (0.25 : ℚ) ≤ ((hourPasses stdExternal [0, 1] [0] thinDonor).world.canal 0).flowRate :=
  ⟨by decide!, open_canal_flow_floor stdExternal [0, 1] [0] thinDonor 0 (by decide)
    (by decide!)⟩

/-! ## C2: the interval of an assigned flow -/

theorem guard_high {E : External} {rs : RegionStore} {done : List RegionRef} {mgr : Manager}
    {regions : List RegionRef} {canals : List CanalRef} {src dst : RegionRef}
    {a : Assignment} (h : Guard E rs done mgr regions canals src dst a) :
    a.high = passBound mgr rs src a.pass := by
  cases h <;> rfl

/-- C2, refuted as stated: in the scenario `thinDonor` crisis relief assigns canal
0 the flow 0.25 although the bound handed to `clamp`, the donor's surplus, is
0.1; the canal ends the hour open with a flow above the bound of its last
assignment. -/
theorem thinDonor_flow_above_bound :
    ∃ a ∈ hourTrace stdExternal [0, 1] [0] thinDonor,
      a.pass = Pass.crisisRelief ∧ a.canal = 0 ∧
      a.high = availableSurplus ((hourPasses stdExternal [0, 1] [0] thinDonor).world.region 1) ∧
      a.high = 0.1 ∧ a.flow = 0.25 ∧ ¬ (a.flow ≤ a.high) ∧
      lastAssignment (hourTrace stdExternal [0, 1] [0] thinDonor) 0 = some a ∧
      ((hourPasses stdExternal [0, 1] [0] thinDonor).world.canal 0).isOpen = true ∧
      ((hourPasses stdExternal [0, 1] [0] thinDonor).world.canal 0).flowRate = a.flow := by
  decide!

/-- C2, amended: every flow assignment of an hour is `clamp(value/3.6, 0.25,
bound)` with `bound` the surplus or excess of the canal's source; it is at least
0.25 and at most `max(0.25, bound)`, hence within `[0.25, bound]` whenever
`bound` is at least 0.25. Every canal of the collection open at the end of the
hour carries the flow of its last assignment. -/
theorem assigned_flow_bounds (E : External) (regions : List RegionRef)
    (canals : List CanalRef) (st : LoopState) :
    (∀ a ∈ hourTrace E regions canals st,
      a.high = passBound st.world.mgr (hourPasses E regions canals st).world.region
        (st.world.canal a.canal).sourceRegion a.pass ∧
      a.flow = clamp (a.value / 3.6) 0.25 a.high ∧
      0.25 ≤ a.flow ∧ a.flow ≤ max 0.25 a.high ∧ (0.25 ≤ a.high → a.flow ≤ a.high)) ∧
    (∀ c ∈ canals, ((hourPasses E regions canals st).world.canal c).isOpen = true →
      ∃ a, lastAssignment (hourTrace E regions canals st) c = some a ∧
        ((hourPasses E regions canals st).world.canal c).flowRate = a.flow) := by
  refine ⟨fun a ha => ?_, fun c hc ho => open_has_record E regions canals st c hc ho⟩
  have hg := hourTrace_guard E regions canals st a ha
  have hf : a.flow = clamp (a.value / 3.6) 0.25 a.high := guard_flow hg
  refine ⟨guard_high hg, hf, ?_, ?_, ?_⟩
  · rw [hf]; exact clamp_ge_low _ _ _
  · rw [hf]; exact clamp_le_max _ _ _
  · intro hb; rw [hf]; exact clamp_le_high _ _ _ hb

theorem assigned_flow_bounds_witness :
    drySourceRelief ∈ hourTrace stdExternal [0, 3, 1, 2] [0, 1, 2] drySource ∧
    drySourceRelief.high = passBound drySource.world.mgr
      (hourPasses stdExternal [0, 3, 1, 2] [0, 1, 2] drySource).world.region
      (drySource.world.canal drySourceRelief.canal).sourceRegion drySourceRelief.pass ∧
    drySourceRelief.flow = clamp (drySourceRelief.value / 3.6) 0.25 drySourceRelief.high ∧
    0.25 ≤ drySourceRelief.flow ∧ drySourceRelief.flow ≤ max 0.25 drySourceRelief.high ∧
    drySourceRelief.flow ≤ drySourceRelief.high ∧
    (∃ a, lastAssignment (hourTrace stdExternal [0, 3, 1, 2] [0, 1, 2] drySource) 1 = some a ∧
      ((hourPasses stdExternal [0, 3, 1, 2] [0, 1, 2] drySource).world.canal 1).flowRate =
        a.flow) :=
  have h := (assigned_flow_bounds stdExternal [0, 3, 1, 2] [0, 1, 2] drySource).1
    drySourceRelief (by decide!)
  ⟨by decide!, h.1, h.2.1, h.2.2.1, h.2.2.2.1, h.2.2.2.2 (by decide!),
    (assigned_flow_bounds stdExternal [0, 3, 1, 2] [0, 1, 2] drySource).2 1 (by decide)
      (by decide!)⟩

/-! ## C3: the canal reset -/

theorem canalReset_congr (canals : List CanalRef) (cs cs1 : CanalStore)
    (hout : ∀ c, c ∉ canals → cs c = cs1 c)
    (hin : ∀ c, c ∈ canals → (cs c).sourceRegion = (cs1 c).sourceRegion ∧
      (cs c).destinationRegion = (cs1 c).destinationRegion ∧
      (cs c).flowRate = (cs1 c).flowRate) :
    canalReset canals cs = canalReset canals cs1 := by
  funext c
  rw [canalReset_apply, canalReset_apply]
  by_cases hc : c ∈ canals
  · obtain ⟨h1, h2, h3⟩ := hin c hc
    simp only [if_pos hc, Canal.toggleOpen, h1, h2, h3]
  · simp only [if_neg hc, hout c hc]

/-- C3: right after the canal reset every canal of the collection is closed;
two runs of the passes of one hour from states that differ only in the open
flags of canals of the collection end with the same open flag on every canal;
and a canal of the collection to which no pass of the hour assigns a flow is
closed at the end of the hour. -/
theorem canal_reset_closes (E : External) (regions : List RegionRef)
    (canals : List CanalRef) :
    (∀ (cs : CanalStore), ∀ c ∈ canals, (canalReset canals cs c).isOpen = false) ∧
    (∀ (st st1 : LoopState), st.world.region = st1.world.region →
      st.world.mgr = st1.world.mgr → st.done = st1.done →
      (∀ c, c ∉ canals → st.world.canal c = st1.world.canal c) →
      (∀ c, c ∈ canals →
        (st.world.canal c).sourceRegion = (st1.world.canal c).sourceRegion ∧
        (st.world.canal c).destinationRegion = (st1.world.canal c).destinationRegion ∧
        (st.world.canal c).flowRate = (st1.world.canal c).flowRate) →
      ∀ c, ((hourPasses E regions canals st).world.canal c).isOpen =
        ((hourPasses E regions canals st1).world.canal c).isOpen) ∧
    (∀ (st : LoopState), ∀ c ∈ canals,
      (∀ a ∈ hourTrace E regions canals st, a.canal ≠ c) →
      ((hourPasses E regions canals st).world.canal c).isOpen = false) := by
  refine ⟨fun cs c hc => canalReset_closed canals cs c hc, ?_, ?_⟩
  · intro st st1 hr hm hd hout hin c
    have hreset := canalReset_congr canals _ _ hout hin
    have : hourCanals E regions canals st = hourCanals E regions canals st1 := by
      unfold hourCanals
      rw [hr, hm, hd, hreset]
    unfold hourPasses
    simp only [this]
  · intro st c hc hno
    rw [hourPasses_canal]
    unfold replay
    rw [lastAssignment_eq_none.mpr hno]
    exact canalReset_closed canals _ c hc

theorem canal_reset_closes_witness :
    (canalReset [0] thinDonorOpen.world.canal 0).isOpen = false ∧
    ((hourPasses stdExternal [0, 1] [0] thinDonor).world.canal 0).isOpen =
      ((hourPasses stdExternal [0, 1] [0] thinDonorOpen).world.canal 0).isOpen ∧
    ((hourPasses stdExternal [0] [0] quietPair).world.canal 0).isOpen = false :=
  ⟨(canal_reset_closes stdExternal [0, 1] [0]).1 thinDonorOpen.world.canal 0 (by decide),
    (canal_reset_closes stdExternal [0, 1] [0]).2.1 thinDonor thinDonorOpen rfl rfl rfl
      (fun c hc => by
        have h0 : c ≠ 0 := by simpa using hc
        simp [thinDonorOpen, h0])
      (fun c hc => by
        have h0 : c = 0 := by simpa using hc
        subst h0
        exact ⟨rfl, rfl, rfl⟩) 0,
    (canal_reset_closes stdExternal [0] [0]).2.2 quietPair 0 (by decide) (by decide!)⟩

/-! ## Reaching an assignment -/

theorem foldl_reach {σ α : Type} (I P : σ → Prop) (f : σ → α → σ) (x : α) :
    ∀ (l : List α), (∀ s y, y ∈ l → I s → I (f s y)) →
      (∀ s y, y ∈ l → I s → P s → P (f s y)) → (∀ s, I s → P (f s x)) →
      x ∈ l → ∀ s, I s → P (l.foldl f s)
  | [], _, _, _, hx, _, _ => absurd hx (List.not_mem_nil _)
  | y :: l, hI, hP, hx, hmem, s, h0 => by
    have hI1 : ∀ s z, z ∈ l → I s → I (f s z) :=
      fun s z hz => hI s z (List.mem_cons_of_mem _ hz)
    have hP1 : ∀ s z, z ∈ l → I s → P s → P (f s z) :=
      fun s z hz => hP s z (List.mem_cons_of_mem _ hz)
    have hy := hI s y (List.mem_cons_self _ _) h0
    rw [List.foldl_cons]
    rcases List.mem_cons.mp hmem with rfl | hin
    · have hboth : I (f s x) ∧ P (f s x) := ⟨hy, hx s h0⟩
      exact (foldl_invariant (fun t => I t ∧ P t) f l (f s x)
        (fun t z hz ht => ⟨hI1 t z hz ht.1, hP1 t z hz ht.1 ht.2⟩) hboth).2
    · exact foldl_reach I P f x l hI1 hP1 hx hin (f s y) hy

theorem AssignClosed.stepClosed {I : CanalState → Prop} (h : AssignClosed I) (E : External)
    (rs : RegionStore) (done : List RegionRef) (mgr : Manager) (regions : List RegionRef)
    (canals : List CanalRef) : StepClosed E rs done mgr regions canals (fun _ => True) I :=
  fun s a _ _ hI => h s a hI

theorem assignClosed_and {I J : CanalState → Prop} (hI : AssignClosed I) (hJ : AssignClosed J) :
    AssignClosed (fun s => I s ∧ J s) :=
  fun s a h => ⟨hI s a h.1, hJ s a h.2⟩

theorem assignClosed_endpoints (c : CanalRef) (src dst : RegionRef) :
    AssignClosed (fun s => (s.canal c).sourceRegion = src ∧
      (s.canal c).destinationRegion = dst) := by
  intro s a h
  simpa using h

theorem assignClosed_mem (b : Assignment) : AssignClosed (fun s => b ∈ s.trace) := by
  intro s a h
  simp [h]

/-! ## The contract of the sort -/

theorem endgameTarget_min (E : External) (h : SortContract E.sort) (rs : RegionStore)
    (regions : List RegionRef) (t : RegionRef) (ht : endgameTarget E rs regions = some t) :
    t ∈ regions ∧ isExactlyFilled (rs t) = false ∧
      ∀ r ∈ regions, isExactlyFilled (rs r) = false → endgameKey rs t ≤ endgameKey rs r := by
  obtain ⟨hperm, hsorted⟩ := h (endgameKey rs) (endgameRemaining rs regions)
  unfold endgameTarget endgameSorted at ht
  generalize E.sort (fun a b => decide (endgameKey rs a < endgameKey rs b))
    (endgameRemaining rs regions) = sorted at ht hperm hsorted
  cases sorted with
  | nil => simp at ht
  | cons x tl =>
    simp only [List.head?_cons, Option.some.injEq] at ht
    subst ht
    have hmem : ∀ r, r ∈ x :: tl ↔ r ∈ regions ∧ isExactlyFilled (rs r) = false := by
      intro r
      rw [hperm.mem_iff]
      simp [endgameRemaining]
    refine ⟨((hmem x).mp (List.mem_cons_self _ _)).1,
      ((hmem x).mp (List.mem_cons_self _ _)).2, ?_⟩
    intro r hr hex
    rcases List.mem_cons.mp ((hmem r).mpr ⟨hr, hex⟩) with rfl | hin
    · exact le_rfl
    · exact (List.pairwise_cons.mp hsorted).1 r hin

theorem stableSort_contract : SortContract stableSort := by
  intro key l
  unfold stableSort
  refine ⟨List.perm_insertionSort _ l, ?_⟩
  have htot : IsTotal RegionRef (fun a b => decide (key b < key a) = false) :=
    ⟨fun a b => by
      simp only [decide_eq_false_iff_not, not_lt]
      exact le_total _ _⟩
  have htr : IsTrans RegionRef (fun a b => decide (key b < key a) = false) :=
    ⟨fun a b c hab hbc => by
      simp only [decide_eq_false_iff_not, not_lt] at *
      exact le_trans hab hbc⟩
  have hs := List.sorted_insertionSort (fun a b => decide (key b < key a) = false) l
  refine List.Pairwise.imp ?_ hs
  intro a b hab
  simpa using hab

/-- The record that lines 58-62 write for the canal `c` from `d` to `r`. -/
theorem crisisCanal_records (rs : RegionStore) (r d : RegionRef) (delta surplus : ℚ)
    (c : CanalRef) (s : CanalState) (hsrc : (s.canal c).sourceRegion = d)
    (hdst : (s.canal c).destinationRegion = r) :
    (⟨Pass.crisisRelief, c, delta, surplus, clamp (delta / 3.6) MINIMUM_FLOW surplus⟩ :
      Assignment) ∈ (crisisCanal rs r d delta surplus s c).trace := by
  unfold crisisCanal
  simp only [hsrc, hdst, and_self, if_true]
  split <;> simp

theorem crisisRelief_records (rs : RegionStore) (regions : List RegionRef)
    (canals : List CanalRef) (r d : RegionRef) (c : CanalRef) (hr : r ∈ regions)
    (hd : d ∈ regions) (hc : c ∈ canals) (hne : r ≠ d)
    (hcr : ¬ ((rs r).isInDrought = false ∧ (rs r).isFlooded = false))
    (hst : isStable (rs d) = true) (hsu : 0 < availableSurplus (rs d))
    (s : CanalState) (hsrc : (s.canal c).sourceRegion = d)
    (hdst : (s.canal c).destinationRegion = r) :
    (⟨Pass.crisisRelief, c, crisisDelta (rs r), availableSurplus (rs d),
      clamp (crisisDelta (rs r) / 3.6) MINIMUM_FLOW (availableSurplus (rs d))⟩ :
      Assignment) ∈ (crisisRelief rs regions canals s).trace := by
  have hI := (assignClosed_endpoints c d r).stepClosed stdExternal rs [] ⟨false, 0, 0⟩
    regions canals
  have hP := (assignClosed_and (assignClosed_endpoints c d r)
    (assignClosed_mem ⟨Pass.crisisRelief, c, crisisDelta (rs r), availableSurplus (rs d),
      clamp (crisisDelta (rs r) / 3.6) MINIMUM_FLOW (availableSurplus (rs d))⟩)).stepClosed
    stdExternal rs [] ⟨false, 0, 0⟩ regions canals
  refine foldl_reach _ (fun t => _ ∈ t.trace) _ r regions
    (fun t y hy ht => crisisRegion_induct _ _ _ _ _ _ _ _ hI trivial trivial y hy t ht)
    (fun t y hy ht hp =>
      (crisisRegion_induct _ _ _ _ _ _ _ _ hP trivial trivial y hy t ⟨ht, hp⟩).2)
    ?_ hr s ⟨hsrc, hdst⟩
  intro t ht
  unfold crisisRegion
  rw [if_neg hcr]
  refine foldl_reach _ (fun t => _ ∈ t.trace) _ d regions
    (fun t y hy ht => crisisOther_induct _ _ _ _ _ _ _ _ hI trivial trivial r y hr hy hcr t ht)
    (fun t y hy ht hp =>
      (crisisOther_induct _ _ _ _ _ _ _ _ hP trivial trivial r y hr hy hcr t ⟨ht, hp⟩).2)
    ?_ hd t ht
  intro t ht
  unfold crisisOther
  have hcond : ¬ (r = d ∨ isStable (rs d) = false) := by simp [hne, hst]
  rw [if_neg hcond]
  simp only [if_neg (not_le.mpr hsu)]
  refine foldl_reach _ (fun t => _ ∈ t.trace) _ c canals
    (fun t y hy ht => crisisCanal_induct _ _ _ _ _ _ _ _ hI trivial trivial r d y hy hr hd hne
      hcr hst hsu t ht)
    (fun t y hy ht hp =>
      (crisisCanal_induct _ _ _ _ _ _ _ _ hP trivial trivial r d y hy hr hd hne hcr hst hsu t
        ⟨ht, hp⟩).2)
    ?_ hc t ht
  intro t ht
  exact crisisCanal_records rs r d _ _ c t ht.1 ht.2

/-- A record present after crisis relief is in the history of the hour. -/
theorem hourTrace_of_crisis (E : External) (regions : List RegionRef) (canals : List CanalRef)
    (st : LoopState) (b : Assignment)
    (hb : b ∈ (crisisRelief (droughtBuffer E regions st.world.region) regions canals
      ⟨canalReset canals st.world.canal, []⟩).trace) :
    b ∈ hourTrace E regions canals st := by
  have hcl := (assignClosed_mem b).stepClosed E (droughtBuffer E regions st.world.region)
    (markDone (droughtBuffer E regions st.world.region) regions st.done) st.world.mgr
    regions canals
  unfold hourTrace hourCanals
  refine endgameOverride_induct _ _ _ _ _ _ _ _ hcl trivial _ ?_
  refine overflowDrain_induct _ _ _ _ _ _ _ _ hcl trivial _ ?_
  exact targetedFill_induct _ _ _ _ _ _ _ _ hcl trivial _ hb

/-- Crisis relief reaches every canal from a stable region with positive surplus
into another region that is flooded or in drought, and its record stays in the
history of the hour. -/
theorem hourTrace_relief (E : External) (regions : List RegionRef) (canals : List CanalRef)
    (st : LoopState) (r d : RegionRef) (c : CanalRef) (hr : r ∈ regions)
    (hd : d ∈ regions) (hc : c ∈ canals) (hne : r ≠ d)
    (hcr : ¬ (((hourPasses E regions canals st).world.region r).isInDrought = false ∧
      ((hourPasses E regions canals st).world.region r).isFlooded = false))
    (hst : isStable ((hourPasses E regions canals st).world.region d) = true)
    (hsu : 0 < availableSurplus ((hourPasses E regions canals st).world.region d))
    (hsrc : (st.world.canal c).sourceRegion = d)
    (hdst : (st.world.canal c).destinationRegion = r) :
    (⟨Pass.crisisRelief, c, crisisDelta ((hourPasses E regions canals st).world.region r),
      availableSurplus ((hourPasses E regions canals st).world.region d),
      clamp (crisisDelta ((hourPasses E regions canals st).world.region r) / 3.6) MINIMUM_FLOW
        (availableSurplus ((hourPasses E regions canals st).world.region d))⟩ : Assignment) ∈
      hourTrace E regions canals st := by
  refine hourTrace_of_crisis E regions canals st _ ?_
  exact crisisRelief_records _ regions canals r d c hr hd hc hne hcr hst hsu _
    (by rw [canalReset_source]; exact hsrc) (by rw [canalReset_destination]; exact hdst)

/-! ## C4: the drought scenario -/

theorem droughtPair_regions (E : External)
    (hupd : ∀ (r : Region) (d : ℚ), E.updateWaterLevel r d = r.addLevel d)
    (capA capB : ℚ) (hA : 0 ≤ capA) (mgr : Manager) (done : List RegionRef) (f0 f1 : ℚ)
    (o0 o1 : Bool) :
    (hourPasses E [0, 1] [0, 1] (droughtPair capA capB mgr done f0 f1 o0 o1)).world.region 0 =
      ⟨7, 10, capA, false, true⟩ ∧
    (hourPasses E [0, 1] [0, 1] (droughtPair capA capB mgr done f0 f1 o0 o1)).world.region 1 =
      ⟨20, 10, capB, false, false⟩ := by
  have h1 : (2 : ℚ) < capA * DROUGHT_THRESHOLD + 5 := by
    unfold DROUGHT_THRESHOLD
    norm_num
    linarith
  have hb0 : bufferRegion E (droughtPair capA capB mgr done f0 f1 o0 o1).world.region 0 =
      Function.update (droughtPair capA capB mgr done f0 f1 o0 o1).world.region 0
        ⟨7, 10, capA, false, true⟩ := by
    unfold bufferRegion
    simp only [droughtPair, if_true, h1, and_self, hupd, Region.addLevel]
    norm_num
  unfold hourPasses droughtBuffer
  simp only [List.foldl_cons, List.foldl_nil, hb0]
  unfold bufferRegion
  simp [droughtPair]

/-- C4: in the scenario of two regions A (need 10, level 2, in drought, capacity
at least 0) and B (need 10, level 20, stable) with canals B to A and A to B, for
every clock state, when the level update adds its argument and leaves the flags
alone, after the passes of one iteration the canal from B to A is open with a
flow between 0.25 and the surplus of B, which is 15.5, and the level of A is
above 2. -/
theorem drought_scenario (E : External)
    (hupd : ∀ (r : Region) (d : ℚ), E.updateWaterLevel r d = r.addLevel d)
    (hsort : SortContract E.sort) (capA capB : ℚ) (hA : 0 ≤ capA) (mgr : Manager)
    (done : List RegionRef) (f0 f1 : ℚ) (o0 o1 : Bool) :
    ((hourPasses E [0, 1] [0, 1]
      (droughtPair capA capB mgr done f0 f1 o0 o1)).world.canal 0).isOpen = true ∧
    0.25 ≤ ((hourPasses E [0, 1] [0, 1]
      (droughtPair capA capB mgr done f0 f1 o0 o1)).world.canal 0).flowRate ∧
    ((hourPasses E [0, 1] [0, 1]
      (droughtPair capA capB mgr done f0 f1 o0 o1)).world.canal 0).flowRate ≤
      availableSurplus ((hourPasses E [0, 1] [0, 1]
        (droughtPair capA capB mgr done f0 f1 o0 o1)).world.region 1) ∧
    availableSurplus ((hourPasses E [0, 1] [0, 1]
      (droughtPair capA capB mgr done f0 f1 o0 o1)).world.region 1) = 15.5 ∧
    2 < ((hourPasses E [0, 1] [0, 1]
      (droughtPair capA capB mgr done f0 f1 o0 o1)).world.region 0).waterLevel := by
  obtain ⟨hr0, hr1⟩ := droughtPair_regions E hupd capA capB hA mgr done f0 f1 o0 o1
  generalize hst : droughtPair capA capB mgr done f0 f1 o0 o1 = st at hr0 hr1 ⊢
  have hsrc : (st.world.canal 0).sourceRegion = 1 := by subst hst; rfl
  have hdst : (st.world.canal 0).destinationRegion = 0 := by subst hst; rfl
  have hsur : availableSurplus ((hourPasses E [0, 1] [0, 1] st).world.region 1) = 15.5 := by
    rw [hr1]
    norm_num [availableSurplus, LOW_DONOR_THRESHOLD]
  have hex1 : isExactlyFilled ((hourPasses E [0, 1] [0, 1] st).world.region 1) = false := by
    rw [hr1]
    norm_num [isExactlyFilled, abs_lt]
  have hrec := hourTrace_relief E [0, 1] [0, 1] st 0 1 0 (by simp) (by simp) (by simp)
    (by decide) (by rw [hr0]; simp) (by rw [hr1]; rfl) (by rw [hsur]; norm_num) hsrc hdst
  cases hl : lastAssignment (hourTrace E [0, 1] [0, 1] st) 0 with
  | none => exact absurd rfl (lastAssignment_eq_none.mp hl _ hrec)
  | some a =>
    obtain ⟨ha, hca⟩ := lastAssignment_mem hl
    have hg := hourTrace_guard E [0, 1] [0, 1] st a ha
    rw [hca, hsrc, hdst] at hg
    have hcanal : (hourPasses E [0, 1] [0, 1] st).world.canal 0 =
        { canalReset [0, 1] st.world.canal 0 with flowRate := a.flow, isOpen := true } := by
      rw [hourPasses_canal]
      unfold replay
      rw [hl]
    have hflow : 0.25 ≤ a.flow ∧ a.flow ≤ 15.5 := by
      cases hg with
      | crisisRelief c _ _ _ _ _ _ _ =>
        refine ⟨clamp_ge_low _ _ _, ?_⟩
        rw [hsur]
        exact clamp_le_high _ _ _ (by norm_num [MINIMUM_FLOW])
      | crisisDrain c _ _ _ _ hf _ _ =>
        rw [hr1] at hf
        exact absurd hf (by simp)
      | targetedFill c n _ _ _ _ _ hs _ _ _ _ =>
        rw [hr0] at hs
        exact absurd hs (by simp [isStable])
      | overflowDrain c _ _ _ _ _ hs _ =>
        rw [hr0] at hs
        exact absurd hs (by simp [isStable])
      | endgame c n _ _ _ ht _ _ _ _ =>
        have hmin := (endgameTarget_min E hsort _ _ _ ht).2.2 1 (by simp) hex1
        rw [endgameKey, endgameKey, hr0, hr1] at hmin
        norm_num at hmin
    rw [hcanal, hsur, hr0]
    exact ⟨rfl, hflow.1, hflow.2, rfl, by norm_num⟩

theorem drought_scenario_witness :
    ((hourPasses stdExternal [0, 1] [0, 1]
      (droughtPair 100 50 ⟨false, 96, 100⟩ [] 0 0 false true)).world.canal 0).isOpen = true ∧
    0.25 ≤ ((hourPasses stdExternal [0, 1] [0, 1]
      (droughtPair 100 50 ⟨false, 96, 100⟩ [] 0 0 false true)).world.canal 0).flowRate ∧
    ((hourPasses stdExternal [0, 1] [0, 1]
      (droughtPair 100 50 ⟨false, 96, 100⟩ [] 0 0 false true)).world.canal 0).flowRate ≤
      availableSurplus ((hourPasses stdExternal [0, 1] [0, 1]
        (droughtPair 100 50 ⟨false, 96, 100⟩ [] 0 0 false true)).world.region 1) ∧
    availableSurplus ((hourPasses stdExternal [0, 1] [0, 1]
      (droughtPair 100 50 ⟨false, 96, 100⟩ [] 0 0 false true)).world.region 1) = 15.5 ∧
    2 < ((hourPasses stdExternal [0, 1] [0, 1]
      (droughtPair 100 50 ⟨false, 96, 100⟩ [] 0 0 false true)).world.region 0).waterLevel :=
  drought_scenario stdExternal (fun _ _ => rfl) stableSort_contract 100 50 (by norm_num)
    ⟨false, 96, 100⟩ [] 0 0 false true

/-! ## C5: the done set -/

theorem markRegion_extends (rs : RegionStore) (done : List RegionRef) (r : RegionRef) :
    done <+: markRegion rs done r := by
  unfold markRegion
  split
  · exact List.prefix_append _ _
  · exact List.prefix_rfl

theorem markRegion_nodup (rs : RegionStore) (done : List RegionRef) (r : RegionRef)
    (h : done.Nodup) : (markRegion rs done r).Nodup := by
  unfold markRegion
  split
  · rename_i hc
    rw [List.nodup_append]
    refine ⟨h, List.nodup_singleton r, ?_⟩
    intro x hx hx1
    rw [List.mem_singleton] at hx1
    subst hx1
    exact hc.2 hx
  · exact h

theorem markDone_extends (rs : RegionStore) (regions done : List RegionRef) :
    done <+: markDone rs regions done :=
  foldl_invariant (fun d => done <+: d) (markRegion rs) regions done
    (fun d r _ hd => hd.trans (markRegion_extends rs d r)) List.prefix_rfl

theorem markDone_nodup (rs : RegionStore) (regions done : List RegionRef) (h : done.Nodup) :
    (markDone rs regions done).Nodup :=
  foldl_invariant List.Nodup (markRegion rs) regions done
    (fun d r _ hd => markRegion_nodup rs d r hd) h

theorem loopStep_done (E : External) (regions : List RegionRef) (canals : List CanalRef)
    (st : LoopState) :
    (loopStep E regions canals st).done = st.done ∨
    (loopStep E regions canals st).done =
      markDone (droughtBuffer E regions st.world.region) regions st.done := by
  unfold loopStep
  split
  · exact Or.inr rfl
  · exact Or.inl rfl

theorem loopStep_extends (E : External) (regions : List RegionRef) (canals : List CanalRef)
    (st : LoopState) : st.done <+: (loopStep E regions canals st).done := by
  rcases loopStep_done E regions canals st with h | h
  · exact h ▸ List.prefix_rfl
  · exact h ▸ markDone_extends _ _ _

theorem loopStep_nodup (E : External) (regions : List RegionRef) (canals : List CanalRef)
    (st : LoopState) (hn : st.done.Nodup) : (loopStep E regions canals st).done.Nodup := by
  rcases loopStep_done E regions canals st with h | h
  · exact h ▸ hn
  · exact h ▸ markDone_nodup _ _ _ hn

theorem runHours_nodup (E : External) (regions : List RegionRef) (canals : List CanalRef)
    (st : LoopState) (hn : st.done.Nodup) :
    ∀ n, (runHours E regions canals n st).done.Nodup
  | 0 => hn
  | n + 1 => loopStep_nodup E regions canals _ (runHours_nodup E regions canals st hn n)

theorem runHours_extends (E : External) (regions : List RegionRef) (canals : List CanalRef)
    (st : LoopState) (n : Nat) :
    ∀ k, (runHours E regions canals n st).done <+: (runHours E regions canals (n + k) st).done
  | 0 => List.prefix_rfl
  | k + 1 => (runHours_extends E regions canals st n k).trans (loopStep_extends E regions canals _)

/-- C5: in a run of the loop from an empty done set, after any number of
iterations the done set holds no region twice, the done set before an iteration
is an initial segment of the done set after it, and so is the done set after
`n` iterations of the done set after any `k` more. -/
theorem done_append_only (E : External) (regions : List RegionRef) (canals : List CanalRef)
    (w : World) (n k : Nat) :
    (runHours E regions canals n (initialState w)).done.Nodup ∧
    (runHours E regions canals n (initialState w)).done <+:
      (runHours E regions canals (n + 1) (initialState w)).done ∧
    (runHours E regions canals n (initialState w)).done <+:
      (runHours E regions canals (n + k) (initialState w)).done :=
  ⟨runHours_nodup E regions canals _ List.nodup_nil n,
    runHours_extends E regions canals _ n 1, runHours_extends E regions canals _ n k⟩

/-! ## What the guards say, pass by pass -/

section Inversion

variable {E : External} {rs : RegionStore} {done : List RegionRef} {mgr : Manager}
  {regions : List RegionRef} {canals : List CanalRef} {src dst : RegionRef} {a : Assignment}

theorem guard_crisisRelief (h : Guard E rs done mgr regions canals src dst a)
    (hp : a.pass = Pass.crisisRelief) :
    dst ≠ src ∧ ¬ ((rs dst).isInDrought = false ∧ (rs dst).isFlooded = false) ∧
      isStable (rs src) = true ∧ 0 < availableSurplus (rs src) ∧
      a.value = crisisDelta (rs dst) ∧ a.high = availableSurplus (rs src) := by
  cases h <;> first | (simp at hp; done) | exact ⟨‹_›, ‹_›, ‹_›, ‹_›, rfl, rfl⟩

theorem guard_crisisDrain (h : Guard E rs done mgr regions canals src dst a)
    (hp : a.pass = Pass.crisisDrain) :
    src ≠ dst ∧ (rs src).isFlooded = true ∧ isStable (rs dst) = true ∧
      0 < availableSurplus (rs dst) ∧
      a.value = regionExcess (rs src) ∧ a.high = regionExcess (rs src) := by
  cases h <;> first | (simp at hp; done) | exact ⟨‹_›, ‹_›, ‹_›, ‹_›, rfl, rfl⟩

theorem guard_targetedFill (h : Guard E rs done mgr regions canals src dst a)
    (hp : a.pass = Pass.targetedFill) :
    src ≠ dst ∧ dst ∉ done ∧ isStable (rs dst) = true ∧ src ∉ done ∧
      isStable (rs src) = true ∧ 0 < availableSurplus (rs src) ∧ 0 < a.value ∧
      a.high = availableSurplus (rs src) := by
  cases h <;> first
    | (simp at hp; done)
    | exact ⟨‹_›, ‹_›, ‹_›, ‹_›, ‹_›, ‹_›, ‹_›, rfl⟩

theorem guard_overflowDrain (h : Guard E rs done mgr regions canals src dst a)
    (hp : a.pass = Pass.overflowDrain) :
    (rs src).waterNeed + 1.1 < (rs src).waterLevel ∧ dst ≠ src ∧
      isStable (rs dst) = true ∧ isExactlyFilled (rs dst) = false ∧
      a.value = regionExcess (rs src) ∧ a.high = regionExcess (rs src) := by
  cases h <;> first | (simp at hp; done) | exact ⟨‹_›, ‹_›, ‹_›, ‹_›, rfl, rfl⟩

theorem guard_endgame (h : Guard E rs done mgr regions canals src dst a)
    (hp : a.pass = Pass.endgame) :
    mgr.SimulationMax - mgr.hour ≤ 5 ∧ endgameTarget E rs regions = some dst ∧
      src ≠ dst ∧ isExactlyFilled (rs src) = false ∧ 0 < endgameSurplus mgr (rs src) ∧
      0 < a.value ∧ a.high = endgameSurplus mgr (rs src) := by
  cases h <;> first
    | (simp at hp; done)
    | exact ⟨‹_›, ‹_›, ‹_›, ‹_›, ‹_›, ‹_›, rfl⟩

theorem guard_regions (h : Guard E rs done mgr regions canals src dst a) : src ∈ regions := by
  cases h <;> assumption

end Inversion

/-! ## C6: the target of the endgame override -/

/-- C8: for every stable region whose surplus `max(0, level - 0.45 * need)` is
0, no assignment of crisis relief or of targeted fill in the hour is to a canal
whose source is that region; and no assignment of the endgame override is to a
canal from a region whose endgame surplus, level minus floor, is 0 or less. -/
theorem zero_surplus_opens_nothing (E : External) (regions : List RegionRef)
    (canals : List CanalRef) (st : LoopState) :
    (∀ d, isStable ((hourPasses E regions canals st).world.region d) = true →
      availableSurplus ((hourPasses E regions canals st).world.region d) = 0 →
      ∀ a ∈ hourTrace E regions canals st,
        a.pass = Pass.crisisRelief ∨ a.pass = Pass.crisisDrain ∨ a.pass = Pass.targetedFill →
        (st.world.canal a.canal).sourceRegion ≠ d) ∧
    (∀ d, endgameSurplus st.world.mgr ((hourPasses E regions canals st).world.region d) ≤ 0 →
      ∀ a ∈ hourTrace E regions canals st, a.pass = Pass.endgame →
        (st.world.canal a.canal).sourceRegion ≠ d) := by
  refine ⟨?_, ?_⟩
  · intro d hst hz a ha hp hsrc
    have hg := hourTrace_guard E regions canals st a ha
    rw [hsrc] at hg
    rcases hp with hp | hp | hp
    · have h := (guard_crisisRelief hg hp).2.2.2.1
      rw [hz] at h
      exact lt_irrefl _ h
    · have h := (guard_crisisDrain hg hp).2.1
      unfold isStable at hst
      rw [h] at hst
      simp at hst
    · have h := (guard_targetedFill hg hp).2.2.2.2.2.1
      rw [hz] at h
      exact lt_irrefl _ h
  · intro d hz a ha hp hsrc
    have hg := hourTrace_guard E regions canals st a ha
    rw [hsrc] at hg
    exact absurd (guard_endgame hg hp).2.2.2.2.1 (not_lt.mpr hz)

theorem zero_surplus_opens_nothing_witness :
    (drySource.world.canal drySourceRelief.canal).sourceRegion ≠ 1 ∧
    (drySource.world.canal drySourceEndgame.canal).sourceRegion ≠ 3 :=
  ⟨(zero_surplus_opens_nothing stdExternal [0, 3, 1, 2] [0, 1, 2] drySource).1 1
      (by decide!) (by decide!) drySourceRelief (by decide!) (Or.inl rfl),
    (zero_surplus_opens_nothing stdExternal [0, 3, 1, 2] [0, 1, 2] drySource).2 3
      (by decide!) drySourceEndgame (by decide!) rfl⟩

/-! ## C9: the skip conditions -/

/-- C9, refuted as stated: in the scenario `floodedFull` crisis relief assigns
canal 0, into the flooded region 0, a flow sized by the region's remaining need
`delta = 11 - 30 = -19`, which is not positive; the canal ends the hour open
with flow 0.25. -/
theorem floodedFull_relief_not_skipped :
    ∃ a ∈ hourTrace stdExternal [0, 1] [0] floodedFull,
      a.pass = Pass.crisisRelief ∧ a.canal = 0 ∧
      a.value = crisisDelta ((hourPasses stdExternal [0, 1] [0] floodedFull).world.region 0) ∧
      a.value = -19 ∧ a.value ≤ 0 ∧
      ((hourPasses stdExternal [0, 1] [0] floodedFull).world.canal 0).isOpen = true ∧
      ((hourPasses stdExternal [0, 1] [0] floodedFull).world.canal 0).flowRate = 0.25 := by
  decide!

/-- C9, amended: every assignment of targeted fill and of the endgame override
has a positive donor surplus and a positive remaining need of the recipient;
every assignment of overflow drain has a positive excess of the source over
need + 1.0; every relief assignment of crisis relief has a positive donor
surplus. -/
theorem skip_conditions (E : External) (regions : List RegionRef) (canals : List CanalRef)
    (st : LoopState) (a : Assignment) (ha : a ∈ hourTrace E regions canals st) :
    (a.pass = Pass.crisisRelief →
      0 < availableSurplus ((hourPasses E regions canals st).world.region
        (st.world.canal a.canal).sourceRegion)) ∧
    (a.pass = Pass.targetedFill →
      0 < availableSurplus ((hourPasses E regions canals st).world.region
        (st.world.canal a.canal).sourceRegion) ∧ 0 < a.value) ∧
    (a.pass = Pass.overflowDrain →
      0 < regionExcess ((hourPasses E regions canals st).world.region
        (st.world.canal a.canal).sourceRegion) ∧
      a.value = regionExcess ((hourPasses E regions canals st).world.region
        (st.world.canal a.canal).sourceRegion)) ∧
    (a.pass = Pass.endgame →
      0 < endgameSurplus st.world.mgr ((hourPasses E regions canals st).world.region
        (st.world.canal a.canal).sourceRegion) ∧ 0 < a.value) := by
  have hg := hourTrace_guard E regions canals st a ha
  refine ⟨fun hp => (guard_crisisRelief hg hp).2.2.2.1,
    fun hp => ⟨(guard_targetedFill hg hp).2.2.2.2.2.1, (guard_targetedFill hg hp).2.2.2.2.2.2.1⟩,
    fun hp => ⟨?_, (guard_overflowDrain hg hp).2.2.2.2.1⟩,
    fun hp => ⟨(guard_endgame hg hp).2.2.2.2.1, (guard_endgame hg hp).2.2.2.2.2.1⟩⟩
  have h := (guard_overflowDrain hg hp).1
  unfold regionExcess
  norm_num at h ⊢
  linarith

theorem skip_conditions_witness :
    (0 < availableSurplus ((hourPasses stdExternal [0, 3, 1, 2] [0, 1, 2] drySource).world.region
      (drySource.world.canal drySourceRelief.canal).sourceRegion)) ∧
    (0 < endgameSurplus drySource.world.mgr
        ((hourPasses stdExternal [0, 3, 1, 2] [0, 1, 2] drySource).world.region
          (drySource.world.canal drySourceEndgame.canal).sourceRegion) ∧
      0 < drySourceEndgame.value) :=
  ⟨(skip_conditions stdExternal [0, 3, 1, 2] [0, 1, 2] drySource drySourceRelief
      (by decide!)).1 rfl,
    (skip_conditions stdExternal [0, 3, 1, 2] [0, 1, 2] drySource drySourceEndgame
      (by decide!)).2.2.2 rfl⟩

/-! ## C10: exactly filled regions -/

theorem markDone_mem (rs : RegionStore) (regions done : List RegionRef) (x : RegionRef)
    (hx : x ∈ regions) (hf : isExactlyFilled (rs x) = true) :
    x ∈ markDone rs regions done := by
  refine foldl_reach (fun _ => True) (fun d => x ∈ d) (markRegion rs) x regions
    (fun _ _ _ _ => trivial)
    (fun d y _ _ hd => (markRegion_extends rs d y).subset hd) ?_ hx done trivial
  intro d _
  unfold markRegion
  by_cases hd : x ∈ d
  · rw [if_neg (fun h => h.2 hd)]
    exact hd
  · rw [if_pos ⟨hf, hd⟩]
    simp

theorem markDone_fixed (rs : RegionStore) :
    ∀ (regions done : List RegionRef),
      (∀ r ∈ regions, isExactlyFilled (rs r) = true → r ∈ done) →
      markDone rs regions done = done
  | [], _, _ => rfl
  | r :: rest, done, h => by
    have hr : markRegion rs done r = done := by
      unfold markRegion
      rw [if_neg]
      intro hc
      exact hc.2 (h r (List.mem_cons_self _ _) hc.1)
    unfold markDone
    rw [List.foldl_cons, hr]
    exact markDone_fixed rs rest done (fun x hx => h x (List.mem_cons_of_mem _ hx))

/-- C13: for every region store, region list and done set, running the
completion-marking pass a second time on its own result, with the regions
unchanged, gives the same done set as running it once. -/
theorem completion_marking_idempotent (rs : RegionStore) (regions done : List RegionRef) :
    markDone rs regions (markDone rs regions done) = markDone rs regions done :=
  markDone_fixed rs regions _ (fun r hr hf => markDone_mem rs regions done r hr hf)

/-! ## C15: the passes change region levels through drought buffering only -/

/-- Drought buffering over a list without repeated regions: a region of the
list that meets the condition of line 37 is updated once, every other region
is left as it is. -/
theorem droughtBuffer_apply (E : External) :
    ∀ (regions : List RegionRef) (rs : RegionStore) (r : RegionRef), regions.Nodup →
      droughtBuffer E regions rs r =
        if r ∈ regions ∧ (rs r).isInDrought = true ∧
            (rs r).waterLevel < (rs r).waterCapacity * DROUGHT_THRESHOLD + 5 then
          E.updateWaterLevel (rs r) 5.0
        else rs r
  | [], rs, r, _ => by simp [droughtBuffer]
  | x :: l, rs, r, hnd => by
    have hxl : x ∉ l := (List.nodup_cons.mp hnd).1
    have ih := droughtBuffer_apply E l (bufferRegion E rs x) r (List.nodup_cons.mp hnd).2
    unfold droughtBuffer at ih ⊢
    rw [List.foldl_cons, ih]
    by_cases hrx : r = x
    · subst hrx
      have hmem : r ∈ r :: l := List.mem_cons_self _ _
      simp only [hxl, false_and, if_false, hmem, true_and]
      unfold bufferRegion
      split
      · simp
      · rfl
    · have hb : bufferRegion E rs x r = rs r := by
        unfold bufferRegion
        split
        · exact Function.update_noteq hrx _ _
        · rfl
      simp only [hb, List.mem_cons, hrx, false_or]

/-- C15: when the region list holds no region twice and the level update adds
its argument to the level and writes nothing else, the passes of one iteration
raise by exactly 5.0 the level of every region of the collection that is in
drought with level below `0.2 * capacity + 5`, leave the level of every other
region as it was, and leave need, capacity and both flags of every region as
they were. -/
theorem buffering_only_changes_levels (E : External)
    (hupd : ∀ (r : Region) (d : ℚ), E.updateWaterLevel r d = r.addLevel d)
    (regions : List RegionRef) (canals : List CanalRef) (st : LoopState)
    (hnd : regions.Nodup) (r : RegionRef) :
    (r ∈ regions ∧ (st.world.region r).isInDrought = true ∧
        (st.world.region r).waterLevel < (st.world.region r).waterCapacity * 0.2 + 5 →
      ((hourPasses E regions canals st).world.region r).waterLevel =
        (st.world.region r).waterLevel + 5.0) ∧
    (¬ (r ∈ regions ∧ (st.world.region r).isInDrought = true ∧
        (st.world.region r).waterLevel < (st.world.region r).waterCapacity * 0.2 + 5) →
      ((hourPasses E regions canals st).world.region r).waterLevel =
        (st.world.region r).waterLevel) ∧
    ((hourPasses E regions canals st).world.region r).waterNeed =
      (st.world.region r).waterNeed ∧
    ((hourPasses E regions canals st).world.region r).waterCapacity =
      (st.world.region r).waterCapacity ∧
    ((hourPasses E regions canals st).world.region r).isFlooded =
      (st.world.region r).isFlooded ∧
    ((hourPasses E regions canals st).world.region r).isInDrought =
      (st.world.region r).isInDrought := by
  have happ := droughtBuffer_apply E regions st.world.region r hnd
  have hrs : (hourPasses E regions canals st).world.region r =
      droughtBuffer E regions st.world.region r := rfl
  rw [hrs, happ]
  have hth : DROUGHT_THRESHOLD = 0.2 := rfl
  rw [hth]
  by_cases hq : r ∈ regions ∧ (st.world.region r).isInDrought = true ∧
      (st.world.region r).waterLevel < (st.world.region r).waterCapacity * 0.2 + 5
  · rw [if_pos hq, hupd]
    exact ⟨fun _ => rfl, fun hn => absurd hq hn, rfl, rfl, rfl, rfl⟩
  · rw [if_neg hq]
    exact ⟨fun h => absurd h hq, fun _ => rfl, rfl, rfl, rfl, rfl⟩

theorem buffering_only_changes_levels_witness :
    ((hourPasses stdExternal [0, 1] [0] thinDonor).world.region 0).waterLevel =
      (thinDonor.world.region 0).waterLevel + 5.0 ∧
    ((hourPasses stdExternal [0, 1] [0] thinDonor).world.region 1).waterLevel =
      (thinDonor.world.region 1).waterLevel ∧
    ((hourPasses stdExternal [0, 1] [0] thinDonor).world.region 0).waterNeed =
      (thinDonor.world.region 0).waterNeed ∧
    ((hourPasses stdExternal [0, 1] [0] thinDonor).world.region 0).waterCapacity =
      (thinDonor.world.region 0).waterCapacity ∧
    ((hourPasses stdExternal [0, 1] [0] thinDonor).world.region 0).isFlooded =
      (thinDonor.world.region 0).isFlooded ∧
    ((hourPasses stdExternal [0, 1] [0] thinDonor).world.region 0).isInDrought =
      (thinDonor.world.region 0).isInDrought :=
  have h0 := buffering_only_changes_levels stdExternal (fun _ _ => rfl) [0, 1] [0] thinDonor
    (by decide) 0
  have h1 := buffering_only_changes_levels stdExternal (fun _ _ => rfl) [0, 1] [0] thinDonor
    (by decide) 1
  ⟨h0.1 (by decide!), h1.2.1 (by decide!), h0.2.2.1, h0.2.2.2.1, h0.2.2.2.2.1, h0.2.2.2.2.2⟩

/-! ## C16: the level after drought buffering -/

/-- C16, evaluated at a failing input: region 0 of the scenario `thinDonor` is in
drought at level 0 with capacity 100, so line 37 selects it; with a level
update that adds its argument, drought buffering leaves it at level 5, which is
not above the drought threshold `0.2 * 100 = 20`. -/
theorem deep_drought_stays_below :
    (thinDonor.world.region 0).isInDrought = true ∧
    (thinDonor.world.region 0).waterLevel <
      (thinDonor.world.region 0).waterCapacity * DROUGHT_THRESHOLD + 5 ∧
    (droughtBuffer stdExternal [0, 1] thinDonor.world.region 0).waterLevel = 5 ∧
    ((hourPasses stdExternal [0, 1] [0] thinDonor).world.region 0).waterLevel = 5 ∧
    ¬ (DROUGHT_THRESHOLD * (thinDonor.world.region 0).waterCapacity <
      ((hourPasses stdExternal [0, 1] [0] thinDonor).world.region 0).waterLevel) := by
  decide!

/-! ## C17: relief into a flooded region that is already above its target -/

theorem clamp_of_nonpos (value high : ℚ) (h : value ≤ 0) :
    clamp (value / 3.6) MINIMUM_FLOW high = 0.25 := by
  unfold clamp MINIMUM_FLOW
  apply max_eq_left
  have h1 : value / 3.6 ≤ 0 := by
    apply div_nonpos_of_nonpos_of_nonneg h
    norm_num
  have h2 : min high (value / 3.6) ≤ value / 3.6 := min_le_right _ _
  have h3 : (0 : ℚ) ≤ 0.25 := by norm_num
  linarith

/-- C17: in an hour with `SimulationMax - hour > 5`, for every flooded region
`r` of the collection with level at least need + 1.0 and every stable region
`d` of the collection other than `r` with positive surplus, every canal of the
collection from `d` to `r` is open at the end of the passes with flow exactly
0.25. -/
theorem flooded_relief_minimum (E : External) (regions : List RegionRef)
    (canals : List CanalRef) (st : LoopState) (r d : RegionRef) (c : CanalRef)
    (hlate : 5 < st.world.mgr.SimulationMax - st.world.mgr.hour)
    (hr : r ∈ regions) (hd : d ∈ regions) (hc : c ∈ canals)
    (hfl : ((hourPasses E regions canals st).world.region r).isFlooded = true)
    (hlv : ((hourPasses E regions canals st).world.region r).waterNeed + 1.0 ≤
      ((hourPasses E regions canals st).world.region r).waterLevel)
    (hst : isStable ((hourPasses E regions canals st).world.region d) = true)
    (hne : d ≠ r)
    (hsu : 0 < availableSurplus ((hourPasses E regions canals st).world.region d))
    (hsrc : (st.world.canal c).sourceRegion = d)
    (hdst : (st.world.canal c).destinationRegion = r) :
    ((hourPasses E regions canals st).world.canal c).isOpen = true ∧
    ((hourPasses E regions canals st).world.canal c).flowRate = 0.25 := by
  have hcr : ¬ (((hourPasses E regions canals st).world.region r).isInDrought = false ∧
      ((hourPasses E regions canals st).world.region r).isFlooded = false) := by
    rw [hfl]
    simp
  have hrec := hourTrace_relief E regions canals st r d c hr hd hc (fun e => hne e.symm) hcr
    hst hsu hsrc hdst
  cases hl : lastAssignment (hourTrace E regions canals st) c with
  | none => exact absurd rfl (lastAssignment_eq_none.mp hl _ hrec)
  | some a =>
    obtain ⟨ha, hca⟩ := lastAssignment_mem hl
    have hg := hourTrace_guard E regions canals st a ha
    rw [hca, hsrc, hdst] at hg
    have hcanal : (hourPasses E regions canals st).world.canal c =
        { canalReset canals st.world.canal c with flowRate := a.flow, isOpen := true } := by
      rw [hourPasses_canal]
      unfold replay
      rw [hl]
    have hflow : a.flow = 0.25 := by
      cases hp : a.pass with
      | crisisRelief =>
        have hv := guard_crisisRelief hg hp
        rw [guard_flow hg, hv.2.2.2.2.1]
        apply clamp_of_nonpos
        unfold crisisDelta
        simp only [hfl, if_true]
        linarith
      | crisisDrain =>
        have hv := (guard_crisisDrain hg hp).2.1
        unfold isStable at hst
        rw [hv] at hst
        simp at hst
      | targetedFill =>
        have hv := (guard_targetedFill hg hp).2.2.1
        unfold isStable at hv
        rw [hfl] at hv
        simp at hv
      | overflowDrain =>
        have hv := (guard_overflowDrain hg hp).2.2.1
        unfold isStable at hv
        rw [hfl] at hv
        simp at hv
      | endgame =>
        have hv := (guard_endgame hg hp).1
        exact absurd hlate (not_lt.mpr hv)
    rw [hcanal]
    exact ⟨rfl, hflow⟩

theorem flooded_relief_minimum_witness :
    ((hourPasses stdExternal [0, 1] [0] floodedFull).world.canal 0).isOpen = true ∧
    ((hourPasses stdExternal [0, 1] [0] floodedFull).world.canal 0).flowRate = 0.25 :=
  flooded_relief_minimum stdExternal [0, 1] [0] floodedFull 0 1 0 (by decide) (by decide)
    (by decide) (by decide) (by decide!) (by decide!) (by decide!) (by decide) (by decide!)
    rfl rfl

/-! ## C12: the loop terminates -/

theorem runHours_succ_inner (E : External) (regions : List RegionRef)
    (canals : List CanalRef) (st : LoopState) :
    ∀ n, runHours E regions canals (n + 1) st =
      runHours E regions canals n (loopStep E regions canals st)
  | 0 => rfl
  | n + 1 => by
    show loopStep E regions canals (runHours E regions canals (n + 1) st) = _
    rw [runHours_succ_inner E regions canals st n]
    rfl

theorem loopStep_of_condition (E : External) (regions : List RegionRef)
    (canals : List CanalRef) (st : LoopState) (h : loopCondition st.world.mgr = true) :
    loopStep E regions canals st = loopBody E regions canals st := by
  unfold loopStep loopBody
  rw [if_pos h]

theorem exit_of_not_condition (m : Manager) (h : ¬ loopCondition m = true) :
    m.isSolved = true ∨ m.hour = m.SimulationMax := by
  unfold loopCondition at h
  by_cases hs : m.isSolved = true
  · exact Or.inl hs
  · right
    by_contra hne
    apply h
    simp [hs, hne]

theorem solveLoop_exits (E : External) (regions : List RegionRef) (canals : List CanalRef)
    (hhour : ∀ w, (E.nexthour w).mgr.hour = w.mgr.hour + 1)
    (hmax : ∀ w, (E.nexthour w).mgr.SimulationMax = w.mgr.SimulationMax) :
    ∀ (fuel : Nat) (st : LoopState), st.world.mgr.hour ≤ st.world.mgr.SimulationMax →
      st.world.mgr.SimulationMax - st.world.mgr.hour ≤ fuel →
      ∃ k st1, solveLoop E regions canals fuel st = some (k, st1) ∧
        (k : Int) ≤ st.world.mgr.SimulationMax - st.world.mgr.hour ∧
        (st1.world.mgr.isSolved = true ∨ st1.world.mgr.hour = st1.world.mgr.SimulationMax) ∧
        st1 = runHours E regions canals k st
  | 0, st, h0, hf => by
    have heq : st.world.mgr.hour = st.world.mgr.SimulationMax := by
      have : st.world.mgr.SimulationMax - st.world.mgr.hour ≤ 0 := by exact_mod_cast hf
      linarith
    have hc : ¬ loopCondition st.world.mgr = true := by
      unfold loopCondition
      simp [heq]
    refine ⟨0, st, ?_, ?_, Or.inr heq, rfl⟩
    · unfold solveLoop
      rw [if_neg hc]
    · simp [heq]
  | fuel + 1, st, h0, hf => by
    by_cases hc : loopCondition st.world.mgr = true
    · have hne : st.world.mgr.hour ≠ st.world.mgr.SimulationMax := by
        intro heq
        unfold loopCondition at hc
        simp [heq] at hc
      have hlt : st.world.mgr.hour < st.world.mgr.SimulationMax := lt_of_le_of_ne h0 hne
      have hh : (loopBody E regions canals st).world.mgr.hour = st.world.mgr.hour + 1 :=
        hhour _
      have hm : (loopBody E regions canals st).world.mgr.SimulationMax =
          st.world.mgr.SimulationMax := hmax _
      obtain ⟨k, st1, hs, hk, hex, hrun⟩ := solveLoop_exits E regions canals hhour hmax fuel
        (loopBody E regions canals st) (by rw [hh, hm]; linarith)
        (by rw [hh, hm]; push_cast at hf; linarith)
      refine ⟨k + 1, st1, ?_, ?_, hex, ?_⟩
      · unfold solveLoop
        rw [if_pos hc, hs]
        rfl
      · rw [hh, hm] at hk
        push_cast
        linarith
      · rw [runHours_succ_inner, loopStep_of_condition E regions canals st hc]
        exact hrun
    · refine ⟨0, st, ?_, ?_, exit_of_not_condition _ hc, rfl⟩
      · unfold solveLoop
        rw [if_neg hc]
      · simp only [Nat.cast_zero]
        linarith

/-- C12: every iteration of the loop runs the passes and then calls the clock
advance once; when the advance raises `hour` by exactly one and leaves
`SimulationMax` alone, and the loop starts with `hour <= SimulationMax`, the
loop run with at least `SimulationMax - hour` iterations allowed exits, after at
most `SimulationMax - hour` iterations, in a state with `isSolved` true or
`hour = SimulationMax`. -/
theorem loop_terminates (E : External) (regions : List RegionRef) (canals : List CanalRef)
    (hhour : ∀ w, (E.nexthour w).mgr.hour = w.mgr.hour + 1)
    (hmax : ∀ w, (E.nexthour w).mgr.SimulationMax = w.mgr.SimulationMax)
    (st : LoopState) (h0 : st.world.mgr.hour ≤ st.world.mgr.SimulationMax) (fuel : Nat)
    (hf : st.world.mgr.SimulationMax - st.world.mgr.hour ≤ fuel) :
    ((loopBody E regions canals st).world =
        E.nexthour (hourPasses E regions canals st).world ∧
      (loopBody E regions canals st).done = (hourPasses E regions canals st).done) ∧
    ∃ k st1, solveLoop E regions canals fuel st = some (k, st1) ∧
      (k : Int) ≤ st.world.mgr.SimulationMax - st.world.mgr.hour ∧
      (st1.world.mgr.isSolved = true ∨ st1.world.mgr.hour = st1.world.mgr.SimulationMax) ∧
      st1 = runHours E regions canals k st :=
  ⟨⟨rfl, rfl⟩, solveLoop_exits E regions canals hhour hmax fuel st h0 hf⟩

theorem loop_terminates_witness :
    ((loopBody stdExternal [0, 1] [0] lateOverfull).world =
        stdExternal.nexthour (hourPasses stdExternal [0, 1] [0] lateOverfull).world ∧
      (loopBody stdExternal [0, 1] [0] lateOverfull).done =
        (hourPasses stdExternal [0, 1] [0] lateOverfull).done) ∧
    ∃ k st1, solveLoop stdExternal [0, 1] [0] 5 lateOverfull = some (k, st1) ∧
      (k : Int) ≤ lateOverfull.world.mgr.SimulationMax - lateOverfull.world.mgr.hour ∧
      (st1.world.mgr.isSolved = true ∨ st1.world.mgr.hour = st1.world.mgr.SimulationMax) ∧
      st1 = runHours stdExternal [0, 1] [0] k lateOverfull :=
  loop_terminates stdExternal [0, 1] [0] (fun _ => rfl) (fun _ => rfl) lateOverfull
    (by decide) 5 (by decide)

/-! ## Counting the assignments to one canal -/

theorem foldl_weight {σ α : Type} (I : σ → Prop) (m : σ → Nat) (f : σ → α → σ)
    (w : α → Nat) :
    ∀ (l : List α) (s : σ),
      (∀ t x, x ∈ l → I t → I (f t x) ∧ m (f t x) ≤ m t + w x) → I s →
      I (l.foldl f s) ∧ m (l.foldl f s) ≤ m s + (l.map w).sum
  | [], s, _, h0 => ⟨h0, by simp⟩
  | x :: l, s, h, h0 => by
    have hx := h s x (List.mem_cons_self _ _) h0
    have ih := foldl_weight I m f w l (f s x)
      (fun t y hy ht => h t y (List.mem_cons_of_mem _ hy) ht) hx.1
    rw [List.foldl_cons, List.map_cons, List.sum_cons]
    exact ⟨ih.1, by omega⟩

theorem sum_indicator (x0 : Nat) (K : Nat) :
    ∀ (l : List Nat), (l.map (fun x => if x = x0 then K else 0)).sum = l.count x0 * K
  | [] => by simp
  | y :: l => by
    rw [List.map_cons, List.sum_cons, sum_indicator x0 K l, List.count_cons]
    by_cases h : y = x0
    · simp [h, Nat.add_mul, Nat.add_comm]
    · simp [h]

theorem sum_indicator_nodup (x0 : Nat) (K : Nat) (l : List Nat) (hnd : l.Nodup) :
    (l.map (fun x => if x = x0 then K else 0)).sum ≤ K := by
  rw [sum_indicator]
  have h := List.nodup_iff_count_le_one.mp hnd x0
  calc l.count x0 * K ≤ 1 * K := Nat.mul_le_mul_right K h
    _ = K := Nat.one_mul K

theorem sum_zero_weight (l : List Nat) : (l.map (fun _ => 0)).sum = 0 := by
  induction l with
  | nil => rfl
  | cons y l ih => rw [List.map_cons, List.sum_cons, ih]

theorem sum_eq_zero_of_pointwise (w : Nat → Nat) :
    ∀ (l : List Nat), (∀ x ∈ l, w x = 0) → (l.map w).sum = 0
  | [], _ => rfl
  | y :: l, h => by
    rw [List.map_cons, List.sum_cons, h y (List.mem_cons_self _ _),
      sum_eq_zero_of_pointwise w l (fun x hx => h x (List.mem_cons_of_mem _ hx))]

theorem sum_le_of_pointwise (w : Nat → Nat) (x0 K : Nat) :
    ∀ (l : List Nat), l.Nodup → (∀ x ∈ l, w x ≤ if x = x0 then K else 0) →
      (l.map w).sum ≤ K
  | [], _, _ => by simp
  | y :: l, hnd, h => by
    have hy := h y (List.mem_cons_self _ _)
    have hl : ∀ x ∈ l, w x ≤ if x = x0 then K else 0 :=
      fun x hx => h x (List.mem_cons_of_mem _ hx)
    rw [List.map_cons, List.sum_cons]
    by_cases hyx : y = x0
    · have hz : (l.map w).sum = 0 := by
        apply sum_eq_zero_of_pointwise
        intro x hx
        have hne : x ≠ x0 := by
          intro e
          rw [e, ← hyx] at hx
          exact (List.nodup_cons.mp hnd).1 hx
        have := hl x hx
        rw [if_neg hne] at this
        omega
      rw [if_pos hyx] at hy
      omega
    · rw [if_neg hyx] at hy
      have ih := sum_le_of_pointwise w x0 K l (List.nodup_cons.mp hnd).2 hl
      omega

theorem sum_indicator_cond (x0 : Nat) (Q : Prop) [Decidable Q] (l : List Nat) :
    (l.map (fun x => if x = x0 ∧ Q then 1 else 0)).sum = if Q then l.count x0 else 0 := by
  by_cases hQ : Q
  · simp only [hQ, and_true, if_true]
    rw [sum_indicator, Nat.mul_one]
  · simp only [hQ, and_false, if_false]
    exact sum_zero_weight l

theorem tagCount_assign (p : Pass) (c : CanalRef) (s : CanalState) (x : Assignment) :
    tagCount p c (s.assign x).trace =
      tagCount p c s.trace + if x.pass = p ∧ x.canal = c then 1 else 0 := by
  unfold tagCount
  rw [assign_trace, List.countP_append]
  by_cases h : x.pass = p ∧ x.canal = c
  · simp [h]
  · simp [h]

theorem runs_assign {c : CanalRef} {a b : RegionRef} {s : CanalState} (h : Runs c a b s)
    (x : Assignment) : Runs c a b (s.assign x) := by
  unfold Runs at h ⊢
  simpa using h

section Count

variable (p : Pass) (c : CanalRef) (a b : RegionRef)

theorem crisisCanal_count (rs : RegionStore) (r other : RegionRef) (delta surplus : ℚ)
    (s : CanalState) (cx : CanalRef) (h : Runs c a b s) :
    Runs c a b (crisisCanal rs r other delta surplus s cx) ∧
      tagCount p c (crisisCanal rs r other delta surplus s cx).trace ≤
        tagCount p c s.trace +
          if cx = c ∧ ((p = Pass.crisisRelief ∧ r = b ∧ other = a) ∨
              (p = Pass.crisisDrain ∧ r = a ∧ other = b)) then 1 else 0 := by
  unfold crisisCanal
  simp only []
  by_cases h1 : (s.canal cx).sourceRegion = other ∧ (s.canal cx).destinationRegion = r
  · rw [if_pos h1]
    by_cases h2 : (s.canal cx).sourceRegion = r ∧ (s.canal cx).destinationRegion = other ∧
        (rs r).isFlooded = true
    · rw [if_pos (by simpa using h2)]
      refine ⟨runs_assign (runs_assign h _) _, ?_⟩
      rw [tagCount_assign, tagCount_assign]
      simp only []
      by_cases hcx : cx = c
      · subst hcx
        unfold Runs at h
        rw [h.1, h.2] at h1 h2
        obtain ⟨e1, e2⟩ := h1
        obtain ⟨e3, _, _⟩ := h2
        subst e1 e2
        subst e3
        cases p <;> simp
      · simp [hcx]
    · rw [if_neg (by simpa using h2)]
      refine ⟨runs_assign h _, ?_⟩
      rw [tagCount_assign]
      simp only []
      by_cases hcx : cx = c
      · subst hcx
        unfold Runs at h
        rw [h.1, h.2] at h1
        cases p <;> simp [h1.1, h1.2]
      · simp [hcx]
  · rw [if_neg h1]
    by_cases h2 : (s.canal cx).sourceRegion = r ∧ (s.canal cx).destinationRegion = other ∧
        (rs r).isFlooded = true
    · rw [if_pos h2]
      refine ⟨runs_assign h _, ?_⟩
      rw [tagCount_assign]
      simp only []
      by_cases hcx : cx = c
      · subst hcx
        unfold Runs at h
        rw [h.1, h.2] at h2
        cases p <;> simp [h2.1, h2.2.1]
      · simp [hcx]
    · rw [if_neg h2]
      exact ⟨h, Nat.le_add_right _ _⟩

theorem crisisOther_count (rs : RegionStore) (canals : List CanalRef) (r : RegionRef)
    (delta : ℚ) (s : CanalState) (other : RegionRef) (h : Runs c a b s) :
    Runs c a b (crisisOther rs canals r delta s other) ∧
      tagCount p c (crisisOther rs canals r delta s other).trace ≤
        tagCount p c s.trace +
          if (p = Pass.crisisRelief ∧ r = b ∧ other = a) ∨
              (p = Pass.crisisDrain ∧ r = a ∧ other = b) then canals.count c else 0 := by
  unfold crisisOther
  split
  · exact ⟨h, Nat.le_add_right _ _⟩
  · simp only []
    split
    · exact ⟨h, Nat.le_add_right _ _⟩
    · have hw := foldl_weight (Runs c a b) (fun t => tagCount p c t.trace)
        (crisisCanal rs r other delta (availableSurplus (rs other)))
        (fun cx => if cx = c ∧ ((p = Pass.crisisRelief ∧ r = b ∧ other = a) ∨
          (p = Pass.crisisDrain ∧ r = a ∧ other = b)) then 1 else 0) canals s
        (fun t cx _ ht => crisisCanal_count p c a b rs r other delta _ t cx ht) h
      rw [sum_indicator_cond] at hw
      exact hw

theorem crisisRegion_count (rs : RegionStore) (regions : List RegionRef)
    (canals : List CanalRef) (hnd : regions.Nodup) (s : CanalState) (r : RegionRef)
    (h : Runs c a b s) :
    Runs c a b (crisisRegion rs regions canals s r) ∧
      tagCount p c (crisisRegion rs regions canals s r).trace ≤
        tagCount p c s.trace +
          if (p = Pass.crisisRelief ∧ r = b) ∨ (p = Pass.crisisDrain ∧ r = a) then
            canals.count c else 0 := by
  unfold crisisRegion
  split
  · exact ⟨h, Nat.le_add_right _ _⟩
  · have hw := foldl_weight (Runs c a b) (fun t => tagCount p c t.trace)
      (crisisOther rs canals r (crisisDelta (rs r)))
      (fun other => if (p = Pass.crisisRelief ∧ r = b ∧ other = a) ∨
        (p = Pass.crisisDrain ∧ r = a ∧ other = b) then canals.count c else 0) regions s
      (fun t other _ ht => crisisOther_count p c a b rs canals r _ t other ht) h
    refine ⟨hw.1, le_trans hw.2 (Nat.add_le_add_left ?_ _)⟩
    by_cases hM : (p = Pass.crisisRelief ∧ r = b) ∨ (p = Pass.crisisDrain ∧ r = a)
    · rw [if_pos hM]
      apply sum_le_of_pointwise _ (if p = Pass.crisisRelief then a else b) _ regions hnd
      intro x _
      by_cases hx : (p = Pass.crisisRelief ∧ r = b ∧ x = a) ∨
          (p = Pass.crisisDrain ∧ r = a ∧ x = b)
      · rw [if_pos hx, if_pos]
        rcases hx with hx | hx
        · rw [if_pos hx.1]
          exact hx.2.2
        · have hp : p ≠ Pass.crisisRelief := by
            rw [hx.1]
            decide
          rw [if_neg hp]
          exact hx.2.2
      · rw [if_neg hx]
        exact Nat.zero_le _
    · rw [if_neg hM]
      apply le_of_eq
      apply sum_eq_zero_of_pointwise
      intro x _
      rw [if_neg]
      rintro (hx | hx)
      · exact hM (Or.inl ⟨hx.1, hx.2.1⟩)
      · exact hM (Or.inr ⟨hx.1, hx.2.1⟩)

theorem crisisRelief_count (rs : RegionStore) (regions : List RegionRef)
    (canals : List CanalRef) (hnd : regions.Nodup) (s : CanalState) (h : Runs c a b s) :
    Runs c a b (crisisRelief rs regions canals s) ∧
      tagCount p c (crisisRelief rs regions canals s).trace ≤
        tagCount p c s.trace +
          if p = Pass.crisisRelief ∨ p = Pass.crisisDrain then canals.count c else 0 := by
  have hw := foldl_weight (Runs c a b) (fun t => tagCount p c t.trace)
    (crisisRegion rs regions canals)
    (fun r => if (p = Pass.crisisRelief ∧ r = b) ∨ (p = Pass.crisisDrain ∧ r = a) then
      canals.count c else 0) regions s
    (fun t r _ ht => crisisRegion_count p c a b rs regions canals hnd t r ht) h
  refine ⟨hw.1, le_trans hw.2 (Nat.add_le_add_left ?_ _)⟩
  by_cases hp : p = Pass.crisisRelief ∨ p = Pass.crisisDrain
  · rw [if_pos hp]
    apply sum_le_of_pointwise _ (if p = Pass.crisisRelief then b else a) _ regions hnd
    intro x _
    by_cases hx : (p = Pass.crisisRelief ∧ x = b) ∨ (p = Pass.crisisDrain ∧ x = a)
    · rw [if_pos hx, if_pos]
      rcases hx with hx | hx
      · rw [if_pos hx.1]
        exact hx.2
      · have hp1 : p ≠ Pass.crisisRelief := by
          rw [hx.1]
          decide
        rw [if_neg hp1]
        exact hx.2
    · rw [if_neg hx]
      exact Nat.zero_le _
  · rw [if_neg hp]
    apply le_of_eq
    apply sum_eq_zero_of_pointwise
    intro x _
    rw [if_neg]
    rintro (hx | hx)
    · exact hp (Or.inl hx.1)
    · exact hp (Or.inr hx.1)

theorem drainCanal_count (r target : RegionRef) (ex : ℚ) (s : CanalState) (cx : CanalRef)
    (h : Runs c a b s) :
    Runs c a b (drainCanal r target ex s cx) ∧
      tagCount p c (drainCanal r target ex s cx).trace ≤
        tagCount p c s.trace +
          if cx = c ∧ (p = Pass.overflowDrain ∧ r = a ∧ target = b) then 1 else 0 := by
  unfold drainCanal
  split
  · rename_i hm
    refine ⟨runs_assign h _, ?_⟩
    rw [tagCount_assign]
    simp only []
    by_cases hcx : cx = c
    · subst hcx
      unfold Runs at h
      rw [h.1, h.2] at hm
      obtain ⟨e1, e2⟩ := hm
      subst e1 e2
      cases p <;> simp
    · simp [hcx]
  · exact ⟨h, Nat.le_add_right _ _⟩

theorem drainTarget_count (rs : RegionStore) (canals : List CanalRef) (r : RegionRef)
    (ex : ℚ) (s : CanalState) (target : RegionRef) (h : Runs c a b s) :
    Runs c a b (drainTarget rs canals r ex s target) ∧
      tagCount p c (drainTarget rs canals r ex s target).trace ≤
        tagCount p c s.trace +
          if p = Pass.overflowDrain ∧ r = a ∧ target = b then canals.count c else 0 := by
  unfold drainTarget
  split
  · exact ⟨h, Nat.le_add_right _ _⟩
  · have hw := foldl_weight (Runs c a b) (fun t => tagCount p c t.trace)
      (drainCanal r target ex)
      (fun cx => if cx = c ∧ (p = Pass.overflowDrain ∧ r = a ∧ target = b) then 1 else 0)
      canals s (fun t cx _ ht => drainCanal_count p c a b r target ex t cx ht) h
    rw [sum_indicator_cond] at hw
    exact hw

theorem drainRegion_count (rs : RegionStore) (regions : List RegionRef)
    (canals : List CanalRef) (hnd : regions.Nodup) (s : CanalState) (r : RegionRef)
    (h : Runs c a b s) :
    Runs c a b (drainRegion rs regions canals s r) ∧
      tagCount p c (drainRegion rs regions canals s r).trace ≤
        tagCount p c s.trace +
          if p = Pass.overflowDrain ∧ r = a then canals.count c else 0 := by
  unfold drainRegion
  split
  · exact ⟨h, Nat.le_add_right _ _⟩
  · have hw := foldl_weight (Runs c a b) (fun t => tagCount p c t.trace)
      (drainTarget rs canals r (regionExcess (rs r)))
      (fun target => if p = Pass.overflowDrain ∧ r = a ∧ target = b then canals.count c
        else 0) regions s
      (fun t target _ ht => drainTarget_count p c a b rs canals r _ t target ht) h
    refine ⟨hw.1, le_trans hw.2 (Nat.add_le_add_left ?_ _)⟩
    by_cases hM : p = Pass.overflowDrain ∧ r = a
    · rw [if_pos hM]
      apply sum_le_of_pointwise _ b _ regions hnd
      intro x _
      by_cases hx : p = Pass.overflowDrain ∧ r = a ∧ x = b
      · rw [if_pos hx, if_pos hx.2.2]
      · rw [if_neg hx]
        exact Nat.zero_le _
    · rw [if_neg hM]
      apply le_of_eq
      apply sum_eq_zero_of_pointwise
      intro x _
      rw [if_neg]
      exact fun hx => hM ⟨hx.1, hx.2.1⟩

theorem overflowDrain_count (rs : RegionStore) (regions : List RegionRef)
    (canals : List CanalRef) (hnd : regions.Nodup) (s : CanalState) (h : Runs c a b s) :
    Runs c a b (overflowDrain rs regions canals s) ∧
      tagCount p c (overflowDrain rs regions canals s).trace ≤
        tagCount p c s.trace + if p = Pass.overflowDrain then canals.count c else 0 := by
  have hw := foldl_weight (Runs c a b) (fun t => tagCount p c t.trace)
    (drainRegion rs regions canals)
    (fun r => if p = Pass.overflowDrain ∧ r = a then canals.count c else 0) regions s
    (fun t r _ ht => drainRegion_count p c a b rs regions canals hnd t r ht) h
  refine ⟨hw.1, le_trans hw.2 (Nat.add_le_add_left ?_ _)⟩
  by_cases hp : p = Pass.overflowDrain
  · rw [if_pos hp]
    apply sum_le_of_pointwise _ a _ regions hnd
    intro x _
    by_cases hx : p = Pass.overflowDrain ∧ x = a
    · rw [if_pos hx, if_pos hx.2]
    · rw [if_neg hx]
      exact Nat.zero_le _
  · rw [if_neg hp]
    apply le_of_eq
    apply sum_eq_zero_of_pointwise
    intro x _
    rw [if_neg]
    exact fun hx => hp hx.1

theorem fillCanals_count (q : Pass) (donor target : RegionRef) (surplus : ℚ) :
    ∀ (cl : List CanalRef) (s : CanalState) (n : ℚ), Runs c a b s →
      Runs c a b (fillCanals q donor target surplus cl (s, n)).1 ∧
        tagCount p c (fillCanals q donor target surplus cl (s, n)).1.trace ≤
          tagCount p c s.trace +
            if q = p ∧ donor = a ∧ target = b then cl.count c else 0
  | [], s, n, h => ⟨h, Nat.le_add_right _ _⟩
  | cx :: rest, s, n, h => by
    unfold fillCanals
    split
    · rename_i hm
      have h1 := runs_assign h ⟨q, cx, n, surplus, clamp (n / 3.6) MINIMUM_FLOW surplus⟩
      have hcount := tagCount_assign p c s
        ⟨q, cx, n, surplus, clamp (n / 3.6) MINIMUM_FLOW surplus⟩
      simp only [] at hcount ⊢
      have hbound : (if q = p ∧ cx = c then 1 else 0) +
          (if q = p ∧ donor = a ∧ target = b then rest.count c else 0) ≤
          if q = p ∧ donor = a ∧ target = b then (cx :: rest).count c else 0 := by
        by_cases hq : q = p ∧ cx = c
        · have hcx := hq.2
          subst hcx
          unfold Runs at h
          rw [h.1, h.2] at hm
          rw [if_pos hq, if_pos ⟨hq.1, hm.1.symm, hm.2.symm⟩,
            if_pos ⟨hq.1, hm.1.symm, hm.2.symm⟩, List.count_cons_self]
          omega
        · rw [if_neg hq, Nat.zero_add]
          split
          · rw [List.count_cons]
            omega
          · exact Nat.le_refl _
      split
      · refine ⟨h1, ?_⟩
        rw [hcount]
        have : (if q = p ∧ cx = c then 1 else 0) ≤
            (if q = p ∧ cx = c then 1 else 0) +
              (if q = p ∧ donor = a ∧ target = b then rest.count c else 0) :=
          Nat.le_add_right _ _
        omega
      · have ih := fillCanals_count q donor target surplus rest _
          (n - clamp (n / 3.6) MINIMUM_FLOW surplus * 3.6) h1
        refine ⟨ih.1, ?_⟩
        have := ih.2
        rw [hcount] at this
        omega
    · have ih := fillCanals_count q donor target surplus rest s n h
      refine ⟨ih.1, le_trans ih.2 (Nat.add_le_add_left ?_ _)⟩
      split
      · rw [List.count_cons]
        omega
      · exact Nat.le_refl _

theorem fillDonors_count (rs : RegionStore) (done : List RegionRef)
    (canals : List CanalRef) (target : RegionRef) :
    ∀ (dl : List RegionRef) (s : CanalState) (n : ℚ), Runs c a b s →
      Runs c a b (fillDonors rs done canals target dl (s, n)).1 ∧
        tagCount p c (fillDonors rs done canals target dl (s, n)).1.trace ≤
          tagCount p c s.trace +
            (dl.map (fun donor =>
              if Pass.targetedFill = p ∧ donor = a ∧ target = b then canals.count c
              else 0)).sum
  | [], s, n, h => ⟨h, Nat.le_add_right _ _⟩
  | donor :: rest, s, n, h => by
    rw [List.map_cons, List.sum_cons]
    unfold fillDonors
    split
    · have ih := fillDonors_count rs done canals target rest s n h
      exact ⟨ih.1, by have := ih.2; omega⟩
    · simp only []
      split
      · have ih := fillDonors_count rs done canals target rest s n h
        exact ⟨ih.1, by have := ih.2; omega⟩
      · have h1 := fillCanals_count p c a b Pass.targetedFill donor target
          (availableSurplus (rs donor)) canals s n h
        split
        · exact ⟨h1.1, by have := h1.2; omega⟩
        · have ih := fillDonors_count rs done canals target rest
            (fillCanals Pass.targetedFill donor target (availableSurplus (rs donor)) canals
              (s, n)).1
            (fillCanals Pass.targetedFill donor target (availableSurplus (rs donor)) canals
              (s, n)).2 h1.1
          refine ⟨ih.1, le_trans ih.2 ?_⟩
          have := h1.2
          omega

theorem fillTarget_count (rs : RegionStore) (done regions : List RegionRef)
    (canals : List CanalRef) (hnd : regions.Nodup) (s : CanalState) (target : RegionRef)
    (h : Runs c a b s) :
    Runs c a b (fillTarget rs done regions canals s target) ∧
      tagCount p c (fillTarget rs done regions canals s target).trace ≤
        tagCount p c s.trace +
          if Pass.targetedFill = p ∧ target = b then canals.count c else 0 := by
  unfold fillTarget
  split
  · exact ⟨h, Nat.le_add_right _ _⟩
  · simp only []
    split
    · exact ⟨h, Nat.le_add_right _ _⟩
    · have hw := fillDonors_count p c a b rs done canals target regions s
        (remainingNeed (rs target)) h
      refine ⟨hw.1, le_trans hw.2 (Nat.add_le_add_left ?_ _)⟩
      by_cases hM : Pass.targetedFill = p ∧ target = b
      · rw [if_pos hM]
        apply sum_le_of_pointwise _ a _ regions hnd
        intro x _
        by_cases hx : Pass.targetedFill = p ∧ x = a ∧ target = b
        · rw [if_pos hx, if_pos hx.2.1]
        · rw [if_neg hx]
          exact Nat.zero_le _
      · rw [if_neg hM]
        apply le_of_eq
        apply sum_eq_zero_of_pointwise
        intro x _
        rw [if_neg]
        exact fun hx => hM ⟨hx.1, hx.2.2⟩

theorem targetedFill_count (rs : RegionStore) (done regions : List RegionRef)
    (canals : List CanalRef) (hnd : regions.Nodup) (s : CanalState) (h : Runs c a b s) :
    Runs c a b (targetedFill rs done regions canals s) ∧
      tagCount p c (targetedFill rs done regions canals s).trace ≤
        tagCount p c s.trace + if Pass.targetedFill = p then canals.count c else 0 := by
  have hw := foldl_weight (Runs c a b) (fun t => tagCount p c t.trace)
    (fillTarget rs done regions canals)
    (fun t => if Pass.targetedFill = p ∧ t = b then canals.count c else 0) regions s
    (fun u t _ hu => fillTarget_count p c a b rs done regions canals hnd u t hu) h
  refine ⟨hw.1, le_trans hw.2 (Nat.add_le_add_left ?_ _)⟩
  by_cases hp : Pass.targetedFill = p
  · rw [if_pos hp]
    apply sum_le_of_pointwise _ b _ regions hnd
    intro x _
    by_cases hx : Pass.targetedFill = p ∧ x = b
    · rw [if_pos hx, if_pos hx.2]
    · rw [if_neg hx]
      exact Nat.zero_le _
  · rw [if_neg hp]
    apply le_of_eq
    apply sum_eq_zero_of_pointwise
    intro x _
    rw [if_neg]
    exact fun hx => hp hx.1

theorem endgameDonors_count (rs : RegionStore) (mgr : Manager) (canals : List CanalRef)
    (target : RegionRef) :
    ∀ (dl : List RegionRef) (s : CanalState) (n : ℚ), Runs c a b s →
      Runs c a b (endgameDonors rs mgr canals target dl (s, n)).1 ∧
        tagCount p c (endgameDonors rs mgr canals target dl (s, n)).1.trace ≤
          tagCount p c s.trace +
            (dl.map (fun donor =>
              if Pass.endgame = p ∧ donor = a ∧ target = b then canals.count c else 0)).sum
  | [], s, n, h => ⟨h, Nat.le_add_right _ _⟩
  | donor :: rest, s, n, h => by
    rw [List.map_cons, List.sum_cons]
    unfold endgameDonors
    split
    · have ih := endgameDonors_count rs mgr canals target rest s n h
      exact ⟨ih.1, by have := ih.2; omega⟩
    · simp only []
      split
      · have ih := endgameDonors_count rs mgr canals target rest s n h
        exact ⟨ih.1, by have := ih.2; omega⟩
      · have h1 := fillCanals_count p c a b Pass.endgame donor target
          (endgameSurplus mgr (rs donor)) canals s n h
        split
        · exact ⟨h1.1, by have := h1.2; omega⟩
        · have ih := endgameDonors_count rs mgr canals target rest
            (fillCanals Pass.endgame donor target (endgameSurplus mgr (rs donor)) canals
              (s, n)).1
            (fillCanals Pass.endgame donor target (endgameSurplus mgr (rs donor)) canals
              (s, n)).2 h1.1
          refine ⟨ih.1, le_trans ih.2 ?_⟩
          have := h1.2
          omega

theorem endgameOverride_count (E : External) (rs : RegionStore) (mgr : Manager)
    (regions : List RegionRef) (canals : List CanalRef) (hnd : regions.Nodup)
    (s : CanalState) (h : Runs c a b s) :
    Runs c a b (endgameOverride E rs mgr regions canals s) ∧
      tagCount p c (endgameOverride E rs mgr regions canals s).trace ≤
        tagCount p c s.trace + if Pass.endgame = p then canals.count c else 0 := by
  unfold endgameOverride
  split
  · split
    · exact ⟨h, Nat.le_add_right _ _⟩
    · rename_i target _
      simp only []
      split
      · have hw := endgameDonors_count p c a b rs mgr canals target regions s
          (remainingNeed (rs target)) h
        refine ⟨hw.1, le_trans hw.2 (Nat.add_le_add_left ?_ _)⟩
        by_cases hp : Pass.endgame = p
        · rw [if_pos hp]
          apply sum_le_of_pointwise _ a _ regions hnd
          intro x _
          by_cases hx : Pass.endgame = p ∧ x = a ∧ target = b
          · rw [if_pos hx, if_pos hx.2.1]
          · rw [if_neg hx]
            exact Nat.zero_le _
        · rw [if_neg hp]
          apply le_of_eq
          apply sum_eq_zero_of_pointwise
          intro x _
          rw [if_neg]
          exact fun hx => hp hx.1
      · exact ⟨h, Nat.le_add_right _ _⟩
  · exact ⟨h, Nat.le_add_right _ _⟩

/-- In one hour, the records of one tag for one canal are at most as many as
the occurrences of the canal in the canal list. -/
theorem hourTrace_count (E : External) (regions : List RegionRef) (canals : List CanalRef)
    (st : LoopState) (hnd : regions.Nodup) :
    tagCount p c (hourTrace E regions canals st) ≤ canals.count c := by
  have h0 : Runs c (st.world.canal c).sourceRegion (st.world.canal c).destinationRegion
      ⟨canalReset canals st.world.canal, []⟩ :=
    ⟨canalReset_source _ _ c, canalReset_destination _ _ c⟩
  have h1 := crisisRelief_count p c _ _ (droughtBuffer E regions st.world.region) regions
    canals hnd _ h0
  have h2 := targetedFill_count p c _ _ (droughtBuffer E regions st.world.region)
    (markDone (droughtBuffer E regions st.world.region) regions st.done) regions canals hnd
    _ h1.1
  have h3 := overflowDrain_count p c _ _ (droughtBuffer E regions st.world.region) regions
    canals hnd _ h2.1
  have h4 := endgameOverride_count p c _ _ E (droughtBuffer E regions st.world.region)
    st.world.mgr regions canals hnd _ h3.1
  have hz : tagCount p c ([] : List Assignment) = 0 := rfl
  have h5 := h4.2
  have h6 := h3.2
  have h7 := h2.2
  have h8 := h1.2
  simp only [hz] at h8
  unfold hourTrace hourCanals
  simp only []
  cases p <;> simp at h5 h6 h7 h8 ⊢ <;> omega

end Count

/-! ## C14: one assignment per canal and pass -/

theorem exists_of_tagCount_pos (p : Pass) (c : CanalRef) (tr : List Assignment)
    (h : tagCount p c tr ≠ 0) : ∃ x ∈ tr, x.pass = p ∧ x.canal = c := by
  unfold tagCount at h
  have hpos : 0 < tr.countP (fun x => decide (x.pass = p ∧ x.canal = c)) :=
    Nat.pos_of_ne_zero h
  obtain ⟨x, hx, hpx⟩ := List.countP_pos_iff.mp hpos
  exact ⟨x, hx, of_decide_eq_true hpx⟩

theorem relief_or_drain (E : External) (regions : List RegionRef) (canals : List CanalRef)
    (st : LoopState) (c : CanalRef) :
    tagCount Pass.crisisRelief c (hourTrace E regions canals st) = 0 ∨
      tagCount Pass.crisisDrain c (hourTrace E regions canals st) = 0 := by
  by_contra hcon
  rw [not_or] at hcon
  obtain ⟨x, hx, hxp, hxc⟩ := exists_of_tagCount_pos _ _ _ hcon.1
  obtain ⟨y, hy, hyp, hyc⟩ := exists_of_tagCount_pos _ _ _ hcon.2
  have hgx := hourTrace_guard E regions canals st x hx
  have hgy := hourTrace_guard E regions canals st y hy
  rw [hxc] at hgx
  rw [hyc] at hgy
  have h1 := (guard_crisisRelief hgx hxp).2.2.1
  have h2 := (guard_crisisDrain hgy hyp).2.1
  unfold isStable at h1
  rw [h2] at h1
  simp at h1

/-- C14: when the region list holds no region twice, then in one hour, for every
canal and each kind of assignment -- relief, flood drain, targeted fill,
overflow drain, endgame override -- the assignments of that kind to the canal
are at most as many as the occurrences of the canal in the canal list, hence
at most one when the canal list holds no canal twice; a canal never receives
both a relief assignment and a flood-drain assignment of crisis relief, so
this holds for crisis relief as a whole. -/
theorem one_assignment_per_pass (E : External) (regions : List RegionRef)
    (canals : List CanalRef) (st : LoopState) (hnd : regions.Nodup) (c : CanalRef) :
    (∀ p, tagCount p c (hourTrace E regions canals st) ≤ canals.count c) ∧
    (tagCount Pass.crisisRelief c (hourTrace E regions canals st) = 0 ∨
      tagCount Pass.crisisDrain c (hourTrace E regions canals st) = 0) ∧
    tagCount Pass.crisisRelief c (hourTrace E regions canals st) +
      tagCount Pass.crisisDrain c (hourTrace E regions canals st) ≤ canals.count c ∧
    (canals.Nodup →
      (∀ p, tagCount p c (hourTrace E regions canals st) ≤ 1) ∧
      tagCount Pass.crisisRelief c (hourTrace E regions canals st) +
        tagCount Pass.crisisDrain c (hourTrace E regions canals st) ≤ 1) := by
  have hall : ∀ p, tagCount p c (hourTrace E regions canals st) ≤ canals.count c :=
    fun p => hourTrace_count p c E regions canals st hnd
  have hex := relief_or_drain E regions canals st c
  have hsum : tagCount Pass.crisisRelief c (hourTrace E regions canals st) +
      tagCount Pass.crisisDrain c (hourTrace E regions canals st) ≤ canals.count c := by
    have h1 := hall Pass.crisisRelief
    have h2 := hall Pass.crisisDrain
    rcases hex with h | h <;> omega
  refine ⟨hall, hex, hsum, ?_⟩
  intro hcn
  have hone : canals.count c ≤ 1 := List.nodup_iff_count_le_one.mp hcn c
  exact ⟨fun p => le_trans (hall p) hone, le_trans hsum hone⟩

theorem one_assignment_per_pass_witness :
    tagCount Pass.targetedFill 1 (hourTrace stdExternal [0, 1] [0, 1] tiedPair) ≤
      [0, 1].count 1 ∧
    tagCount Pass.endgame 1 (hourTrace stdExternal [0, 1] [0, 1] tiedPair) ≤ 1 ∧
    tagCount Pass.crisisRelief 1 (hourTrace stdExternal [0, 1] [0, 1] tiedPair) +
      tagCount Pass.crisisDrain 1 (hourTrace stdExternal [0, 1] [0, 1] tiedPair) ≤ 1 :=
  have h := one_assignment_per_pass stdExternal [0, 1] [0, 1] tiedPair (by decide) 1
  ⟨h.1 Pass.targetedFill, (h.2.2.2 (by decide)).1 Pass.endgame, (h.2.2.2 (by decide)).2⟩

/-! ## Exact arithmetic as a rounding

With the identity as rounding, the passes in double arithmetic are the passes
of the exact embedding. -/

theorem isExactlyFilledFl_id (r : Region) : isExactlyFilledFl id r = isExactlyFilled r := rfl

theorem availableSurplusFl_id (r : Region) : availableSurplusFl id r = availableSurplus r := rfl

theorem remainingNeedFl_id (r : Region) : remainingNeedFl id r = remainingNeed r := rfl

theorem fillCanalsFl_id (p : Pass) (donor target : RegionRef) (surplus : ℚ) :
    ∀ (cl : List CanalRef) (sn : CanalState × ℚ),
      fillCanalsFl id p donor target surplus cl sn = fillCanals p donor target surplus cl sn
  | [], _ => rfl
  | c :: rest, (s, needed) => by
    unfold fillCanalsFl fillCanals
    simp only [id]
    split
    · split
      · rfl
      · exact fillCanalsFl_id p donor target surplus rest _
    · exact fillCanalsFl_id p donor target surplus rest _

theorem fillDonorsFl_id (rs : RegionStore) (done : List RegionRef) (canals : List CanalRef)
    (target : RegionRef) :
    ∀ (dl : List RegionRef) (sn : CanalState × ℚ),
      fillDonorsFl id rs done canals target dl sn = fillDonors rs done canals target dl sn
  | [], _ => rfl
  | donor :: rest, (s, needed) => by
    unfold fillDonorsFl fillDonors
    simp only [availableSurplusFl_id, fillCanalsFl_id]
    split
    · exact fillDonorsFl_id rs done canals target rest _
    · split
      · exact fillDonorsFl_id rs done canals target rest _
      · split
        · rfl
        · exact fillDonorsFl_id rs done canals target rest _

theorem targetedFillFl_id (rs : RegionStore) (done regions : List RegionRef)
    (canals : List CanalRef) (s : CanalState) :
    targetedFillFl id rs done regions canals s = targetedFill rs done regions canals s := by
  have h : fillTargetFl id rs done regions canals = fillTarget rs done regions canals := by
    funext s t
    unfold fillTargetFl fillTarget
    simp only [remainingNeedFl_id, fillDonorsFl_id]
  unfold targetedFillFl targetedFill
  rw [h]

theorem endgameDonorsFl_id (rs : RegionStore) (mgr : Manager) (canals : List CanalRef)
    (target : RegionRef) :
    ∀ (dl : List RegionRef) (sn : CanalState × ℚ),
      endgameDonorsFl id rs mgr canals target dl sn = endgameDonors rs mgr canals target dl sn
  | [], _ => rfl
  | donor :: rest, (s, needed) => by
    have hs : endgameSurplusFl id mgr (rs donor) = endgameSurplus mgr (rs donor) := rfl
    unfold endgameDonorsFl endgameDonors
    simp only [isExactlyFilledFl_id, hs, fillCanalsFl_id]
    split
    · exact endgameDonorsFl_id rs mgr canals target rest _
    · split
      · exact endgameDonorsFl_id rs mgr canals target rest _
      · split
        · rfl
        · exact endgameDonorsFl_id rs mgr canals target rest _

theorem endgameOverrideFl_id (E : External) (rs : RegionStore) (mgr : Manager)
    (regions : List RegionRef) (canals : List CanalRef) (s : CanalState) :
    endgameOverrideFl id E rs mgr regions canals s = endgameOverride E rs mgr regions canals s := by
  have ht : endgameTargetFl id E rs regions = endgameTarget E rs regions := rfl
  unfold endgameOverrideFl endgameOverride
  simp only [ht, remainingNeedFl_id, endgameDonorsFl_id]

/-! ## The rounding of binary64 -/

theorem pow2_eq (e : ℤ) : pow2 e = (2 : ℚ) ^ e := by
  unfold pow2
  split
  · rename_i h
    obtain ⟨n, rfl⟩ := Int.eq_ofNat_of_zero_le h
    simp
  · rename_i h
    push_neg at h
    obtain ⟨n, hn⟩ := Int.eq_ofNat_of_zero_le (show 0 ≤ -e by omega)
    have he : e = -(n : ℤ) := by omega
    subst he
    simp

theorem pow2_pos (e : ℤ) : 0 < pow2 e := by
  rw [pow2_eq]
  positivity

theorem bitsAux_spec : ∀ (fuel n : Nat), n ≤ fuel → 0 < n →
    2 ^ bitsAux fuel n ≤ n ∧ n < 2 ^ (bitsAux fuel n + 1)
  | 0, n, h, hn => by omega
  | fuel + 1, n, h, hn => by
    unfold bitsAux
    split
    · rename_i h2
      have : n = 1 := by omega
      subst this
      simp
    · rename_i h2
      have ih := bitsAux_spec fuel (n / 2) (by omega) (by omega)
      rw [pow_succ, pow_succ]
      generalize 2 ^ bitsAux fuel (n / 2) = P at ih ⊢
      rw [pow_succ] at ih
      omega

theorem ilog2_spec (n : Nat) (hn : 0 < n) : 2 ^ ilog2 n ≤ n ∧ n < 2 ^ (ilog2 n + 1) :=
  bitsAux_spec n n le_rfl hn


theorem abs_eq_natAbs_div (x : ℚ) : |x| = (x.num.natAbs : ℚ) / (x.den : ℚ) := by
  conv_lhs => rw [← Rat.num_div_den x]
  rw [abs_div, Nat.cast_natAbs, Int.cast_abs, abs_of_pos (show (0 : ℚ) < x.den by
    exact_mod_cast x.den_pos)]

/-- The binade of a nonzero `x` brackets its magnitude between two consecutive
powers of 2. -/
theorem binade_spec (x : ℚ) (hx : x ≠ 0) :
    (2 : ℚ) ^ binade x ≤ |x| ∧ |x| < (2 : ℚ) ^ (binade x + 1) := by
  have hN : 0 < x.num.natAbs := Int.natAbs_pos.mpr (Rat.num_ne_zero.mpr hx)
  have hD : 0 < x.den := x.den_pos
  obtain ⟨ha1, ha2⟩ := ilog2_spec _ hN
  obtain ⟨hb1, hb2⟩ := ilog2_spec _ hD
  have hA1 : ((2 : ℚ) ^ ilog2 x.num.natAbs) ≤ (x.num.natAbs : ℚ) := by exact_mod_cast ha1
  have hA2 : (x.num.natAbs : ℚ) < 2 * (2 : ℚ) ^ ilog2 x.num.natAbs := by
    have : (x.num.natAbs : ℚ) < (2 : ℚ) ^ (ilog2 x.num.natAbs + 1) := by exact_mod_cast ha2
    rw [pow_succ] at this
    linarith
  have hB1 : ((2 : ℚ) ^ ilog2 x.den) ≤ (x.den : ℚ) := by exact_mod_cast hb1
  have hB2 : (x.den : ℚ) < 2 * (2 : ℚ) ^ ilog2 x.den := by
    have : (x.den : ℚ) < (2 : ℚ) ^ (ilog2 x.den + 1) := by exact_mod_cast hb2
    rw [pow_succ] at this
    linarith
  have hk : (2 : ℚ) ^ ((ilog2 x.num.natAbs : ℤ) - (ilog2 x.den : ℤ)) =
      (2 : ℚ) ^ ilog2 x.num.natAbs / (2 : ℚ) ^ ilog2 x.den := by
    rw [zpow_sub₀ (by norm_num), zpow_natCast, zpow_natCast]
  have hk1 : (2 : ℚ) ^ ((ilog2 x.num.natAbs : ℤ) - (ilog2 x.den : ℤ) + 1) =
      2 * (2 : ℚ) ^ ilog2 x.num.natAbs / (2 : ℚ) ^ ilog2 x.den := by
    rw [zpow_add₀ (by norm_num), hk, zpow_one]
    ring
  have hk2 : (2 : ℚ) ^ ((ilog2 x.num.natAbs : ℤ) - (ilog2 x.den : ℤ) - 1) =
      (2 : ℚ) ^ ilog2 x.num.natAbs / (2 * (2 : ℚ) ^ ilog2 x.den) := by
    rw [zpow_sub₀ (by norm_num), hk, zpow_one]
    field_simp
    ring
  have hDq : (0 : ℚ) < x.den := by exact_mod_cast hD
  have hNq : (0 : ℚ) < x.num.natAbs := by exact_mod_cast hN
  generalize (2 : ℚ) ^ ilog2 x.num.natAbs = A at *
  generalize (2 : ℚ) ^ ilog2 x.den = B at *
  have hApos : 0 < A := by
    by_contra h
    push_neg at h
    linarith
  have hBpos : 0 < B := by
    by_contra h
    push_neg at h
    linarith
  unfold binade
  rw [pow2_eq]
  split
  · rename_i h
    refine ⟨h, ?_⟩
    rw [hk1, abs_eq_natAbs_div, div_lt_div_iff₀ hDq hBpos]
    nlinarith
  · rename_i h
    push_neg at h
    refine ⟨?_, by rwa [sub_add_cancel]⟩
    rw [hk2, abs_eq_natAbs_div, div_le_div_iff₀ (by positivity) hDq]
    nlinarith


/-- Rounding to the nearest integer moves a number by at most one half. -/
theorem roundHalfEven_err (t : ℚ) : |(roundHalfEven t : ℚ) - t| ≤ 1 / 2 := by
  have h1 := Int.floor_le t
  have h2 := Int.lt_floor_add_one t
  unfold roundHalfEven
  split_ifs
  all_goals
    rw [abs_le]
    push_cast
    constructor <;> linarith

theorem roundHalfEven_mono {t t' : ℚ} (h : t ≤ t') : roundHalfEven t ≤ roundHalfEven t' := by
  have hf : ⌊t⌋ ≤ ⌊t'⌋ := Int.floor_mono h
  rcases lt_or_eq_of_le hf with hlt | heq
  · have h1 : roundHalfEven t ≤ ⌊t⌋ + 1 := by
      unfold roundHalfEven
      split_ifs <;> omega
    have h2 : ⌊t'⌋ ≤ roundHalfEven t' := by
      unfold roundHalfEven
      split_ifs <;> omega
    omega
  · unfold roundHalfEven
    rw [← heq]
    split_ifs <;> first | omega | (exfalso; linarith)

theorem roundHalfEven_intCast (k : ℤ) : roundHalfEven (k : ℚ) = k := by
  simp [roundHalfEven]

theorem two_zpow_pos (e : ℤ) : (0 : ℚ) < 2 ^ e := by
  positivity

theorem two_zpow_mono {m n : ℤ} (h : m ≤ n) : (2 : ℚ) ^ m ≤ 2 ^ n :=
  zpow_le_zpow_right₀ (by norm_num) h

/-- For positive `x` the quotient of `x` by its unit in the last place lies
below `2 ^ 53`, and at or above `2 ^ 52` when `x` is not subnormal. -/
theorem ulp_bounds (x : ℚ) (hx : 0 < x) :
    -1074 ≤ ulpExponent x ∧ x / (2 : ℚ) ^ ulpExponent x < 2 ^ 53 ∧
    (-1074 < ulpExponent x → (2 : ℚ) ^ 52 ≤ x / (2 : ℚ) ^ ulpExponent x) ∧
    ((2 : ℚ) ^ (-1022 : ℤ) ≤ x → (2 : ℚ) ^ 52 ≤ x / (2 : ℚ) ^ ulpExponent x) := by
  obtain ⟨h1, h2⟩ := binade_spec x (ne_of_gt hx)
  rw [abs_of_pos hx] at h1 h2
  have hsplit : ∀ e : ℤ, (2 : ℚ) ^ (e - 52) = 2 ^ e / 2 ^ (52 : ℕ) := by
    intro e
    rw [zpow_sub₀ (by norm_num)]
    norm_cast
  have hsucc : (2 : ℚ) ^ (binade x + 1) = 2 * 2 ^ binade x := by
    rw [zpow_add₀ (by norm_num), zpow_one]
    ring
  have hpos := two_zpow_pos (binade x)
  unfold ulpExponent
  rcases lt_or_le (binade x - 52) (-1074) with hs | hn
  · rw [max_eq_right (le_of_lt hs)]
    have h3 : (2 : ℚ) ^ (binade x + 1) ≤ 2 ^ (-1022 : ℤ) := two_zpow_mono (by omega)
    refine ⟨le_rfl, ?_, fun h => absurd h (lt_irrefl _), fun ht => ?_⟩
    · rw [div_lt_iff₀ (by positivity)]
      have h4 : (2 : ℚ) ^ (53 : ℕ) * 2 ^ (-1074 : ℤ) = 2 ^ (-1021 : ℤ) := by
        rw [← zpow_natCast, ← zpow_add₀ (by norm_num)]
        norm_num
      rw [h4]
      have h5 : (2 : ℚ) ^ (-1022 : ℤ) ≤ 2 ^ (-1021 : ℤ) := two_zpow_mono (by norm_num)
      linarith
    · exfalso
      linarith
  · rw [max_eq_left hn, hsplit]
    have hlow : (2 : ℚ) ^ 52 ≤ x / (2 ^ binade x / 2 ^ (52 : ℕ)) := by
      rw [le_div_iff₀ (by positivity)]
      have : (2 : ℚ) ^ 52 * (2 ^ binade x / 2 ^ (52 : ℕ)) = 2 ^ binade x := by
        field_simp
      rw [this]
      exact h1
    refine ⟨hn, ?_, fun _ => hlow, fun _ => hlow⟩
    rw [div_lt_iff₀ (by positivity)]
    rw [hsucc] at h2
    have : (2 : ℚ) ^ 53 * (2 ^ binade x / 2 ^ (52 : ℕ)) = 2 * 2 ^ binade x := by
      field_simp
      ring
    rw [this]
    exact h2


theorem roundMagnitude_of_pos (x : ℚ) (hx : 0 < x) :
    roundMagnitude x =
      (roundHalfEven (x / (2 : ℚ) ^ ulpExponent x) : ℚ) * (2 : ℚ) ^ ulpExponent x := by
  unfold roundMagnitude
  rw [if_neg (ne_of_gt hx), pow2_eq]

theorem roundMagnitude_zero : roundMagnitude 0 = 0 := by
  unfold roundMagnitude
  rw [if_pos rfl]

theorem roundHalfEven_nonneg {t : ℚ} (ht : 0 ≤ t) : 0 ≤ roundHalfEven t := by
  have h := roundHalfEven_mono (show ((0 : ℤ) : ℚ) ≤ t by simpa using ht)
  rwa [roundHalfEven_intCast] at h

theorem roundMagnitude_nonneg (x : ℚ) (hx : 0 ≤ x) : 0 ≤ roundMagnitude x := by
  rcases eq_or_lt_of_le hx with h0 | hpos
  · rw [← h0, roundMagnitude_zero]
  · rw [roundMagnitude_of_pos x hpos]
    have ht : 0 ≤ x / (2 : ℚ) ^ ulpExponent x := by positivity
    have hr : (0 : ℚ) ≤ (roundHalfEven (x / (2 : ℚ) ^ ulpExponent x) : ℚ) := by
      exact_mod_cast roundHalfEven_nonneg ht
    positivity

theorem binade_mono {x y : ℚ} (hx : 0 < x) (hxy : x ≤ y) : binade x ≤ binade y := by
  have hy : 0 < y := lt_of_lt_of_le hx hxy
  obtain ⟨h1, _⟩ := binade_spec x (ne_of_gt hx)
  obtain ⟨_, h4⟩ := binade_spec y (ne_of_gt hy)
  rw [abs_of_pos hx] at h1
  rw [abs_of_pos hy] at h4
  by_contra hc
  push_neg at hc
  have h5 : (2 : ℚ) ^ (binade y + 1) ≤ 2 ^ binade x := two_zpow_mono (by omega)
  linarith

theorem ulpExponent_mono {x y : ℚ} (hx : 0 < x) (hxy : x ≤ y) :
    ulpExponent x ≤ ulpExponent y := by
  unfold ulpExponent
  exact max_le_max (by have := binade_mono hx hxy; omega) le_rfl

/-- Rounding of magnitudes is monotone: within a binade because rounding to the
nearest integer is, across binades because a rounded magnitude stays within the
closure of its binade. -/
theorem roundMagnitude_mono {x y : ℚ} (hx : 0 < x) (hxy : x ≤ y) :
    roundMagnitude x ≤ roundMagnitude y := by
  have hy : 0 < y := lt_of_lt_of_le hx hxy
  rw [roundMagnitude_of_pos x hx, roundMagnitude_of_pos y hy]
  obtain ⟨hx1, hx2, _, _⟩ := ulp_bounds x hx
  obtain ⟨_, _, hy3, _⟩ := ulp_bounds y hy
  rcases eq_or_lt_of_le (ulpExponent_mono hx hxy) with he | hl
  · rw [← he]
    have ht : x / (2 : ℚ) ^ ulpExponent x ≤ y / (2 : ℚ) ^ ulpExponent x :=
      div_le_div_of_nonneg_right hxy (le_of_lt (two_zpow_pos _))
    have hr : (roundHalfEven (x / (2 : ℚ) ^ ulpExponent x) : ℚ) ≤
        (roundHalfEven (y / (2 : ℚ) ^ ulpExponent x) : ℚ) := by
      exact_mod_cast roundHalfEven_mono ht
    exact mul_le_mul_of_nonneg_right hr (le_of_lt (two_zpow_pos _))
  · have hlow : (2 : ℚ) ^ 52 ≤ (roundHalfEven (y / (2 : ℚ) ^ ulpExponent y) : ℚ) := by
      have h := roundHalfEven_mono
        (show (((2 : ℤ) ^ 52 : ℤ) : ℚ) ≤ y / (2 : ℚ) ^ ulpExponent y by
          push_cast
          exact hy3 (by omega))
      rw [roundHalfEven_intCast] at h
      exact_mod_cast h
    have hhigh : (roundHalfEven (x / (2 : ℚ) ^ ulpExponent x) : ℚ) ≤ (2 : ℚ) ^ 53 := by
      have h := roundHalfEven_mono
        (show x / (2 : ℚ) ^ ulpExponent x ≤ (((2 : ℤ) ^ 53 : ℤ) : ℚ) by
          push_cast
          exact le_of_lt hx2)
      rw [roundHalfEven_intCast] at h
      exact_mod_cast h
    have hstep : (2 : ℚ) ^ 53 * 2 ^ ulpExponent x ≤ 2 ^ 52 * 2 ^ ulpExponent y := by
      have h1 : (2 : ℚ) ^ (ulpExponent x + 1) ≤ 2 ^ ulpExponent y := two_zpow_mono (by omega)
      rw [zpow_add₀ (by norm_num), zpow_one] at h1
      have : (2 : ℚ) ^ 53 = 2 ^ 52 * 2 := by norm_num
      rw [this]
      nlinarith
    calc (roundHalfEven (x / (2 : ℚ) ^ ulpExponent x) : ℚ) * 2 ^ ulpExponent x
        ≤ 2 ^ 53 * 2 ^ ulpExponent x :=
          mul_le_mul_of_nonneg_right hhigh (le_of_lt (two_zpow_pos _))
      _ ≤ 2 ^ 52 * 2 ^ ulpExponent y := hstep
      _ ≤ (roundHalfEven (y / (2 : ℚ) ^ ulpExponent y) : ℚ) * 2 ^ ulpExponent y :=
          mul_le_mul_of_nonneg_right hlow (le_of_lt (two_zpow_pos _))

/-- In the normal range the relative error of rounding is at most `2 ^ -53`. -/
theorem roundMagnitude_err (x : ℚ) (hx : (2 : ℚ) ^ (-1022 : ℤ) ≤ x) :
    |roundMagnitude x - x| ≤ x / 2 ^ 53 := by
  have hpos : 0 < x := lt_of_lt_of_le (two_zpow_pos _) hx
  rw [roundMagnitude_of_pos x hpos]
  obtain ⟨_, _, _, h4⟩ := ulp_bounds x hpos
  have h52 := h4 hx
  have herr := roundHalfEven_err (x / (2 : ℚ) ^ ulpExponent x)
  have hp := two_zpow_pos (ulpExponent x)
  have hx' : x = x / (2 : ℚ) ^ ulpExponent x * (2 : ℚ) ^ ulpExponent x := by
    field_simp
  generalize x / (2 : ℚ) ^ ulpExponent x = t at *
  generalize (2 : ℚ) ^ ulpExponent x = p at *
  generalize (roundHalfEven t : ℚ) = r at *
  rw [hx']
  have h1 : r * p - t * p = (r - t) * p := by ring
  rw [h1, abs_mul, abs_of_pos hp]
  have h2 : |r - t| * p ≤ 1 / 2 * p := mul_le_mul_of_nonneg_right herr (le_of_lt hp)
  have h3 : 1 / 2 * p ≤ t * p / 2 ^ 53 := by
    rw [le_div_iff₀ (by positivity)]
    nlinarith
  linarith


theorem roundMagnitude_grid (x : ℚ) (hx : 0 ≤ x) :
    ∃ k : ℤ, roundMagnitude x = (k : ℚ) * (2 : ℚ) ^ (-1074 : ℤ) := by
  rcases eq_or_lt_of_le hx with h0 | hpos
  · exact ⟨0, by rw [← h0, roundMagnitude_zero]; simp⟩
  · obtain ⟨h1, _, _, _⟩ := ulp_bounds x hpos
    obtain ⟨n, hn⟩ := Int.eq_ofNat_of_zero_le (show 0 ≤ ulpExponent x + 1074 by omega)
    refine ⟨roundHalfEven (x / (2 : ℚ) ^ ulpExponent x) * 2 ^ n, ?_⟩
    rw [roundMagnitude_of_pos x hpos]
    have he : ulpExponent x = (n : ℤ) + (-1074) := by omega
    have h2 : (2 : ℚ) ^ ulpExponent x = 2 ^ n * 2 ^ (-1074 : ℤ) := by
      rw [he, zpow_add₀ (by norm_num), zpow_natCast]
    rw [h2]
    push_cast
    ring

theorem roundMagnitude_exact (k : ℤ) (hpos : 0 < (k : ℚ) * (2 : ℚ) ^ (-1074 : ℤ))
    (hlt : (k : ℚ) * (2 : ℚ) ^ (-1074 : ℤ) < (2 : ℚ) ^ (-1022 : ℤ)) :
    roundMagnitude ((k : ℚ) * (2 : ℚ) ^ (-1074 : ℤ)) =
      (k : ℚ) * (2 : ℚ) ^ (-1074 : ℤ) := by
  obtain ⟨h1, _⟩ := binade_spec _ (ne_of_gt hpos)
  rw [abs_of_pos hpos] at h1
  have hb : binade ((k : ℚ) * (2 : ℚ) ^ (-1074 : ℤ)) < -1022 := by
    by_contra hc
    push_neg at hc
    have := two_zpow_mono hc
    linarith
  have he : ulpExponent ((k : ℚ) * (2 : ℚ) ^ (-1074 : ℤ)) = -1074 := by
    unfold ulpExponent
    exact max_eq_right (by omega)
  rw [roundMagnitude_of_pos _ hpos, he]
  have ht : (k : ℚ) * (2 : ℚ) ^ (-1074 : ℤ) / (2 : ℚ) ^ (-1074 : ℤ) = (k : ℚ) := by
    field_simp
  rw [ht, roundHalfEven_intCast]

theorem binary64_zero : binary64 0 = 0 := by
  unfold binary64
  rw [if_neg (lt_irrefl _), roundMagnitude_zero]

theorem binary64_mono : Monotone binary64 := by
  intro x y hxy
  unfold binary64
  by_cases hx : x < 0
  · rw [if_pos hx]
    by_cases hy : y < 0
    · rw [if_pos hy]
      exact neg_le_neg (roundMagnitude_mono (by linarith) (by linarith))
    · rw [if_neg hy]
      have h1 := roundMagnitude_nonneg (-x) (by linarith)
      have h2 := roundMagnitude_nonneg y (by linarith)
      linarith
  · have hy : ¬ y < 0 := by
      push_neg at hx ⊢
      linarith
    rw [if_neg hx, if_neg hy]
    push_neg at hx
    rcases eq_or_lt_of_le hx with h0 | hpos
    · rw [← h0, roundMagnitude_zero]
      exact roundMagnitude_nonneg y (by linarith)
    · exact roundMagnitude_mono hpos hxy

theorem binary64_err (x : ℚ) (hx : (2 : ℚ) ^ (-1022 : ℤ) ≤ |x|) :
    |binary64 x - x| ≤ 1 / 2 ^ 53 * |x| := by
  unfold binary64
  by_cases h : x < 0
  · rw [if_pos h]
    rw [abs_of_neg h] at hx ⊢
    have := roundMagnitude_err (-x) hx
    have h1 : -roundMagnitude (-x) - x = -(roundMagnitude (-x) - -x) := by ring
    rw [h1, abs_neg]
    calc |roundMagnitude (-x) - -x| ≤ -x / 2 ^ 53 := this
      _ = 1 / 2 ^ 53 * -x := by ring
  · rw [if_neg h]
    push_neg at h
    rw [abs_of_nonneg h] at hx ⊢
    calc |roundMagnitude x - x| ≤ x / 2 ^ 53 := roundMagnitude_err x hx
      _ = 1 / 2 ^ 53 * x := by ring

/-- Every binary64 number is a multiple of `2 ^ -1074`. -/
theorem binary64_grid (x : ℚ) :
    ∃ k : ℤ, binary64 x = (k : ℚ) * (2 : ℚ) ^ (-1074 : ℤ) := by
  unfold binary64
  by_cases h : x < 0
  · rw [if_pos h]
    obtain ⟨k, hk⟩ := roundMagnitude_grid (-x) (by linarith)
    exact ⟨-k, by rw [hk]; push_cast; ring⟩
  · rw [if_neg h]
    exact roundMagnitude_grid x (by linarith)

/-- Below the normal range every multiple of `2 ^ -1074` is a binary64 number. -/
theorem binary64_exact (k : ℤ)
    (hlt : |(k : ℚ) * (2 : ℚ) ^ (-1074 : ℤ)| < (2 : ℚ) ^ (-1022 : ℤ)) :
    binary64 ((k : ℚ) * (2 : ℚ) ^ (-1074 : ℤ)) = (k : ℚ) * (2 : ℚ) ^ (-1074 : ℤ) := by
  unfold binary64
  by_cases h : (k : ℚ) * (2 : ℚ) ^ (-1074 : ℤ) < 0
  · rw [if_pos h]
    rw [abs_of_neg h] at hlt
    have h1 : -((k : ℚ) * (2 : ℚ) ^ (-1074 : ℤ)) =
        ((-k : ℤ) : ℚ) * (2 : ℚ) ^ (-1074 : ℤ) := by
      push_cast
      ring
    rw [h1] at hlt ⊢
    rw [roundMagnitude_exact (-k) (by rw [← h1]; linarith) hlt]
    push_cast
    ring
  · rw [if_neg h]
    push_neg at h
    rw [abs_of_nonneg h] at hlt
    rcases eq_or_lt_of_le h with h0 | hpos
    · rw [← h0, roundMagnitude_zero]
    · exact roundMagnitude_exact k hpos hlt

/-- The difference of two binary64 numbers is rounded with relative error at
most `2 ^ -53`, also when it is subnormal: it is then exact. -/
theorem binary64_err_sub (a b : ℚ) :
    |binary64 (binary64 a - binary64 b) - (binary64 a - binary64 b)| ≤
      1 / 2 ^ 53 * |binary64 a - binary64 b| := by
  rcases le_or_lt ((2 : ℚ) ^ (-1022 : ℤ)) |binary64 a - binary64 b| with h | h
  · exact binary64_err _ h
  · obtain ⟨ka, hka⟩ := binary64_grid a
    obtain ⟨kb, hkb⟩ := binary64_grid b
    have hd : binary64 a - binary64 b = ((ka - kb : ℤ) : ℚ) * (2 : ℚ) ^ (-1074 : ℤ) := by
      rw [hka, hkb]
      push_cast
      ring
    rw [hd] at h ⊢
    rw [binary64_exact _ h, sub_self, abs_zero]
    positivity

/-- Values of `binary64`: the doubles nearest `0.1`, `3.6` and `1/3`; numbers of
the format, which it keeps; ties, which go to the even significand; and the
subnormal range, where the spacing is `2 ^ -1074`. -/
theorem binary64_values :
    binary64 0.1 = 3602879701896397 / 2 ^ 55 ∧
    binary64 3.6 = 8106479329266893 / 2 ^ 51 ∧
    binary64 (1 / 3) = 6004799503160661 / 2 ^ 54 ∧
    binary64 (-(1 / 3)) = -(6004799503160661 / 2 ^ 54) ∧
    binary64 0.25 = 0.25 ∧ binary64 1 = 1 ∧ binary64 15.25 = 15.25 ∧
    binary64 (2 ^ 53 + 1) = 2 ^ 53 ∧ binary64 (2 ^ 53 + 3) = 2 ^ 53 + 4 ∧
    binary64 (3 / 2 ^ 1075) = 1 / 2 ^ 1073 ∧ binary64 (1 / 2 ^ 1076) = 0 := by
  decide!

/-- The rounding of binary64 has the properties of `Rounding`, with unit
roundoff `2 ^ -53` and smallest normal number `2 ^ -1022`. -/
theorem binary64_rounding : Rounding binary64 (1 / 2 ^ 53) (1 / 2 ^ 1022) := by
  refine ⟨binary64_mono, binary64_zero, ?_, binary64_err_sub, by decide!, by positivity, ?_,
    by positivity, by norm_num⟩
  · intro x hx
    refine binary64_err x ?_
    rw [zpow_neg, zpow_ofNat, ← one_div]
    exact hx
  · have h : (4 : ℚ) ≤ 2 ^ 1022 :=
      calc (4 : ℚ) = 2 ^ 2 := by norm_num
        _ ≤ 2 ^ 1022 := pow_le_pow_right₀ (by norm_num) (by norm_num)
    exact one_div_le_one_div_of_le (by norm_num) h

/-! ## Targeted fill in double arithmetic carries out the plan of the specification -/

@[simp] theorem assignAll_nil (s : CanalState) : s.assignAll [] = s := rfl

@[simp] theorem assignAll_cons (s : CanalState) (a : Assignment) (l : List Assignment) :
    s.assignAll (a :: l) = (s.assign a).assignAll l := rfl

theorem assignAll_append (s : CanalState) (l1 l2 : List Assignment) :
    s.assignAll (l1 ++ l2) = (s.assignAll l1).assignAll l2 := by
  unfold CanalState.assignAll
  rw [List.foldl_append]

theorem assignAll_trace : ∀ (l : List Assignment) (s : CanalState),
    (s.assignAll l).trace = s.trace ++ l
  | [], s => by simp
  | a :: l, s => by
    rw [assignAll_cons, assignAll_trace l, assign_trace, List.append_assoc]
    rfl

theorem sameEnds_assign {cs : CanalStore} {s : CanalState} (h : SameEnds cs s)
    (a : Assignment) : SameEnds cs (s.assign a) := by
  intro c
  simpa using h c

theorem sameEnds_assignAll {cs : CanalStore} : ∀ (l : List Assignment) {s : CanalState},
    SameEnds cs s → SameEnds cs (s.assignAll l)
  | [], _, h => h
  | a :: l, _, h => sameEnds_assignAll l (sameEnds_assign h a)

theorem sameEnds_self (s : CanalState) : SameEnds s.canal s :=
  fun _ => ⟨rfl, rfl⟩

theorem greedyFillFl_cons_stop (fl : ℚ → ℚ) (p : Pass) (n : ℚ) (c : CanalRef) (sur : ℚ)
    (rest : List (CanalRef × ℚ)) (h : fillRestFl fl n sur ≤ 0) :
    greedyFillFl fl p n ((c, sur) :: rest) =
      ([⟨p, c, n, sur, fillFlowFl fl n sur⟩], fillRestFl fl n sur) := by
  rw [greedyFillFl]
  simp only [if_pos h]

theorem greedyFillFl_cons_go (fl : ℚ → ℚ) (p : Pass) (n : ℚ) (c : CanalRef) (sur : ℚ)
    (rest : List (CanalRef × ℚ)) (h : ¬ fillRestFl fl n sur ≤ 0) :
    greedyFillFl fl p n ((c, sur) :: rest) =
      (⟨p, c, n, sur, fillFlowFl fl n sur⟩ ::
          (greedyFillFl fl p (fillRestFl fl n sur) rest).1,
        (greedyFillFl fl p (fillRestFl fl n sur) rest).2) := by
  rw [greedyFillFl]
  simp only [if_neg h]

theorem fillCanalsFl_eq (fl : ℚ → ℚ) (cs : CanalStore) (p : Pass) (donor target : RegionRef)
    (surplus : ℚ) :
    ∀ (cl : List CanalRef) (s : CanalState) (n : ℚ), SameEnds cs s →
      fillCanalsFl fl p donor target surplus cl (s, n) =
        (s.assignAll (greedyFillFl fl p n ((cl.filter (fun c =>
            decide ((cs c).sourceRegion = donor ∧ (cs c).destinationRegion = target))).map
            (fun c => (c, surplus)))).1,
          (greedyFillFl fl p n ((cl.filter (fun c =>
            decide ((cs c).sourceRegion = donor ∧ (cs c).destinationRegion = target))).map
            (fun c => (c, surplus)))).2)
  | [], s, n, _ => rfl
  | c :: rest, s, n, h => by
    unfold fillCanalsFl
    by_cases hm : (cs c).sourceRegion = donor ∧ (cs c).destinationRegion = target
    · have hm1 : (s.canal c).sourceRegion = donor ∧ (s.canal c).destinationRegion = target := by
        rw [(h c).1, (h c).2]
        exact hm
      rw [if_pos hm1, List.filter_cons_of_pos (by simpa using hm), List.map_cons]
      simp only []
      by_cases hn : fillRestFl fl n surplus ≤ 0
      · rw [greedyFillFl_cons_stop fl p n c surplus _ hn]
        have hn1 : fl (n - fl (clamp (fl (n / fl 3.6)) MINIMUM_FLOW surplus * fl 3.6)) ≤ 0 := hn
        rw [if_pos hn1]
        rfl
      · rw [greedyFillFl_cons_go fl p n c surplus _ hn]
        have hn1 : ¬ fl (n - fl (clamp (fl (n / fl 3.6)) MINIMUM_FLOW surplus * fl 3.6)) ≤ 0 :=
          hn
        rw [if_neg hn1,
          fillCanalsFl_eq fl cs p donor target surplus rest _ _ (sameEnds_assign h _)]
        rfl
    · have hm1 : ¬ ((s.canal c).sourceRegion = donor ∧
          (s.canal c).destinationRegion = target) := by
        rw [(h c).1, (h c).2]
        exact hm
      rw [if_neg hm1, List.filter_cons_of_neg (by simpa using hm)]
      exact fillCanalsFl_eq fl cs p donor target surplus rest s n h

theorem greedyFillFl_append (fl : ℚ → ℚ) (p : Pass) :
    ∀ (l1 l2 : List (CanalRef × ℚ)) (n : ℚ), 0 < n →
      greedyFillFl fl p n (l1 ++ l2) =
        if (greedyFillFl fl p n l1).2 ≤ 0 then greedyFillFl fl p n l1
        else ((greedyFillFl fl p n l1).1 ++ (greedyFillFl fl p (greedyFillFl fl p n l1).2 l2).1,
          (greedyFillFl fl p (greedyFillFl fl p n l1).2 l2).2)
  | [], l2, n, hn => by
    simp only [List.nil_append, greedyFillFl]
    rw [if_neg (not_le.mpr hn)]
  | (c, sur) :: l1, l2, n, hn => by
    rw [List.cons_append]
    by_cases hm : fillRestFl fl n sur ≤ 0
    · rw [greedyFillFl_cons_stop fl p n c sur _ hm, greedyFillFl_cons_stop fl p n c sur _ hm]
      simp only [if_pos hm]
    · rw [greedyFillFl_cons_go fl p n c sur _ hm, greedyFillFl_cons_go fl p n c sur _ hm,
        greedyFillFl_append fl p l1 l2 _ (not_le.mp hm)]
      simp only []
      split <;> rfl

theorem fillDonorsFl_eq (fl : ℚ → ℚ) (cs : CanalStore) (rs : RegionStore)
    (done : List RegionRef) (canals : List CanalRef) (target : RegionRef) :
    ∀ (dl : List RegionRef) (s : CanalState) (n : ℚ), SameEnds cs s → 0 < n →
      fillDonorsFl fl rs done canals target dl (s, n) =
        (s.assignAll (greedyFillFl fl Pass.targetedFill n
            (dl.flatMap (donorCandidatesFl fl rs done canals cs target))).1,
          (greedyFillFl fl Pass.targetedFill n
            (dl.flatMap (donorCandidatesFl fl rs done canals cs target))).2)
  | [], s, n, _, _ => rfl
  | donor :: rest, s, n, h, hn => by
    rw [List.flatMap_cons]
    unfold fillDonorsFl
    by_cases hskip : donor = target ∨ isStable (rs donor) = false ∨ donor ∈ done
    · have hnil : donorCandidatesFl fl rs done canals cs target donor = [] := by
        unfold donorCandidatesFl
        rw [if_pos]
        rcases hskip with h1 | h1 | h1
        · exact Or.inl h1
        · exact Or.inr (Or.inl h1)
        · exact Or.inr (Or.inr (Or.inl h1))
      rw [if_pos hskip, hnil, List.nil_append]
      exact fillDonorsFl_eq fl cs rs done canals target rest s n h hn
    · rw [if_neg hskip]
      simp only []
      by_cases hsu : availableSurplusFl fl (rs donor) ≤ 0
      · have hnil : donorCandidatesFl fl rs done canals cs target donor = [] := by
          unfold donorCandidatesFl
          rw [if_pos (Or.inr (Or.inr (Or.inr hsu)))]
        rw [if_pos hsu, hnil, List.nil_append]
        exact fillDonorsFl_eq fl cs rs done canals target rest s n h hn
      · have hcands : donorCandidatesFl fl rs done canals cs target donor =
            (canals.filter (fun c =>
              decide ((cs c).sourceRegion = donor ∧ (cs c).destinationRegion = target))).map
              (fun c => (c, availableSurplusFl fl (rs donor))) := by
          unfold donorCandidatesFl
          rw [if_neg]
          simp only [not_or] at hskip ⊢
          exact ⟨hskip.1, hskip.2.1, hskip.2.2, hsu⟩
        rw [if_neg hsu, fillCanalsFl_eq fl cs _ donor target _ canals s n h, ← hcands,
          greedyFillFl_append fl _ _ _ n hn]
        simp only []
        by_cases hstop : (greedyFillFl fl Pass.targetedFill n
            (donorCandidatesFl fl rs done canals cs target donor)).2 ≤ 0
        · rw [if_pos hstop, if_pos hstop]
        · rw [if_neg hstop, if_neg hstop,
            fillDonorsFl_eq fl cs rs done canals target rest _ _ (sameEnds_assignAll _ h)
              (not_le.mp hstop), assignAll_append]

theorem fillTargetFl_eq (fl : ℚ → ℚ) (cs : CanalStore) (rs : RegionStore)
    (done regions : List RegionRef) (canals : List CanalRef) (s : CanalState)
    (target : RegionRef) (h : SameEnds cs s) :
    fillTargetFl fl rs done regions canals s target =
      s.assignAll (fillPlanFl fl rs done regions canals cs target) := by
  unfold fillTargetFl fillPlanFl
  by_cases h1 : target ∈ done ∨ isStable (rs target) = false
  · rw [if_pos h1, if_pos]
    · rfl
    · rcases h1 with h1 | h1
      · exact Or.inl h1
      · exact Or.inr (Or.inl h1)
  · rw [if_neg h1]
    simp only []
    by_cases h2 : remainingNeedFl fl (rs target) ≤ 0
    · rw [if_pos h2, if_pos (Or.inr (Or.inr h2))]
      rfl
    · rw [if_neg h2, if_neg]
      · rw [fillDonorsFl_eq fl cs rs done canals target regions s _ h (not_le.mp h2)]
        rfl
      · simp only [not_or] at h1 ⊢
        exact ⟨h1.1, h1.2, h2⟩

theorem foldl_fillTargetFl_eq (fl : ℚ → ℚ) (cs : CanalStore) (rs : RegionStore)
    (done regions : List RegionRef) (canals : List CanalRef) :
    ∀ (l : List RegionRef) (s : CanalState), SameEnds cs s →
      l.foldl (fillTargetFl fl rs done regions canals) s =
        s.assignAll (l.flatMap (fillPlanFl fl rs done regions canals cs))
  | [], _, _ => rfl
  | t :: l, s, h => by
    rw [List.foldl_cons, List.flatMap_cons, assignAll_append,
      fillTargetFl_eq fl cs _ _ _ _ _ _ h]
    exact foldl_fillTargetFl_eq fl cs rs done regions canals l _ (sameEnds_assignAll _ h)

/-- Targeted fill in double arithmetic makes exactly the assignments of the
plans of its targets, target by target in collection order. -/
theorem targetedFillFl_eq (fl : ℚ → ℚ) (cs : CanalStore) (rs : RegionStore)
    (done regions : List RegionRef) (canals : List CanalRef) (s : CanalState)
    (h : SameEnds cs s) :
    targetedFillFl fl rs done regions canals s =
      s.assignAll (regions.flatMap (fillPlanFl fl rs done regions canals cs)) :=
  foldl_fillTargetFl_eq fl cs rs done regions canals regions s h

theorem greedyFillFl_mem (fl : ℚ → ℚ) (p : Pass) :
    ∀ (cands : List (CanalRef × ℚ)) (n : ℚ) (a : Assignment),
      a ∈ (greedyFillFl fl p n cands).1 →
      a.pass = p ∧ (a.canal, a.high) ∈ cands ∧ a.flow = fillFlowFl fl a.value a.high
  | [], n, a, h => by simp [greedyFillFl] at h
  | (c, sur) :: rest, n, a, h => by
    by_cases hm : fillRestFl fl n sur ≤ 0
    · rw [greedyFillFl_cons_stop fl p n c sur _ hm] at h
      simp only [List.mem_singleton] at h
      subst h
      exact ⟨rfl, List.mem_cons_self _ _, rfl⟩
    · rw [greedyFillFl_cons_go fl p n c sur _ hm] at h
      rcases List.mem_cons.mp h with h1 | h1
      · subst h1
        exact ⟨rfl, List.mem_cons_self _ _, rfl⟩
      · have ih := greedyFillFl_mem fl p rest _ a h1
        exact ⟨ih.1, List.mem_cons_of_mem _ ih.2.1, ih.2.2⟩

theorem greedyFillFl_dropLast (fl : ℚ → ℚ) (p : Pass) :
    ∀ (cands : List (CanalRef × ℚ)) (n : ℚ) (a : Assignment),
      a ∈ (greedyFillFl fl p n cands).1.dropLast → 0 < fillRestFl fl a.value a.high
  | [], n, a, h => by simp [greedyFillFl] at h
  | (c, sur) :: rest, n, a, h => by
    by_cases hm : fillRestFl fl n sur ≤ 0
    · rw [greedyFillFl_cons_stop fl p n c sur _ hm] at h
      simp at h
    · rw [greedyFillFl_cons_go fl p n c sur _ hm] at h
      simp only [] at h
      cases hr : (greedyFillFl fl p (fillRestFl fl n sur) rest).1 with
      | nil =>
        rw [hr] at h
        simp at h
      | cons b l =>
        rw [hr, List.dropLast_cons_of_ne_nil (List.cons_ne_nil b l)] at h
        rcases List.mem_cons.mp h with h1 | h1
        · subst h1
          exact not_le.mp hm
        · rw [← hr] at h1
          exact greedyFillFl_dropLast fl p rest _ a h1

theorem fillPlanFl_mem (fl : ℚ → ℚ) (rs : RegionStore) (done regions : List RegionRef)
    (canals : List CanalRef) (cs : CanalStore) (t : RegionRef) (a : Assignment)
    (ha : a ∈ fillPlanFl fl rs done regions canals cs t) :
    a.pass = Pass.targetedFill ∧ (cs a.canal).destinationRegion = t ∧ a.canal ∈ canals ∧
      (cs a.canal).sourceRegion ∈ regions ∧
      a.high = availableSurplusFl fl (rs (cs a.canal).sourceRegion) ∧
      a.flow = fillFlowFl fl a.value a.high := by
  unfold fillPlanFl at ha
  split at ha
  · exact absurd ha (List.not_mem_nil _)
  · have h := greedyFillFl_mem fl _ _ _ a ha
    obtain ⟨donor, hd, hc⟩ := List.mem_flatMap.mp h.2.1
    unfold donorCandidatesFl at hc
    split at hc
    · exact absurd hc (List.not_mem_nil _)
    · obtain ⟨c, hcf, hce⟩ := List.mem_map.mp hc
      rw [List.mem_filter] at hcf
      have hc1 : c = a.canal := congrArg Prod.fst hce
      have hc2 : availableSurplusFl fl (rs donor) = a.high := congrArg Prod.snd hce
      subst hc1
      have hends := of_decide_eq_true hcf.2
      rw [hends.1]
      exact ⟨h.1, hends.2, hcf.1, hd, hc2.symm, h.2.2⟩

theorem filter_flatMap_of_nodup {β : Type} (f : RegionRef → List β) (key : β → RegionRef)
    (x : RegionRef) :
    ∀ (l : List RegionRef), l.Nodup → (∀ y ∈ l, ∀ b ∈ f y, key b = y) →
      (l.flatMap f).filter (fun b => decide (key b = x)) = if x ∈ l then f x else []
  | [], _, _ => by simp
  | y :: l, hnd, hkey => by
    have hy : y ∉ l := (List.nodup_cons.mp hnd).1
    have ih := filter_flatMap_of_nodup f key x l (List.nodup_cons.mp hnd).2
      (fun z hz => hkey z (List.mem_cons_of_mem _ hz))
    rw [List.flatMap_cons, List.filter_append, ih]
    by_cases hxy : x = y
    · subst hxy
      have h1 : (f x).filter (fun b => decide (key b = x)) = f x := by
        rw [List.filter_eq_self]
        intro b hb
        simpa using hkey x (List.mem_cons_self _ _) b hb
      rw [h1, if_neg hy, if_pos (List.mem_cons_self _ _), List.append_nil]
    · have h1 : (f y).filter (fun b => decide (key b = x)) = [] := by
        rw [List.filter_eq_nil_iff]
        intro b hb
        have := hkey y (List.mem_cons_self _ _) b hb
        simp only [decide_eq_true_eq]
        rw [this]
        exact fun e => hxy e.symm
      rw [h1, List.nil_append]
      by_cases hxl : x ∈ l
      · rw [if_pos hxl, if_pos (List.mem_cons_of_mem _ hxl)]
      · rw [if_neg hxl, if_neg]
        intro hm
        rcases List.mem_cons.mp hm with h2 | h2
        · exact hxy h2
        · exact hxl h2

/-- When no region occurs twice in the collection, the records that targeted
fill adds for canals into a region of the collection are the plan of that
region. -/
theorem fillRecordsFl_eq (fl : ℚ → ℚ) (rs : RegionStore) (done regions : List RegionRef)
    (canals : List CanalRef) (s : CanalState) (hnd : regions.Nodup) (t : RegionRef)
    (ht : t ∈ regions) :
    fillRecordsFl fl rs done regions canals s t =
      fillPlanFl fl rs done regions canals s.canal t := by
  unfold fillRecordsFl
  rw [targetedFillFl_eq fl s.canal rs done regions canals s (sameEnds_self s), assignAll_trace,
    List.drop_left,
    filter_flatMap_of_nodup _ (fun a => (s.canal a.canal).destinationRegion) t regions
      hnd (fun y _ b hb => (fillPlanFl_mem fl _ _ _ _ _ _ b hb).2.1),
    if_pos ht]

/-! ## C11: targeted fill is greedy in collection order -/

/-- In the scenario `twinCanals` region 0 is a stable target that is not done,
with `needed` = 15.25, and the first qualifying canal, canal 0, comes with a
donor surplus 6.5 of at least `needed/3.6 >= 0.25`, in exact as in double
arithmetic. In double arithmetic the quotient times 3.6 falls short of `needed`
by `2 ^ -49`, so `needed` stays positive after the first assignment and
targeted fill opens canal 1 into region 0 as well, with the minimum flow. -/
theorem twinCanals_second_canal_opened :
    isStable (twinCanals.region 0) = true ∧
    remainingNeedFl binary64 (twinCanals.region 0) = 15.25 ∧
    fillCandidatesFl binary64 twinCanals.region [] [0, 1] [0, 1] twinCanals.canal 0 =
      [(0, 6.5), (1, 6.5)] ∧
    ((0.25 : ℚ) ≤ 15.25 / 3.6 ∧ (15.25 : ℚ) / 3.6 ≤ 6.5) ∧
    ((0.25 : ℚ) ≤ binary64 (15.25 / binary64 3.6) ∧
      binary64 (15.25 / binary64 3.6) ≤ 6.5) ∧
    fillRestFl binary64 15.25 6.5 = 1 / 2 ^ 49 ∧
    (targetedFillFl binary64 twinCanals.region [] [0, 1] [0, 1] ⟨twinCanals.canal, []⟩).trace =
      [⟨Pass.targetedFill, 0, 15.25, 6.5, binary64 (15.25 / binary64 3.6)⟩,
        ⟨Pass.targetedFill, 1, 1 / 2 ^ 49, 6.5, 0.25⟩] ∧
    ((targetedFillFl binary64 twinCanals.region [] [0, 1] [0, 1]
      ⟨twinCanals.canal, []⟩).canal 1).isOpen = true ∧
    ((targetedFillFl binary64 twinCanals.region [] [0, 1] [0, 1]
      ⟨twinCanals.canal, []⟩).canal 1).flowRate = 0.25 := by
  decide!

/-- C11 (amended): in targeted fill, with the arithmetic of the floating-point
format, the processing of one target makes exactly the assignments of the plan
that the specification words -- the qualifying canals by donor in collection
order and then by canal in collection order, each assigned
`clamp(needed/3.6, 0.25, surplus(donor))` with `needed` reduced by `flow * 3.6`,
and nothing more once `needed <= 0`; the pass makes the plans of its targets one
after the other, and when the region list holds no region twice its records for
canals into a region of the collection are the plan of that region. If the
first qualifying canal into a stable target that is not done, with
`needed > 0`, comes with a donor surplus of at least the computed quotient
`needed/3.6 >= 0.25`, the first assignment of the plan gives that canal exactly
the computed quotient; and when the value of `needed` computed after it,
`needed - flow * 3.6`, is at most 0, it is the only assignment into that target:
the processing of the target leaves that canal open with that flow and every
other canal as it was. -/
theorem targeted_fill_greedy (fl : ℚ → ℚ) (rs : RegionStore) (done regions : List RegionRef)
    (canals : List CanalRef) (s : CanalState) :
    (∀ t, fillTargetFl fl rs done regions canals s t =
      s.assignAll (fillPlanFl fl rs done regions canals s.canal t)) ∧
    targetedFillFl fl rs done regions canals s =
      s.assignAll (regions.flatMap (fillPlanFl fl rs done regions canals s.canal)) ∧
    (regions.Nodup → ∀ t ∈ regions,
      fillRecordsFl fl rs done regions canals s t =
        fillPlanFl fl rs done regions canals s.canal t) ∧
    (∀ (t : RegionRef) (c : CanalRef) (sur : ℚ) (rest : List (CanalRef × ℚ)),
      t ∉ done → isStable (rs t) = true → 0 < remainingNeedFl fl (rs t) →
      fillCandidatesFl fl rs done regions canals s.canal t = (c, sur) :: rest →
      0.25 ≤ fl (remainingNeedFl fl (rs t) / fl 3.6) →
      fl (remainingNeedFl fl (rs t) / fl 3.6) ≤ sur →
      sur = availableSurplusFl fl (rs (s.canal c).sourceRegion) ∧
      (s.canal c).destinationRegion = t ∧
      (fillPlanFl fl rs done regions canals s.canal t).head? =
        some ⟨Pass.targetedFill, c, remainingNeedFl fl (rs t), sur,
          fl (remainingNeedFl fl (rs t) / fl 3.6)⟩ ∧
      (fl (remainingNeedFl fl (rs t) -
          fl (fl (remainingNeedFl fl (rs t) / fl 3.6) * fl 3.6)) ≤ 0 →
        fillPlanFl fl rs done regions canals s.canal t =
          [⟨Pass.targetedFill, c, remainingNeedFl fl (rs t), sur,
            fl (remainingNeedFl fl (rs t) / fl 3.6)⟩] ∧
        ((fillTargetFl fl rs done regions canals s t).canal c).isOpen = true ∧
        ((fillTargetFl fl rs done regions canals s t).canal c).flowRate =
          fl (remainingNeedFl fl (rs t) / fl 3.6) ∧
        ∀ c1, c1 ≠ c →
          (fillTargetFl fl rs done regions canals s t).canal c1 = s.canal c1)) := by
  refine ⟨fun t => fillTargetFl_eq fl s.canal rs done regions canals s t (sameEnds_self s),
    targetedFillFl_eq fl s.canal rs done regions canals s (sameEnds_self s),
    fun hnd t ht => fillRecordsFl_eq fl rs done regions canals s hnd t ht, ?_⟩
  intro t c sur rest htd hts hpos hcands hlow hhigh
  have hflow : fillFlowFl fl (remainingNeedFl fl (rs t)) sur =
      fl (remainingNeedFl fl (rs t) / fl 3.6) := by
    unfold fillFlowFl clamp MINIMUM_FLOW
    rw [min_eq_right hhigh, max_eq_right hlow]
  have hguard :
      ¬ (t ∈ done ∨ isStable (rs t) = false ∨ remainingNeedFl fl (rs t) ≤ 0) := by
    simp only [not_or, not_le]
    exact ⟨htd, by simp [hts], hpos⟩
  have hhead : (fillPlanFl fl rs done regions canals s.canal t).head? =
      some ⟨Pass.targetedFill, c, remainingNeedFl fl (rs t), sur,
        fl (remainingNeedFl fl (rs t) / fl 3.6)⟩ := by
    unfold fillPlanFl
    rw [if_neg hguard, hcands]
    by_cases hm : fillRestFl fl (remainingNeedFl fl (rs t)) sur ≤ 0
    · rw [greedyFillFl_cons_stop fl _ _ c sur rest hm, hflow]
      rfl
    · rw [greedyFillFl_cons_go fl _ _ c sur rest hm, hflow]
      rfl
  have hmem := fillPlanFl_mem fl rs done regions canals s.canal t _
    (List.mem_of_mem_head? hhead)
  refine ⟨hmem.2.2.2.2.1, hmem.2.1, hhead, ?_⟩
  · intro hres
    have hm : fillRestFl fl (remainingNeedFl fl (rs t)) sur ≤ 0 := by
      unfold fillRestFl
      rw [hflow]
      exact hres
    have hplan : fillPlanFl fl rs done regions canals s.canal t =
        [⟨Pass.targetedFill, c, remainingNeedFl fl (rs t), sur,
          fl (remainingNeedFl fl (rs t) / fl 3.6)⟩] := by
      unfold fillPlanFl
      rw [if_neg hguard, hcands, greedyFillFl_cons_stop fl _ _ c sur rest hm, hflow]
    rw [fillTargetFl_eq fl s.canal rs done regions canals s t (sameEnds_self s), hplan,
      assignAll_cons, assignAll_nil]
    refine ⟨rfl, ?_, ?_, ?_⟩
    · rw [assign_canal, if_pos rfl]
    · rw [assign_canal, if_pos rfl]
    · intro c1 hc1
      rw [assign_canal, if_neg hc1]

theorem targeted_fill_greedy_witness :
    fillTargetFl binary64 filledTrio.world.region [0] [0, 1, 2] [0, 1]
        ⟨filledTrio.world.canal, []⟩ 2 =
      CanalState.assignAll ⟨filledTrio.world.canal, []⟩
        (fillPlanFl binary64 filledTrio.world.region [0] [0, 1, 2] [0, 1]
          filledTrio.world.canal 2) ∧
    fillRecordsFl binary64 filledTrio.world.region [0] [0, 1, 2] [0, 1]
        ⟨filledTrio.world.canal, []⟩ 2 =
      fillPlanFl binary64 filledTrio.world.region [0] [0, 1, 2] [0, 1]
        filledTrio.world.canal 2 ∧
    fillPlanFl binary64 filledTrio.world.region [0] [0, 1, 2] [0, 1] filledTrio.world.canal 2 =
      [⟨Pass.targetedFill, 1, remainingNeedFl binary64 (filledTrio.world.region 2), 31 / 2,
        binary64 (remainingNeedFl binary64 (filledTrio.world.region 2) / binary64 3.6)⟩] ∧
    ((fillTargetFl binary64 filledTrio.world.region [0] [0, 1, 2] [0, 1]
      ⟨filledTrio.world.canal, []⟩ 2).canal 1).isOpen = true ∧
    ((fillTargetFl binary64 filledTrio.world.region [0] [0, 1, 2] [0, 1]
      ⟨filledTrio.world.canal, []⟩ 2).canal 1).flowRate =
        binary64 (remainingNeedFl binary64 (filledTrio.world.region 2) / binary64 3.6) :=
  have h := targeted_fill_greedy binary64 filledTrio.world.region [0] [0, 1, 2] [0, 1]
    ⟨filledTrio.world.canal, []⟩
  have h4 := (h.2.2.2 2 1 (31 / 2) [] (by decide) (by decide!) (by decide!) (by decide!)
    (by decide!) (by decide!)).2.2.2 (by decide!)
  ⟨h.1 2, h.2.2.1 (by decide) 2 (by decide), h4.1, h4.2.1, h4.2.2.1⟩

/-! ## C18: the endgame override with a region above its target -/

theorem endgameTargetFl_min (fl : ℚ → ℚ) (E : External) (h : SortContract E.sort)
    (rs : RegionStore) (regions : List RegionRef) (t : RegionRef)
    (ht : endgameTargetFl fl E rs regions = some t) :
    t ∈ regions ∧ isExactlyFilledFl fl (rs t) = false ∧
      ∀ r ∈ regions, isExactlyFilledFl fl (rs r) = false →
        endgameKeyFl fl rs t ≤ endgameKeyFl fl rs r := by
  obtain ⟨hperm, hsorted⟩ := h (endgameKeyFl fl rs) (endgameRemainingFl fl rs regions)
  unfold endgameTargetFl endgameSortedFl at ht
  generalize E.sort (fun a b => decide (endgameKeyFl fl rs a < endgameKeyFl fl rs b))
    (endgameRemainingFl fl rs regions) = sorted at ht hperm hsorted
  cases sorted with
  | nil => simp at ht
  | cons x tl =>
    simp only [List.head?_cons, Option.some.injEq] at ht
    subst ht
    have hmem : ∀ r, r ∈ x :: tl ↔ r ∈ regions ∧ isExactlyFilledFl fl (rs r) = false := by
      intro r
      rw [hperm.mem_iff]
      simp [endgameRemainingFl]
    refine ⟨((hmem x).mp (List.mem_cons_self _ _)).1,
      ((hmem x).mp (List.mem_cons_self _ _)).2, ?_⟩
    intro r hr hex
    rcases List.mem_cons.mp ((hmem r).mpr ⟨hr, hex⟩) with rfl | hin
    · exact le_rfl
    · exact (List.pairwise_cons.mp hsorted).1 r hin

/-- A region whose computed key `need - level` is at most the computed key of a
region with level at least need + 1.1 has a computed `needed` of at most 0,
provided its level is a number of the format. -/
theorem needed_nonpos_of_key {fl : ℚ → ℚ} {u tiny : ℚ} (h : Rounding fl u tiny)
    (x t : Region) (hlv : x.waterNeed + 1.1 ≤ x.waterLevel)
    (hrep : fl t.waterLevel = t.waterLevel)
    (hkey : fl (t.waterNeed - t.waterLevel) ≤ fl (x.waterNeed - x.waterLevel)) :
    remainingNeedFl fl t ≤ 0 := by
  have hu := h.u_le
  have hu0 := h.u_nonneg
  have ht := h.tiny_le
  by_contra hc
  push_neg at hc
  unfold remainingNeedFl at hc
  have h1 : 0 < fl (t.waterNeed + 1.0) - t.waterLevel := by
    by_contra hn
    push_neg at hn
    have := h.mono hn
    rw [h.zero] at this
    linarith
  have h2 : t.waterLevel < t.waterNeed + 1.0 := by
    by_contra hn
    push_neg at hn
    have := h.mono hn
    rw [hrep] at this
    linarith
  have h3 : fl (-1) ≤ fl (t.waterNeed - t.waterLevel) := by
    apply h.mono
    norm_num at h2
    linarith
  have h4 : fl (x.waterNeed - x.waterLevel) ≤ fl (-1.1) := by
    apply h.mono
    linarith
  have e1 := h.err (-1) (by rw [abs_neg, abs_one]; linarith)
  have e2 := h.err (-1.1) (by
    rw [abs_neg, abs_of_pos (by norm_num : (0 : ℚ) < 1.1)]
    norm_num
    linarith)
  rw [abs_neg, abs_one, abs_le] at e1
  rw [abs_neg, abs_of_pos (by norm_num : (0 : ℚ) < 1.1), abs_le] at e2
  norm_num at e1 e2
  linarith [e1.1, e2.2]

/-- In the scenario `brimful`, three hours before the end, region 0 has level at
least need + 1.1, in exact as in double arithmetic; in double arithmetic
`isExactlyFilled` holds of it, because need + 1.0 is rounded up and the distance
of the level from it falls below the double nearest 0.1. Region 0 is left out
of `remaining`, the sort puts region 1 at the front, which has `needed` = 3, and
the endgame override opens canal 0 from region 2 into region 1. The keys of
regions 1 and 2 differ, so the order of ties plays no part. -/
theorem brimful_endgame_assigns :
    brimful.mgr.SimulationMax - brimful.mgr.hour ≤ 5 ∧
    (brimful.region 0).waterNeed + 1.1 ≤ (brimful.region 0).waterLevel ∧
    binary64 ((brimful.region 0).waterNeed + binary64 1.1) ≤ (brimful.region 0).waterLevel ∧
    isExactlyFilled (brimful.region 0) = false ∧
    isExactlyFilledFl binary64 (brimful.region 0) = true ∧
    endgameRemainingFl binary64 brimful.region [0, 1, 2] = [1, 2] ∧
    endgameKeyFl binary64 brimful.region 1 < endgameKeyFl binary64 brimful.region 2 ∧
    endgameTargetFl binary64 stdExternal brimful.region [0, 1, 2] = some 1 ∧
    endgameTargetFl binary64 revExternal brimful.region [0, 1, 2] = some 1 ∧
    remainingNeedFl binary64 (brimful.region 1) = 3 ∧
    (endgameOverrideFl binary64 stdExternal brimful.region brimful.mgr [0, 1, 2] [0]
      ⟨brimful.canal, []⟩).trace =
        [⟨Pass.endgame, 0, 3, binary64 4.6, binary64 (3 / binary64 3.6)⟩] ∧
    ((endgameOverrideFl binary64 stdExternal brimful.region brimful.mgr [0, 1, 2] [0]
      ⟨brimful.canal, []⟩).canal 0).isOpen = true := by
  decide!

/-- C18 (amended): if some region of the collection that `isExactlyFilled`,
evaluated in the arithmetic of the floating-point format, finds not exactly
filled has level at least need + 1.1, then for every sort that meets the
contract of `std::sort`, whatever it does with ties, the region at the front of
the sorted vector has a computed `needed <= 0` and the endgame override leaves
every canal as it found it and adds no record to the history -- in the final
five hours as in any other. The levels of the regions are numbers of the
format. -/
theorem endgame_idle_when_overfull (fl : ℚ → ℚ) (u tiny : ℚ) (hfl : Rounding fl u tiny)
    (E : External) (hsort : SortContract E.sort) (rs : RegionStore) (mgr : Manager)
    (regions : List RegionRef) (canals : List CanalRef) (x : RegionRef) (hx : x ∈ regions)
    (hrep : ∀ r ∈ regions, fl (rs r).waterLevel = (rs r).waterLevel)
    (hnf : isExactlyFilledFl fl (rs x) = false)
    (hlv : (rs x).waterNeed + 1.1 ≤ (rs x).waterLevel) :
    (∀ t, endgameTargetFl fl E rs regions = some t → remainingNeedFl fl (rs t) ≤ 0) ∧
    ∀ s, endgameOverrideFl fl E rs mgr regions canals s = s := by
  have htarget : ∀ t, endgameTargetFl fl E rs regions = some t →
      remainingNeedFl fl (rs t) ≤ 0 := by
    intro t ht
    obtain ⟨htin, _, hmin⟩ := endgameTargetFl_min fl E hsort rs regions t ht
    exact needed_nonpos_of_key hfl (rs x) (rs t) hlv (hrep t htin) (hmin x hx hnf)
  refine ⟨htarget, ?_⟩
  intro s
  unfold endgameOverrideFl
  split
  · split
    · rfl
    · rename_i t ht
      simp only []
      rw [if_neg (not_lt.mpr (htarget t ht))]
  · rfl

theorem endgame_idle_when_overfull_witness :
    (lateOverfull.world.region 0).waterNeed + 1.1 ≤ (lateOverfull.world.region 0).waterLevel ∧
    isExactlyFilledFl binary64 (lateOverfull.world.region 0) = false ∧
    endgameTargetFl binary64 stdExternal lateOverfull.world.region [0, 1] = some 0 ∧
    remainingNeedFl binary64 (lateOverfull.world.region 0) ≤ 0 ∧
    endgameOverrideFl binary64 stdExternal lateOverfull.world.region lateOverfull.world.mgr
      [0, 1] [0] ⟨lateOverfull.world.canal, []⟩ = ⟨lateOverfull.world.canal, []⟩ :=
  have h := endgame_idle_when_overfull binary64 (1 / 2 ^ 53) (1 / 2 ^ 1022) binary64_rounding
    stdExternal stableSort_contract lateOverfull.world.region lateOverfull.world.mgr [0, 1] [0]
    0 (by decide) (by decide!) (by decide!) (by decide!)
  ⟨by decide!, by decide!, by decide!, h.1 0 (by decide!), h.2 _⟩

/-! ## C19: the overshoot of targeted fill -/

theorem rounded_36_bounds {fl : ℚ → ℚ} {u tiny : ℚ} (h : Rounding fl u tiny) :
    3.6 * (1 - u) ≤ fl 3.6 ∧ fl 3.6 ≤ 3.6 * (1 + u) := by
  have ht := h.tiny_le
  have e := h.err 3.6 (by
    rw [abs_of_pos (by norm_num : (0 : ℚ) < 3.6)]
    norm_num
    linarith)
  rw [abs_of_pos (by norm_num : (0 : ℚ) < 3.6), abs_le] at e
  constructor <;> linarith [e.1, e.2]

theorem fillFlowFl_bounds (fl : ℚ → ℚ) (n sur : ℚ) :
    1 / 4 ≤ fillFlowFl fl n sur ∧ fillFlowFl fl n sur ≤ max (1 / 4) (fl (n / fl 3.6)) := by
  unfold fillFlowFl clamp MINIMUM_FLOW
  have h25 : (0.25 : ℚ) = 1 / 4 := by norm_num
  rw [h25]
  exact ⟨le_max_left _ _, max_le_max le_rfl (min_le_right _ _)⟩

/-- The flow of one assignment, times 3.6 and the square of `1 - u`, is at most
the running `needed` plus 0.9. -/
theorem fillFlowFl_le {fl : ℚ → ℚ} {u tiny : ℚ} (h : Rounding fl u tiny) (n sur : ℚ)
    (hn : 0 < n) : fillFlowFl fl n sur * 3.6 * (1 - u) ^ 2 ≤ n + 0.9 := by
  obtain ⟨hc1, _⟩ := rounded_36_bounds h
  obtain ⟨hf0, hf⟩ := fillFlowFl_bounds fl n sur
  have hu := h.u_le
  have hu0 := h.u_nonneg
  have h1u : 0 < 1 - u := by linarith
  have h36 : (3.6 : ℚ) = 18 / 5 := by norm_num
  have h09 : (0.9 : ℚ) = 9 / 10 := by norm_num
  generalize fillFlowFl fl n sur = f at hf0 hf ⊢
  generalize fl 3.6 = c at hc1 hf ⊢
  rw [h36] at hc1 ⊢
  rw [h09]
  have hcpos : 0 < c := by nlinarith
  have hD1 : (1 - u) ^ 2 ≤ 1 := by nlinarith
  have hD0 : 0 < (1 - u) ^ 2 := by positivity
  have hsmall : f ≤ 1 / 4 → f * (18 / 5) * (1 - u) ^ 2 ≤ n + 9 / 10 := by
    intro hle
    have h1 : f * (18 / 5) ≤ 9 / 10 := by linarith
    have h2 : f * (18 / 5) * (1 - u) ^ 2 ≤ f * (18 / 5) * 1 :=
      mul_le_mul_of_nonneg_left hD1 (by positivity)
    linarith
  rcases le_total (fl (n / c)) (1 / 4) with hq | hq
  · rw [max_eq_left hq] at hf
    exact hsmall hf
  · rw [max_eq_right hq] at hf
    by_cases hw : tiny ≤ n / c
    · have hwpos : 0 < n / c := lt_of_lt_of_le h.tiny_pos hw
      have e := h.err (n / c) (by rwa [abs_of_pos hwpos])
      rw [abs_of_pos hwpos, abs_le] at e
      have hwc : n / c * c = n := div_mul_cancel₀ n (ne_of_gt hcpos)
      generalize n / c = w at *
      generalize fl w = q at *
      have hfw : f ≤ w * (1 + u) := by linarith [e.2]
      have s1 : f * (18 / 5) * (1 - u) ^ 2 ≤ f * c * (1 - u) := by
        have : f * (18 / 5 * (1 - u)) ≤ f * c := mul_le_mul_of_nonneg_left hc1 (by linarith)
        have := mul_le_mul_of_nonneg_right this (le_of_lt h1u)
        calc f * (18 / 5) * (1 - u) ^ 2 = f * (18 / 5 * (1 - u)) * (1 - u) := by ring
          _ ≤ f * c * (1 - u) := this
      have s2 : f * c * (1 - u) ≤ w * (1 + u) * c * (1 - u) := by
        have := mul_le_mul_of_nonneg_right hfw (le_of_lt hcpos)
        exact mul_le_mul_of_nonneg_right this (le_of_lt h1u)
      have s3 : w * (1 + u) * c * (1 - u) = n * (1 - u ^ 2) := by
        rw [← hwc]
        ring
      have s4 : n * (1 - u ^ 2) ≤ n := by nlinarith
      linarith
    · push_neg at hw
      have hq1 := h.mono (le_of_lt hw)
      rw [h.tiny_fixed] at hq1
      have := h.tiny_le
      exact hsmall (by linarith)

/-- The flow of one assignment, times 3.6 and the square of `1 - u`, is at most
the amount that the pass takes off `needed`. -/
theorem fillFlowFl_le_debit {fl : ℚ → ℚ} {u tiny : ℚ} (h : Rounding fl u tiny)
    (n sur : ℚ) :
    fillFlowFl fl n sur * 3.6 * (1 - u) ^ 2 ≤ fl (fillFlowFl fl n sur * fl 3.6) ∧
      0 ≤ fl (fillFlowFl fl n sur * fl 3.6) := by
  obtain ⟨hc1, _⟩ := rounded_36_bounds h
  obtain ⟨hf0, _⟩ := fillFlowFl_bounds fl n sur
  have hu := h.u_le
  have hu0 := h.u_nonneg
  have ht := h.tiny_le
  have h1u : 0 < 1 - u := by linarith
  have h36 : (3.6 : ℚ) = 18 / 5 := by norm_num
  rw [h36] at hc1 ⊢
  generalize fillFlowFl fl n sur = f at hf0 ⊢
  have hc2 : 18 / 5 * (31 / 32) ≤ fl (18 / 5) := by nlinarith
  have hfc : 1 / 4 ≤ f * fl (18 / 5) := by nlinarith
  have hfcpos : 0 < f * fl (18 / 5) := by linarith
  have e := h.err (f * fl (18 / 5)) (by
    rw [abs_of_pos hfcpos]
    linarith)
  rw [abs_of_pos hfcpos, abs_le] at e
  generalize fl (18 / 5) = c at *
  generalize fl (f * c) = p at *
  have s1 : f * (18 / 5) * (1 - u) ^ 2 ≤ f * c * (1 - u) := by
    have : f * (18 / 5 * (1 - u)) ≤ f * c := mul_le_mul_of_nonneg_left hc1 (by linarith)
    have := mul_le_mul_of_nonneg_right this (le_of_lt h1u)
    calc f * (18 / 5) * (1 - u) ^ 2 = f * (18 / 5 * (1 - u)) * (1 - u) := by ring
      _ ≤ f * c * (1 - u) := this
  have s2 : f * c * (1 - u) ≤ p := by linarith [e.1]
  have s3 : 0 ≤ f * c * (1 - u) := by positivity
  exact ⟨by linarith, by linarith⟩

/-- A positive `needed` after an assignment is at most `1 + u` times the exact
difference of the previous `needed` and the amount taken off, which is
positive. -/
theorem fillRestFl_le {fl : ℚ → ℚ} {u tiny : ℚ} (h : Rounding fl u tiny) (a sur : ℚ)
    (hpos : 0 < fillRestFl fl (fl a) sur) :
    0 < fl a - fl (fillFlowFl fl (fl a) sur * fl 3.6) ∧
    fillRestFl fl (fl a) sur ≤
      (fl a - fl (fillFlowFl fl (fl a) sur * fl 3.6)) * (1 + u) := by
  unfold fillRestFl at hpos ⊢
  have hd : 0 < fl a - fl (fillFlowFl fl (fl a) sur * fl 3.6) := by
    by_contra hn
    push_neg at hn
    have := h.mono hn
    rw [h.zero] at this
    linarith
  refine ⟨hd, ?_⟩
  have e := h.err_sub a (fillFlowFl fl (fl a) sur * fl 3.6)
  rw [abs_of_pos hd, abs_le] at e
  linarith [e.2]

/-- The sum of `flow * 3.6` over the assignments of a greedy plan, times
`(1 - u) ^ 2` to the number of assignments, is at most the initial `needed`
plus 0.9. -/
theorem greedyFillFl_sum_le {fl : ℚ → ℚ} {u tiny : ℚ} (h : Rounding fl u tiny) (p : Pass) :
    ∀ (cands : List (CanalRef × ℚ)) (a : ℚ), 0 < fl a →
      ((greedyFillFl fl p (fl a) cands).1.map (fun r => r.flow * 3.6)).sum *
        ((1 - u) ^ 2) ^ (greedyFillFl fl p (fl a) cands).1.length ≤ fl a + 0.9
  | [], a, hn => by
    simp only [greedyFillFl, List.map_nil, List.sum_nil, List.length_nil, pow_zero, mul_one]
    have : (0 : ℚ) < 0.9 := by norm_num
    linarith
  | (c, sur) :: rest, a, hn => by
    have hu := h.u_le
    have hu0 := h.u_nonneg
    have hD1 : (1 - u) ^ 2 ≤ 1 := by nlinarith
    have hD0 : 0 ≤ (1 - u) ^ 2 := by positivity
    by_cases hm : fillRestFl fl (fl a) sur ≤ 0
    · rw [greedyFillFl_cons_stop fl p _ c sur _ hm]
      simp only [List.map_cons, List.map_nil, List.sum_cons, List.sum_nil, add_zero,
        List.length_singleton, pow_one]
      exact fillFlowFl_le h _ sur hn
    · rw [greedyFillFl_cons_go fl p _ c sur _ hm]
      push_neg at hm
      obtain ⟨hd, hrest⟩ := fillRestFl_le h a sur hm
      obtain ⟨hdeb, hdeb0⟩ := fillFlowFl_le_debit h (fl a) sur
      have ih := greedyFillFl_sum_le h p rest
        (fl a - fl (fillFlowFl fl (fl a) sur * fl 3.6)) hm
      have hrest' : fl (fl a - fl (fillFlowFl fl (fl a) sur * fl 3.6)) =
          fillRestFl fl (fl a) sur := rfl
      rw [hrest'] at ih
      simp only [List.map_cons, List.sum_cons, List.length_cons]
      rw [pow_succ ((1 - u) ^ 2)]
      have hk1 :
          ((1 - u) ^ 2) ^ (greedyFillFl fl p (fillRestFl fl (fl a) sur) rest).1.length ≤ 1 :=
        pow_le_one₀ hD0 hD1
      have hk0 :
          0 ≤ ((1 - u) ^ 2) ^ (greedyFillFl fl p (fillRestFl fl (fl a) sur) rest).1.length :=
        pow_nonneg hD0 _
      generalize ((greedyFillFl fl p (fillRestFl fl (fl a) sur) rest).1.map
        (fun r => r.flow * 3.6)).sum = S at ih ⊢
      generalize ((1 - u) ^ 2) ^ (greedyFillFl fl p (fillRestFl fl (fl a) sur) rest).1.length =
        K at ih hk1 hk0 ⊢
      generalize fillRestFl fl (fl a) sur = n1 at ih hrest hm ⊢
      generalize fl (fillFlowFl fl (fl a) sur * fl 3.6) = d at hd hrest hdeb hdeb0 ⊢
      generalize fillFlowFl fl (fl a) sur * 3.6 = F at hdeb ⊢
      generalize fl a = n at hn hd hrest ⊢
      have h09 : (0.9 : ℚ) = 9 / 10 := by norm_num
      rw [h09] at ih ⊢
      have t1 : F * (K * (1 - u) ^ 2) ≤ d := by
        have b1 : F * (1 - u) ^ 2 * K ≤ d * K := mul_le_mul_of_nonneg_right hdeb hk0
        have b2 : d * K ≤ d * 1 := mul_le_mul_of_nonneg_left hk1 hdeb0
        linarith
      have t2 : S * (K * (1 - u) ^ 2) ≤ (n - d) + 9 / 10 := by
        have a1 : S * K * (1 - u) ^ 2 ≤ (n1 + 9 / 10) * (1 - u) ^ 2 :=
          mul_le_mul_of_nonneg_right ih hD0
        have a2 : n1 * (1 - u) ^ 2 ≤ (n - d) * (1 + u) * (1 - u) ^ 2 :=
          mul_le_mul_of_nonneg_right hrest hD0
        have a3 : (n - d) * ((1 + u) * (1 - u) ^ 2) ≤ (n - d) * 1 := by
          have : (1 + u) * (1 - u) ^ 2 ≤ 1 := by nlinarith
          exact mul_le_mul_of_nonneg_left this (le_of_lt hd)
        linarith
      calc (F + S) * (K * (1 - u) ^ 2) = F * (K * (1 - u) ^ 2) + S * (K * (1 - u) ^ 2) := by ring
        _ ≤ d + ((n - d) + 9 / 10) := add_le_add t1 t2
        _ = n + 9 / 10 := by ring

theorem fillPlanFl_overshoot {fl : ℚ → ℚ} {u tiny : ℚ} (h : Rounding fl u tiny)
    (rs : RegionStore) (done regions : List RegionRef) (canals : List CanalRef)
    (cs : CanalStore) (t : RegionRef) (hn : 0 < remainingNeedFl fl (rs t)) :
    ((fillPlanFl fl rs done regions canals cs t).map (fun a => a.flow * 3.6)).sum ≤
        (remainingNeedFl fl (rs t) + 0.9) /
          (1 - u) ^ (2 * (fillPlanFl fl rs done regions canals cs t).length) ∧
      ∀ a ∈ (fillPlanFl fl rs done regions canals cs t).dropLast,
        0 < fl (a.value - fl (a.flow * fl 3.6)) := by
  have hu := h.u_le
  have h1u : 0 < 1 - u := by linarith
  have h09 : (0 : ℚ) < 0.9 := by norm_num
  unfold fillPlanFl
  split
  · refine ⟨?_, fun a ha => by simp at ha⟩
    simp only [List.map_nil, List.sum_nil, List.length_nil, mul_zero, pow_zero, div_one]
    linarith
  · refine ⟨?_, ?_⟩
    · rw [le_div_iff₀ (by positivity), pow_mul]
      exact greedyFillFl_sum_le h Pass.targetedFill _ _ hn
    · intro a ha
      have hr := greedyFillFl_dropLast fl _ _ _ a ha
      have hf := (greedyFillFl_mem fl _ _ _ a (List.mem_of_mem_dropLast ha)).2.2
      unfold fillRestFl at hr
      rw [← hf] at hr
      exact hr

/-- In double arithmetic the sum of `flow * 3.6` over the assignments of
targeted fill into region 0 reaches `needed + 0.9` in the scenario `threeDonors`
and exceeds it in the scenario `threeDonorsOver`: after two assignments
`needed` is a positive rounding residue, `2 ^ -49` and `2 ^ -52`, and the third
canal is opened with the minimum flow. -/
theorem threeDonors_overshoot :
    0 < remainingNeedFl binary64 (threeDonors.region 0) ∧
    ((fillRecordsFl binary64 threeDonors.region [] [0, 1, 2, 3] [0, 1, 2]
      ⟨threeDonors.canal, []⟩ 0).map (fun a => (a.canal, a.value, a.flow))) =
        [(0, 99, binary64 23.23), (1, binary64 15.372, binary64 4.27),
          (2, 1 / 2 ^ 49, 0.25)] ∧
    ((fillRecordsFl binary64 threeDonors.region [] [0, 1, 2, 3] [0, 1, 2]
      ⟨threeDonors.canal, []⟩ 0).map (fun a => a.flow * 3.6)).sum =
        remainingNeedFl binary64 (threeDonors.region 0) + 0.9 ∧
    0 < remainingNeedFl binary64 (threeDonorsOver.region 0) ∧
    ((fillRecordsFl binary64 threeDonorsOver.region [] [0, 1, 2, 3] [0, 1, 2]
      ⟨threeDonorsOver.canal, []⟩ 0).map (fun a => (a.canal, a.value, a.flow))) =
        [(0, 36, binary64 9.45), (1, binary64 1.980000000000004, binary64 0.550000000000001),
          (2, 1 / 2 ^ 52, 0.25)] ∧
    remainingNeedFl binary64 (threeDonorsOver.region 0) + 0.9 <
      ((fillRecordsFl binary64 threeDonorsOver.region [] [0, 1, 2, 3] [0, 1, 2]
        ⟨threeDonorsOver.canal, []⟩ 0).map (fun a => a.flow * 3.6)).sum := by
  decide!

/-- C19 (amended): in targeted fill, with the arithmetic of a floating-point
format of unit roundoff `u`, for every target with a computed
`needed = need + 1.0 - level > 0`, the sum of `flow * 3.6` over the `k`
assignments that the processing of the target makes is at most
`(needed + 0.9) / (1 - u) ^ (2 * k)` -- the target is over-provisioned by the
minimum-flow floor and by rounding only -- and every one of these assignments
but the last leaves a computed remaining `needed` above 0; when the region list
holds no region twice these are all the records of the pass for canals into
that region. -/
theorem targeted_fill_overshoot (fl : ℚ → ℚ) (u tiny : ℚ) (hfl : Rounding fl u tiny)
    (rs : RegionStore) (done regions : List RegionRef) (canals : List CanalRef)
    (s : CanalState) :
    (∀ t, 0 < remainingNeedFl fl (rs t) →
      ∃ recs, (fillTargetFl fl rs done regions canals s t).trace = s.trace ++ recs ∧
        (recs.map (fun a => a.flow * 3.6)).sum ≤
          (remainingNeedFl fl (rs t) + 0.9) / (1 - u) ^ (2 * recs.length) ∧
        ∀ a ∈ recs.dropLast, 0 < fl (a.value - fl (a.flow * fl 3.6))) ∧
    (regions.Nodup → ∀ t ∈ regions, 0 < remainingNeedFl fl (rs t) →
      ((fillRecordsFl fl rs done regions canals s t).map (fun a => a.flow * 3.6)).sum ≤
        (remainingNeedFl fl (rs t) + 0.9) /
          (1 - u) ^ (2 * (fillRecordsFl fl rs done regions canals s t).length) ∧
      ∀ a ∈ (fillRecordsFl fl rs done regions canals s t).dropLast,
        0 < fl (a.value - fl (a.flow * fl 3.6))) := by
  refine ⟨?_, ?_⟩
  · intro t hn
    refine ⟨fillPlanFl fl rs done regions canals s.canal t, ?_,
      fillPlanFl_overshoot hfl rs done regions canals s.canal t hn⟩
    rw [fillTargetFl_eq fl s.canal rs done regions canals s t (sameEnds_self s), assignAll_trace]
  · intro hnd t ht hn
    rw [fillRecordsFl_eq fl rs done regions canals s hnd t ht]
    exact fillPlanFl_overshoot hfl _ _ _ _ _ t hn

theorem targeted_fill_overshoot_witness :
    (∃ recs, (fillTargetFl binary64 thirstyQuad.world.region [] [0, 1, 2, 3] [0, 1, 2]
        ⟨thirstyQuad.world.canal, []⟩ 0).trace =
          (⟨thirstyQuad.world.canal, []⟩ : CanalState).trace ++ recs ∧
        (recs.map (fun a => a.flow * 3.6)).sum ≤
          (remainingNeedFl binary64 (thirstyQuad.world.region 0) + 0.9) /
            (1 - 1 / 2 ^ 53) ^ (2 * recs.length) ∧
        ∀ a ∈ recs.dropLast, 0 < binary64 (a.value - binary64 (a.flow * binary64 3.6))) ∧
    ((fillRecordsFl binary64 thirstyQuad.world.region [] [0, 1, 2, 3] [0, 1, 2]
        ⟨thirstyQuad.world.canal, []⟩ 0).map (fun a => a.flow * 3.6)).sum ≤
      (remainingNeedFl binary64 (thirstyQuad.world.region 0) + 0.9) /
        (1 - 1 / 2 ^ 53) ^ (2 * (fillRecordsFl binary64 thirstyQuad.world.region []
          [0, 1, 2, 3] [0, 1, 2] ⟨thirstyQuad.world.canal, []⟩ 0).length) ∧
    0 < binary64 (thirstyQuadFirst.value - binary64 (thirstyQuadFirst.flow * binary64 3.6)) :=
  have h := targeted_fill_overshoot binary64 (1 / 2 ^ 53) (1 / 2 ^ 1022) binary64_rounding
    thirstyQuad.world.region [] [0, 1, 2, 3] [0, 1, 2] ⟨thirstyQuad.world.canal, []⟩
  have h2 := h.2 (by decide) 0 (by decide) (by decide!)
  ⟨h.1 0 (by decide!), h2.1, h2.2 thirstyQuadFirst (by decide!)⟩

end Acequia
